import Mathlib

/-!
Shallow embedding of the contest-scorer engine (TypeScript) in Lean 4.

Conventions used throughout:
* JavaScript `Map` objects are modelled as insertion-ordered association
  lists (`List (String × β)`): `mGet` returns the first binding, `mSet`
  updates in place or appends, matching `Map.get`/`Map.set`.
* JavaScript `Set` objects are modelled as duplicate-free lists in
  insertion order (`sAdd` appends only when absent).
* JavaScript numbers are modelled as `ℚ`; the special value `NaN` is
  modelled by `Option ℚ` = `none` where it can arise (failed `Number(...)`
  parses, invalid `Date`s).  All comparisons against `none` are `false`,
  matching `NaN` comparison semantics.
* Absent record fields of ADIF records are modelled as `""`; every read
  in the source goes through `String(x || '')` or a truthiness test, for
  which `undefined` and `''` behave identically.
* `Date` values are modelled as `Option ℤ` milliseconds since the epoch
  (`none` = Invalid Date).
-/

namespace ContestScorer

abbrev Callsign := String

/-- `Map.get`: first binding for the key, if any. -/
def mGet {β : Type} (m : List (String × β)) (k : String) : Option β :=
  match m with
  | [] => none
  | (k', v) :: rest => if k' = k then some v else mGet rest k

/-- `Map.set`: replace the existing binding in place, else append. -/
def mSet {β : Type} (m : List (String × β)) (k : String) (v : β) :
    List (String × β) :=
  match m with
  | [] => [(k, v)]
  | (k', v') :: rest =>
    if k' = k then (k, v) :: rest else (k', v') :: mSet rest k v

/-- `Map.has`. -/
def mHas {β : Type} (m : List (String × β)) (k : String) : Bool :=
  (mGet m k).isSome

/-- `Set.add`: append when not already present. -/
def sAdd (s : List String) (x : String) : List String :=
  if x ∈ s then s else s ++ [x]

/-- `counts.set(k, (counts.get(k) || 0) + 1)`. -/
def bumpCount (m : List (String × ℕ)) (k : String) : List (String × ℕ) :=
  mSet m k ((mGet m k).getD 0 + 1)

/-- Numeric value of a decimal digit character. -/
def digitVal (c : Char) : ℕ := c.toNat - 48

/-- Whether every character of the list is a decimal digit. -/
def allDigits (l : List Char) : Bool := l.all (·.isDigit)

/-- Value of a digit string (assumed all digits). -/
def digitsToNat (l : List Char) : ℕ :=
  l.foldl (fun acc c => acc * 10 + digitVal c) 0

/-- Addition on `ℚ`, written through `mkRat` so that concrete values
reduce inside the kernel (the core field operations are irreducible;
`mkRat` normalizes, so the result is the same rational). -/
def qadd (a b : ℚ) : ℚ :=
  mkRat (a.num * b.den + b.num * a.den) (a.den * b.den)

/-- Subtraction on `ℚ` through `mkRat`. -/
def qsub (a b : ℚ) : ℚ :=
  mkRat (a.num * b.den - b.num * a.den) (a.den * b.den)

/-- Multiplication on `ℚ` through `mkRat`. -/
def qmul (a b : ℚ) : ℚ :=
  mkRat (a.num * b.num) (a.den * b.den)

/-- Division on `ℚ` through `mkRat` (division by zero gives 0; the
engine only ever divides by nonzero constants). -/
def qdiv (a b : ℚ) : ℚ :=
  let n := a.num * (b.den : ℤ)
  let d := b.num * (a.den : ℤ)
  if d < 0 then mkRat (-n) d.natAbs else mkRat n d.natAbs

/-- JavaScript `Number(s)` restricted to plain decimal literals, which is
the only shape the engine's inputs use.  `Number('') = 0`; a string that
is not a decimal literal gives `NaN`, modelled as `none`. -/
def jsNumber (s : String) : Option ℚ :=
  if s = "" then some 0
  else
    let (neg, body) :=
      match s.toList with
      | '-' :: rest => (true, rest)
      | l => (false, l)
    let intPart := body.takeWhile (· ≠ '.')
    let rest := body.dropWhile (· ≠ '.')
    let fracPart :=
      match rest with
      | '.' :: fr => some fr
      | [] => some []
      | _ => none
    match fracPart with
    | none => none
    | some fr =>
      if allDigits intPart && allDigits fr && !(intPart = [] && fr = []) then
        let v : ℚ := mkRat
          ((digitsToNat intPart * 10 ^ fr.length + digitsToNat fr : ℕ) : ℤ)
          (10 ^ fr.length)
        some (if neg then -v else v)
      else none

/-- Is the (proleptic Gregorian) year a leap year? -/
def isLeapYear (y : ℕ) : Bool :=
  y % 4 = 0 && (y % 100 ≠ 0 || y % 400 = 0)

/-- Number of days in a month. -/
def daysInMonth (y m : ℕ) : ℕ :=
  if m = 2 then (if isLeapYear y then 29 else 28)
  else if m = 4 || m = 6 || m = 9 || m = 11 then 30
  else 31

/-- Days from 1970-01-01 to `y-m-d` (civil-from-days algorithm). -/
def epochDays (y m d : ℕ) : ℤ :=
  let y' : ℤ := if m ≤ 2 then (y : ℤ) - 1 else (y : ℤ)
  let era : ℤ := Int.fdiv y' 400
  let yoe : ℤ := y' - era * 400
  let mp : ℤ := if m ≥ 3 then (m : ℤ) - 3 else (m : ℤ) + 9
  let doy : ℤ := (153 * mp + 2) / 5 + (d : ℤ) - 1
  let doe : ℤ := yoe * 365 + yoe / 4 - yoe / 100 + doy
  era * 146097 + doe - 719468

/-- Epoch milliseconds of a civil date-time, with the validity checks the
JavaScript `Date` ISO parser performs (months 1–12, real day of month,
`hh:mm:ss` in range, plus the special `24:00:00`). -/
def civilToMs (y m d h mi s : ℕ) : Option ℤ :=
  if 1 ≤ m && m ≤ 12 && 1 ≤ d && d ≤ daysInMonth y m &&
      ((h ≤ 23 && mi ≤ 59 && s ≤ 59) || (h = 24 && mi = 0 && s = 0)) then
    some ((((epochDays y m d * 24 + (h : ℤ)) * 60 + (mi : ℤ)) * 60 + (s : ℤ)) * 1000)
  else none

/-- Split a character list into fixed-width all-digit fields; `none` when
a field is short or non-numeric (the resulting ISO string would not parse). -/
def digitField (l : List Char) (start len : ℕ) : Option ℕ :=
  let f := (l.drop start).take len
  if f.length = len && allDigits f then some (digitsToNat f) else none

/-! ## `src/utils.ts` -/

/-- `parseDateTime(date, time)` from `utils.ts`: slices `YYYYMMDD` and
`HHMMSS` out of the strings, builds an ISO string and parses it with the
JavaScript `Date` constructor.  `none` models an Invalid Date. -/
def parseDateTime (date time : String) : Option ℤ :=
  let d := date.toList
  let t := time.toList
  match digitField d 0 4, digitField d 4 2, digitField d 6 2,
      digitField t 0 2, digitField t 2 2, digitField t 4 2 with
  | some y, some m, some dd, some h, some mi, some s => civilToMs y m dd h mi s
  | _, _, _, _, _, _ => none

/-- `new Date(s)` on the full ISO strings the configuration uses
(`YYYY-MM-DDTHH:MM:SSZ`); any other shape is modelled as Invalid Date. -/
def parseISODateTime (s : String) : Option ℤ :=
  let l := s.toList
  if l.length = 20 && l.get? 4 = some '-' && l.get? 7 = some '-' &&
      l.get? 10 = some 'T' && l.get? 13 = some ':' && l.get? 16 = some ':' &&
      l.get? 19 = some 'Z' then
    match digitField l 0 4, digitField l 5 2, digitField l 8 2,
        digitField l 11 2, digitField l 14 2, digitField l 17 2 with
    | some y, some m, some d, some h, some mi, some sec => civilToMs y m d h mi sec
    | _, _, _, _, _, _ => none
  else none

/-- `getTimeDiffInMinutes`: `|d1 - d2| / 60000`; `NaN` (modelled `none`)
when either date is invalid. -/
def getTimeDiffInMinutes (d1 d2 : Option ℤ) : Option ℚ :=
  match d1, d2 with
  | some a, some b => some (qdiv (|((a - b : ℤ) : ℚ)|) (1000 * 60 : ℕ))
  | _, _ => none

/-- `a <= b` on JavaScript numbers where `a` may be `NaN`. -/
def jleq (a : Option ℚ) (b : ℚ) : Bool :=
  match a with
  | some x => x ≤ b
  | none => false

/-- `d1 >= d2` on `Date`s; false when either is invalid. -/
def dgeq (d1 d2 : Option ℤ) : Bool :=
  match d1, d2 with
  | some a, some b => a ≥ b
  | _, _ => false

/-- `d1 <= d2` on `Date`s; false when either is invalid. -/
def dleq (d1 d2 : Option ℤ) : Bool :=
  match d1, d2 with
  | some a, some b => a ≤ b
  | _, _ => false

/-- `areFrequenciesWithinTolerance` from `utils.ts`, specialised to its
call shape (first argument an already-converted number, second a string).
The difference is compared after multiplying both sides by 1000. -/
def areFrequenciesWithinTolerance (freq1 : Option ℚ) (freq2 : String)
    (toleranceMhz : ℚ) : Bool :=
  let freqNum2 := jsNumber freq2
  match freq1, freqNum2 with
  | some f1, some f2 =>
    |qsub (qmul f1 1000) (qmul f2 1000)| ≤ qmul toleranceMhz 1000
  | _, _ => false

/-! ## Data model (`src/lib/types/index.ts`) -/

/-- One raw ADIF record.  Only the fields the engine reads are modelled;
an absent field is `""` (every read is `String(x || '')` or a
truthiness test, for which `undefined` and `''` agree). -/
structure Contact where
  call : String := ""
  qso_date : String := ""
  time_on : String := ""
  freq : String := ""
  band : String := ""
  mode : String := ""
  rst_sent : String := ""
  rst_rcvd : String := ""
  stx_string : String := ""
  srx_string : String := ""
deriving DecidableEq

/-- `getDateTimeFromContact` from `utils.ts`. -/
def getDateTimeFromContact (contact : Contact) : String × String :=
  (contact.qso_date, contact.time_on)

inductive ValidationRule
  | default | timeRange | bands | mode | contactedInContest
  | uniqueContactsByTimeRange | exchange | minimumContacts
deriving DecidableEq

inductive ScoringRule
  | default | timeRange | bonusStations | minimumContacts
deriving DecidableEq

inductive BonusRule
  | default
deriving DecidableEq

inductive TieBreakerRule
  | default | validStations | minimumTime
deriving DecidableEq

/-- The parameter attached to a configured rule.  The source keeps these
as untyped JSON; the shapes below are the ones the rule evaluators read.
A parameter of the wrong shape for its rule is outside the modelled
scope (in JavaScript it would flow into `NaN`-style comparisons). -/
inductive RuleParam
  | num (n : ℚ)
  | str (s : String)
  | strList (l : List String)
  | rangeMap (l : List (String × String × String))
  | numMap (l : List (String × ℚ))
  | defaultParams (maximumTimeDiff maximumFrequencyDiff : Option ℚ)
deriving DecidableEq

structure RuleSet where
  validation : List (ValidationRule × Option RuleParam)
  scoring : List (ScoringRule × Option RuleParam)
  bonus : List (BonusRule × Option RuleParam)
  tiebreaker : List TieBreakerRule
deriving DecidableEq

structure ContestRules where
  name : String := ""
  start : String := ""
  stop : String := ""
  blacklist : List Callsign := []
  allowMissingParticipants : Bool := false
  nonCompeting : List Callsign := []
  rules : RuleSet
deriving DecidableEq

/-- `extractRule`: first configured entry with the given name. -/
def extractRule {α : Type} [DecidableEq α] (rules : List (α × Option RuleParam))
    (name : α) : Option (α × Option RuleParam) :=
  rules.find? (fun r => r.1 = name)

structure Exchanges where
  rstSent : String
  rstRcvd : String
  stxString : String
  srxString : String
deriving DecidableEq

structure ValidContact where
  callsign : String
  contactedCallsign : String
  date : String
  time : String
  freq : String
  band : String
  mode : String
  exchanges : Exchanges
  score : ℚ
  scoringDetailsIndex : ℕ
deriving DecidableEq

/-- Per-contact scoring detail.  `scoreRule = none` models both the JS
`null` and an absent field (the engine never distinguishes them);
`givenScore = none` models an absent (`undefined`) field. -/
structure ContactScoringDetail where
  contact : Contact
  invalidValidationRule : Option ValidationRule
  scoreRule : Option ScoringRule := none
  givenScore : Option ℚ := none
deriving DecidableEq

structure ParticipantScoringDetail where
  bonusRuleApplied : Option BonusRule := none
  givenBonus : Option ℚ := none
  contacts : List ContactScoringDetail := []
  hasMinimumAppearances : Option Bool := none
deriving DecidableEq

structure BandRange where
  start : Option ℚ
  stop : Option ℚ
  name : String
deriving DecidableEq

structure TimeRange where
  start : Option ℤ
  stop : Option ℤ
deriving DecidableEq

structure RulesContext where
  contestRules : ContestRules
  timeRanges : List (String × TimeRange)
  bandRanges : List BandRange
  contestStart : Option ℤ
  contestEnd : Option ℤ
deriving DecidableEq

/-! ## Validation context and basic validators (`src/lib/rules`) -/

/-- The fields of the source `ValidationContext` that the current basic
validators actually read. -/
structure ValidationContext where
  contestRules : ContestRules
  participantCallsigns : List Callsign
  timeRanges : List (String × TimeRange)
  bandRanges : List BandRange
  contestStart : Option ℤ
  contestEnd : Option ℤ

/-- `timeRangeValidator`. -/
def timeRangeValidator (_ : Callsign) (contact : Contact)
    (context : ValidationContext) (_ : Option RuleParam) : Bool :=
  let (date, time) := getDateTimeFromContact contact
  if date = "" || time = "" then false
  else
    let contactDateTime := parseDateTime date time
    dgeq contactDateTime context.contestStart &&
      dleq contactDateTime context.contestEnd

/-- `f >= b` against an optional band bound. -/
def bgeq (f : ℚ) (b : Option ℚ) : Bool :=
  match b with
  | some x => f ≥ x
  | none => false

/-- `f <= b` against an optional band bound. -/
def bleq (f : ℚ) (b : Option ℚ) : Bool :=
  match b with
  | some x => f ≤ x
  | none => false

/-- `bandsValidator`. -/
def bandsValidator (_ : Callsign) (contact : Contact)
    (context : ValidationContext) (_ : Option RuleParam) : Bool :=
  if contact.freq = "" then false
  else
    match jsNumber contact.freq with
    | none => false
    | some f =>
      context.bandRanges.any (fun range => bgeq f range.start && bleq f range.stop)

/-- `modeValidator`. -/
def modeValidator (_ : Callsign) (contact : Contact)
    (_ : ValidationContext) (params : Option RuleParam) : Bool :=
  let validModes := match params with
    | some (RuleParam.strList l) => l
    | _ => []
  if contact.mode ≠ "" then validModes.contains contact.mode else false

/-- `contactedInContestValidator` (current version: passes outright when
missing participants are allowed). -/
def contactedInContestValidator (_ : Callsign) (contact : Contact)
    (context : ValidationContext) (_ : Option RuleParam) : Bool :=
  context.contestRules.allowMissingParticipants ||
    (if contact.call ≠ "" then context.participantCallsigns.contains contact.call
     else false)

/-- `exchangeValidator`; regular-expression matching is abstracted as a
function argument `rx pattern input`. -/
def exchangeValidator (rx : String → String → Bool) (_ : Callsign)
    (contact : Contact) (_ : ValidationContext) (params : Option RuleParam) : Bool :=
  let pattern := match params with
    | some (RuleParam.str p) => p
    | _ => ""
  if contact.srx_string ≠ "" && contact.stx_string ≠ "" then
    rx pattern contact.srx_string && rx pattern contact.stx_string
  else false

/-- The `validators` dispatch record.  `default`, `minimumContacts` and
`uniqueContactsByTimeRange` have no entry in the source record; they are
filtered out before dispatch, so the value returned for them here is
never reached by the pipeline. -/
def validators (rx : String → String → Bool) (rule : ValidationRule) :
    Callsign → Contact → ValidationContext → Option RuleParam → Bool :=
  match rule with
  | ValidationRule.timeRange => timeRangeValidator
  | ValidationRule.bands => bandsValidator
  | ValidationRule.mode => modeValidator
  | ValidationRule.contactedInContest => contactedInContestValidator
  | ValidationRule.exchange => exchangeValidator rx
  | _ => fun _ _ _ _ => true

/-! ## Contact index and the reciprocal (`default`) validator -/

abbrev ContactIndex :=
  List (Callsign × List (Callsign × List (String × List ValidContact)))

/-- The `band-mode` composite key. -/
def bandModeKey (band mode : String) : String := band ++ "-" ++ mode

/-- One step of `createContactIndex`: ensure the three nesting levels
exist and push the contact at `index[callsign][contactedCallsign][band-mode]`. -/
def indexInsert (index : ContactIndex) (contact : ValidContact) : ContactIndex :=
  let callsignIndex := (mGet index contact.callsign).getD []
  let callerIndex := (mGet callsignIndex contact.contactedCallsign).getD []
  let key := bandModeKey contact.band contact.mode
  let bucket := (mGet callerIndex key).getD []
  mSet index contact.callsign
    (mSet callsignIndex contact.contactedCallsign
      (mSet callerIndex key (bucket ++ [contact])))

/-- `createContactIndex`: fold all surviving contacts into the nested index. -/
def createContactIndex (validContacts : List (Callsign × List ValidContact)) :
    ContactIndex :=
  validContacts.foldl (fun index e => e.2.foldl indexInsert index) []

/-- `params.maximumTimeDiff || 2` (`||` replaces falsy values, so an
explicit 0 also yields the default). -/
def orDefault (v : Option ℚ) (d : ℚ) : ℚ :=
  match v with
  | some q => if q = 0 then d else q
  | none => d

/-- The `DefaultValidatorParams` read out of the configured entry. -/
def defaultValidatorParams (params : Option RuleParam) : Option ℚ × Option ℚ :=
  match params with
  | some (RuleParam.defaultParams t f) => (t, f)
  | _ => (none, none)

/-- The body of the `potentialMatches.some(...)` predicate in
`defaultValidator`: the four match conditions against one candidate. -/
def defaultMatchConditions (contactDateTime : Option ℤ) (freqNum : Option ℚ)
    (exch : Exchanges) (maximumTimeDiff maximumFrequencyDiff : ℚ)
    (validContact : ValidContact) : Bool :=
  let validContactDateTime := parseDateTime validContact.date validContact.time
  let timeDiff := getTimeDiffInMinutes contactDateTime validContactDateTime
  let other := validContact.exchanges
  let timeMatch := jleq timeDiff maximumTimeDiff
  let freqMatch :=
    areFrequenciesWithinTolerance freqNum validContact.freq maximumFrequencyDiff
  let rstMatch :=
    (exch.rstSent = "" && exch.rstRcvd = "") ||
      (exch.rstSent = other.rstRcvd && exch.rstRcvd = other.rstSent)
  let hasExchangeInfo :=
    exch.stxString ≠ "" || exch.srxString ≠ "" ||
      other.stxString ≠ "" || other.srxString ≠ ""
  let exchangeMatch :=
    !hasExchangeInfo ||
      (exch.stxString = other.srxString && exch.srxString = other.stxString)
  timeMatch && freqMatch && rstMatch && exchangeMatch

/-- `defaultValidator` from `src/lib/rules/validators.ts` (lines 15–81):
look up the contacted party's contacts back to the caller under the same
band-mode key and accept if any candidate satisfies all four conditions.
Note the configured `maximumFrequencyDiff` is divided by 1000 before
being passed as the tolerance in MHz. -/
def defaultValidator (callsign : Callsign) (contact : ValidContact)
    (contactIndex : ContactIndex) (params : Option RuleParam) : Bool :=
  let (pT, pF) := defaultValidatorParams params
  let maximumTimeDiff := orDefault pT 2
  let maximumFrequencyDiff := qdiv (orDefault pF 2) 1000
  let contactDateTime := parseDateTime contact.date contact.time
  let freqNum := if contact.freq ≠ "" then jsNumber contact.freq else none
  match mGet contactIndex contact.contactedCallsign with
  | none => false
  | some callsignIndex =>
    match mGet callsignIndex callsign with
    | none => false
    | some callerIndex =>
      match mGet callerIndex (bandModeKey contact.band contact.mode) with
      | none => false
      | some potentialMatches =>
        if potentialMatches.isEmpty then false
        else
          potentialMatches.any
            (defaultMatchConditions contactDateTime freqNum contact.exchanges
              maximumTimeDiff maximumFrequencyDiff)

/-! ## Remaining deferred validators (`src/lib/rules`, current versions) -/

/-- The source calls `getDateTimeFromContact` on a `ValidContact`, but
that helper reads the raw-record properties `qso_date` / `time_on`,
which a `ValidContact` does not have; both reads yield `undefined`,
coerced to `''`. -/
def getDateTimeFromValidContact (_ : ValidContact) : String × String :=
  ("", "")

/-- `uniqueContactsByTimeRangeValidator` (current version, operating on a
`ValidContact` and the in-progress result map). -/
def uniqueContactsByTimeRangeValidator (callsign : Callsign)
    (contact : ValidContact) (validContacts : List (Callsign × List ValidContact))
    (timeRanges : List (String × TimeRange)) : Bool :=
  let contactedCallsign := contact.contactedCallsign
  if contactedCallsign = "" then false
  else
    let dt := getDateTimeFromValidContact contact
    if dt.1 = "" || dt.2 = "" then false
    else
      let contactDateTime := parseDateTime dt.1 dt.2
      let existingContacts := (mGet validContacts callsign).getD []
      match timeRanges.find? (fun r =>
          dgeq contactDateTime r.2.start && dleq contactDateTime r.2.stop) with
      | none => false
      | some currentRange =>
        let existingContactsInSameRange := existingContacts.filter (fun existing =>
          if existing.contactedCallsign ≠ contactedCallsign then false
          else
            let existingDateTime := parseDateTime existing.date existing.time
            match mGet timeRanges currentRange.1 with
            | none => false
            | some range =>
              dgeq existingDateTime range.start && dleq existingDateTime range.stop)
        existingContactsInSameRange.isEmpty

/-- `(appearanceCounts.get(x) || 0)`. -/
def countOf (m : List (String × ℕ)) (k : String) : ℕ :=
  (mGet m k).getD 0

/-- `count >= threshold` where the threshold came out of an untyped
configuration slot: `none` models a non-numeric threshold, for which the
JavaScript comparison is always false. -/
def geqCount (c : ℕ) (t : Option ℚ) : Bool :=
  match t with
  | some q => (c : ℚ) ≥ q
  | none => false

/-- Replace the detail of participant `callsign` at contact slot `idx`.
(The source asserts both exist with `!`; outside the pipeline's reachable
states this is modelled as a no-op.) -/
def updateDetail (details : List (Callsign × ParticipantScoringDetail))
    (callsign : Callsign) (idx : ℕ)
    (f : ContactScoringDetail → ContactScoringDetail) :
    List (Callsign × ParticipantScoringDetail) :=
  match mGet details callsign with
  | none => details
  | some pd =>
    match pd.contacts[idx]? with
    | none => details
    | some d => mSet details callsign { pd with contacts := pd.contacts.set idx (f d) }

/-- `minimumContactsValidator` (current version from the validators file):
synthesize `null` placeholders for missing participants that meet the
threshold, default `givenScore` to 0 (`??=`) on dropped participants'
details, and keep only participants meeting the threshold. -/
def minimumContactsValidator (validContactsMap : List (Callsign × List ValidContact))
    (minimumAppearances : Option ℚ) (rulesContext : RulesContext)
    (scoringDetails : List (Callsign × ParticipantScoringDetail))
    (missingParticipants : List Callsign)
    (appearanceCounts : List (String × ℕ)) :
    List (Callsign × Option (List ValidContact)) ×
      List (Callsign × ParticipantScoringDetail) :=
  let allowMissingParticipants := rulesContext.contestRules.allowMissingParticipants
  let missingParticipantsResult : List (Callsign × Option (List ValidContact)) :=
    if allowMissingParticipants then
      missingParticipants.filterMap (fun missingCallsign =>
        if geqCount (countOf appearanceCounts missingCallsign) minimumAppearances
            && !(mHas validContactsMap missingCallsign) then
          some (missingCallsign, none)
        else none)
    else []
  let details := validContactsMap.foldl (fun ds e =>
    if geqCount (countOf appearanceCounts e.1) minimumAppearances then ds
    else
      e.2.foldl (fun ds c =>
        updateDetail ds e.1 c.scoringDetailsIndex
          (fun d => { d with givenScore := some (d.givenScore.getD 0) })) ds)
    scoringDetails
  let kept := validContactsMap.filterMap (fun e =>
    if geqCount (countOf appearanceCounts e.1) minimumAppearances then
      some (e.1, some e.2)
    else none)
  (kept ++ missingParticipantsResult, details)

/-! ## The validation pipeline (`src/lib/validator.ts`) -/

/-- Mutable collections threaded through the validator. -/
structure ValidatorState where
  blacklistedCallsignsFound : List Callsign := []
  blacklistedAppearanceCounts : List (String × ℕ) := []
  scoringDetails : List (Callsign × ParticipantScoringDetail) := []
  missingParticipants : List Callsign := []
deriving DecidableEq

/-- Accumulator of the per-participant contact loop in
`applyInitialValidation`. -/
structure InitAcc where
  vcs : List ValidContact
  details : List ContactScoringDetail
  localBl : List Callsign
  found : List Callsign
  blCounts : List (String × ℕ)

/-- Build the `ValidContact` for a contact that passed every basic rule
(band resolved from the configured band ranges when possible). -/
def mkValidContact (rulesContext : RulesContext) (callsign : Callsign)
    (contact : Contact) (idx : ℕ) : ValidContact :=
  let dt := getDateTimeFromContact contact
  let freq := contact.freq
  let band :=
    match jsNumber freq with
    | some freqNum =>
      if freq ≠ "" && !rulesContext.bandRanges.isEmpty then
        match rulesContext.bandRanges.find? (fun range =>
            bgeq freqNum range.start && bleq freqNum range.stop && range.name ≠ "") with
        | some r => if r.name = "" then contact.band else r.name
        | none => contact.band
      else contact.band
    | none => contact.band
  { callsign := callsign
    contactedCallsign := contact.call
    date := dt.1
    time := dt.2
    freq := freq
    band := band
    mode := contact.mode
    exchanges :=
      { rstSent := contact.rst_sent
        rstRcvd := contact.rst_rcvd
        stxString := contact.stx_string
        srxString := contact.srx_string }
    score := 0
    scoringDetailsIndex := idx }

/-- One iteration of the contact loop of `applyInitialValidation`. -/
def initProcessContact (rx : String → String → Bool) (rulesContext : RulesContext)
    (validationRules : List (ValidationRule × Option RuleParam))
    (context : ValidationContext) (blacklistedCallsigns : List Callsign)
    (callsign : Callsign) (acc : InitAcc) (contact : Contact) : InitAcc :=
  let contactedCallsign := contact.call
  if contactedCallsign ∈ blacklistedCallsigns then
    let found := sAdd acc.found contactedCallsign
    if contactedCallsign ∈ acc.localBl then { acc with found := found }
    else
      { acc with
          found := found
          blCounts := bumpCount acc.blCounts contactedCallsign
          localBl := acc.localBl ++ [contactedCallsign] }
  else
    match validationRules.find? (fun r =>
        !(validators rx r.1 callsign contact context r.2)) with
    | some failing =>
      let det : ContactScoringDetail :=
        { contact := contact
          invalidValidationRule := some failing.1
          scoreRule := none
          givenScore := some 0 }
      { acc with details := acc.details ++ [det] }
    | none =>
      let det : ContactScoringDetail := { contact := contact, invalidValidationRule := none }
      let details := acc.details ++ [det]
      let vc := mkValidContact rulesContext callsign contact (details.length - 1)
      { acc with details := details, vcs := acc.vcs ++ [vc] }

/-- Per-participant body of `applyInitialValidation`. -/
def initProcessParticipant (rx : String → String → Bool)
    (rulesContext : RulesContext)
    (validationRules : List (ValidationRule × Option RuleParam))
    (context : ValidationContext) (blacklistedCallsigns : List Callsign)
    (callsign : Callsign) (contacts : List Contact) (st : ValidatorState) :
    List ValidContact × ValidatorState :=
  let pd0 : ParticipantScoringDetail := (mGet st.scoringDetails callsign).getD {}
  let acc := contacts.foldl
    (initProcessContact rx rulesContext validationRules context
      blacklistedCallsigns callsign)
    { vcs := [], details := pd0.contacts, localBl := [],
      found := st.blacklistedCallsignsFound,
      blCounts := st.blacklistedAppearanceCounts }
  (acc.vcs,
    { st with
        blacklistedCallsignsFound := acc.found
        blacklistedAppearanceCounts := acc.blCounts
        scoringDetails := mSet st.scoringDetails callsign { pd0 with contacts := acc.details } })

/-- Recursion over the submissions of `applyInitialValidation`. -/
def applyInitialValidationGo (rx : String → String → Bool)
    (rulesContext : RulesContext)
    (validationRules : List (ValidationRule × Option RuleParam))
    (context : ValidationContext) (blacklistedCallsigns : List Callsign) :
    List (Callsign × List Contact) → List (Callsign × List ValidContact) →
      ValidatorState → List (Callsign × List ValidContact) × ValidatorState
  | [], acc, st => (acc, st)
  | (callsign, contacts) :: rest, acc, st =>
    if callsign ∈ blacklistedCallsigns then
      applyInitialValidationGo rx rulesContext validationRules context
        blacklistedCallsigns rest acc
        { st with
            blacklistedCallsignsFound := sAdd st.blacklistedCallsignsFound callsign
            blacklistedAppearanceCounts := bumpCount st.blacklistedAppearanceCounts callsign }
    else
      let r := initProcessParticipant rx rulesContext validationRules context
        blacklistedCallsigns callsign contacts st
      applyInitialValidationGo rx rulesContext validationRules context
        blacklistedCallsigns rest (mSet acc callsign r.1) r.2

/-- `applyInitialValidation`. -/
def applyInitialValidation (rx : String → String → Bool)
    (submissions : List (Callsign × List Contact)) (rulesContext : RulesContext)
    (validationRules : List (ValidationRule × Option RuleParam))
    (context : ValidationContext) (blacklistedCallsigns : List Callsign)
    (st : ValidatorState) : List (Callsign × List ValidContact) × ValidatorState :=
  applyInitialValidationGo rx rulesContext validationRules context
    blacklistedCallsigns submissions [] st

/-- The per-contact filter predicate of `applyDefaultValidation`, split
out so its state effects stay separate: `none` means the contact is a
missing-participant contact (tracked, kept iff allowed), `some b` the
blacklist/default-validator outcome. -/
def defaultKeep (contestRules : ContestRules) (participantCallsigns : List Callsign)
    (contactIndex : ContactIndex) (blacklistedCallsigns : List Callsign)
    (params : Option RuleParam) (callsign : Callsign) (contact : ValidContact) : Bool :=
  if contact.contactedCallsign ∈ blacklistedCallsigns then false
  else if !(participantCallsigns.contains contact.contactedCallsign) then
    contestRules.allowMissingParticipants
  else defaultValidator callsign contact contactIndex params

/-- One contact of the `contacts.filter(...)` loop in
`applyDefaultValidation`, with its state effects. -/
def defaultProcessContact (contestRules : ContestRules)
    (participantCallsigns : List Callsign) (contactIndex : ContactIndex)
    (blacklistedCallsigns : List Callsign) (params : Option RuleParam)
    (callsign : Callsign) (acc : List ValidContact × ValidatorState)
    (contact : ValidContact) : List ValidContact × ValidatorState :=
  let st := acc.2
  if contact.contactedCallsign ∈ blacklistedCallsigns then
    (acc.1, { st with
      blacklistedCallsignsFound := sAdd st.blacklistedCallsignsFound callsign })
  else if !(participantCallsigns.contains contact.contactedCallsign) then
    let st := { st with
      missingParticipants := sAdd st.missingParticipants contact.contactedCallsign }
    if contestRules.allowMissingParticipants then (acc.1 ++ [contact], st)
    else (acc.1, st)
  else
    if defaultValidator callsign contact contactIndex params then
      (acc.1 ++ [contact], st)
    else
      (acc.1,
        { st with
            scoringDetails := updateDetail st.scoringDetails callsign
              contact.scoringDetailsIndex
              (fun d => { d with invalidValidationRule := some ValidationRule.default }) })

/-- One participant of `applyDefaultValidation`. -/
def defaultParticipantStep (contestRules : ContestRules)
    (participantCallsigns : List Callsign) (contactIndex : ContactIndex)
    (blacklistedCallsigns : List Callsign) (params : Option RuleParam)
    (acc : List (Callsign × List ValidContact) × ValidatorState)
    (e : Callsign × List ValidContact) :
    List (Callsign × List ValidContact) × ValidatorState :=
  if e.1 ∈ blacklistedCallsigns then
    (acc.1, { acc.2 with
      blacklistedCallsignsFound := sAdd acc.2.blacklistedCallsignsFound e.1 })
  else
    let r := e.2.foldl
      (defaultProcessContact contestRules participantCallsigns contactIndex
        blacklistedCallsigns params e.1)
      ([], acc.2)
    (mSet acc.1 e.1 r.1, r.2)

/-- `applyDefaultValidation`. -/
def applyDefaultValidation (validContacts : List (Callsign × List ValidContact))
    (contestRules : ContestRules) (participantCallsigns : List Callsign)
    (contactIndex : ContactIndex) (blacklistedCallsigns : List Callsign)
    (params : Option RuleParam) (st : ValidatorState) :
    List (Callsign × List ValidContact) × ValidatorState :=
  validContacts.foldl
    (defaultParticipantStep contestRules participantCallsigns contactIndex
      blacklistedCallsigns params)
    ([], st)

/-- One contact of the inner loop of
`applyUniqueContactsByTimeRangeValidation`. -/
def uniqueContactStep (timeRanges : List (String × TimeRange))
    (callsign : Callsign)
    (inner : List (Callsign × List ValidContact) × ValidatorState)
    (contact : ValidContact) :
    List (Callsign × List ValidContact) × ValidatorState :=
  if uniqueContactsByTimeRangeValidator callsign contact inner.1 timeRanges then
    (mSet inner.1 callsign ((mGet inner.1 callsign).getD [] ++ [contact]), inner.2)
  else
    (inner.1,
      { inner.2 with
          scoringDetails := updateDetail inner.2.scoringDetails callsign
            contact.scoringDetailsIndex
            (fun d =>
              { d with
                  invalidValidationRule :=
                    some ValidationRule.uniqueContactsByTimeRange
                  givenScore := some 0
                  scoreRule := none }) })

/-- `applyUniqueContactsByTimeRangeValidation`. -/
def applyUniqueContactsByTimeRangeValidation
    (validContacts : List (Callsign × List ValidContact))
    (timeRanges : List (String × TimeRange)) (st : ValidatorState) :
    List (Callsign × List ValidContact) × ValidatorState :=
  validContacts.foldl (fun acc e =>
    e.2.foldl (uniqueContactStep timeRanges e.1) (mSet acc.1 e.1 [], acc.2))
    ([], st)

/-- Accumulator of `countAppearances`: counts, missing participants and
the scoring-details map being annotated. -/
structure CountAcc where
  counts : List (String × ℕ)
  missing : List Callsign
  details : List (Callsign × ParticipantScoringDetail)

/-- One contact of the inner loop of `countAppearances`; the second
component is the per-participant `localAppearances` set. -/
def countStep (validContactsMap : List (Callsign × List ValidContact))
    (minimumAppearances : Option ℚ) (allowMissingParticipants : Bool)
    (inner : CountAcc × List Callsign) (contact : ValidContact) :
    CountAcc × List Callsign :=
  let contactedCallsign := contact.contactedCallsign
  if contactedCallsign ∈ inner.2 then inner
  else
    let appearances := countOf inner.1.counts contactedCallsign + 1
    let counts := mSet inner.1.counts contactedCallsign appearances
    let details :=
      if mHas inner.1.details contactedCallsign then
        match mGet inner.1.details contactedCallsign with
        | some pd =>
          let hma := some (geqCount appearances minimumAppearances)
          mSet inner.1.details contactedCallsign { pd with hasMinimumAppearances := hma }
        | none => inner.1.details
      else inner.1.details
    let missing :=
      if allowMissingParticipants && !(mHas validContactsMap contactedCallsign) then
        sAdd inner.1.missing contactedCallsign
      else inner.1.missing
    (⟨counts, missing, details⟩, inner.2 ++ [contactedCallsign])

/-- `countAppearances` (current version): one increment per contacted
callsign per owning participant; annotates `hasMinimumAppearances`; adds
missing participants only when `allowMissingParticipants` is set. -/
def countAppearances (validContactsMap : List (Callsign × List ValidContact))
    (minimumAppearances : Option ℚ) (rulesContext : RulesContext)
    (missingParticipants : List Callsign)
    (scoringDetails : List (Callsign × ParticipantScoringDetail)) : CountAcc :=
  let allowMissingParticipants := rulesContext.contestRules.allowMissingParticipants
  validContactsMap.foldl (fun acc e =>
    (e.2.foldl (countStep validContactsMap minimumAppearances allowMissingParticipants)
      (acc, ([] : List Callsign))).1)
    ⟨[], missingParticipants, scoringDetails⟩

/-- Result bundle of `validateContacts`. -/
structure ContactValidatorResult where
  validContacts : List (Callsign × Option (List ValidContact))
  scoringDetails : List (Callsign × ParticipantScoringDetail)
  missingParticipants : List Callsign
  blacklistedCallsignsFound : List Callsign
  appearanceCounts : List (String × ℕ)
  blacklistedAppearanceCounts : List (String × ℕ)
deriving DecidableEq

/-- The `minimumAppearances` argument handed to `countAppearances`:
`(minimumContactsRule?.[1] as number | undefined) || 0`.  A bare rule
name indexes into the string (yielding the character `'i'`), and a
non-numeric parameter is equally not a number: both are modelled as
`none`, for which every `>=` comparison is false. -/
def minimumContactsThresholdForCounting
    (entry : Option (ValidationRule × Option RuleParam)) : Option ℚ :=
  match entry with
  | none => some 0
  | some (_, some (RuleParam.num n)) => some n
  | some (_, some _) => none
  | some (_, none) => none

/-- The threshold passed to `minimumContactsValidator`
(`minimumContactsRule[1] as number`). -/
def minimumContactsThreshold (p : RuleParam) : Option ℚ :=
  match p with
  | RuleParam.num n => some n
  | _ => none

/-- The rule names excluded from the initial pass
(`RULES_TO_SKIP_DURING_INITIAL_VALIDATION`). -/
def rulesToSkipDuringInitialValidation : List ValidationRule :=
  [ValidationRule.uniqueContactsByTimeRange, ValidationRule.minimumContacts,
    ValidationRule.default]

/-- `validateContacts` (current version): the full multi-stage pipeline. -/
def validateContacts (rx : String → String → Bool)
    (submissions : List (Callsign × List Contact))
    (rulesContext : RulesContext) : ContactValidatorResult :=
  let contestRules := rulesContext.contestRules
  let blacklistedCallsigns := contestRules.blacklist
  let participantCallsigns := submissions.foldl (fun participants e =>
    if e.1 ∈ blacklistedCallsigns then participants else sAdd participants e.1) []
  let defaultRuleConfig := extractRule contestRules.rules.validation ValidationRule.default
  let minimumContactsRule :=
    extractRule contestRules.rules.validation ValidationRule.minimumContacts
  let uniqueContactsByTimeRangeRule :=
    extractRule contestRules.rules.validation ValidationRule.uniqueContactsByTimeRange
  let initialValidationRules := contestRules.rules.validation.filter (fun rule =>
    !(rulesToSkipDuringInitialValidation.contains rule.1))
  let context : ValidationContext :=
    { contestRules := contestRules
      participantCallsigns := participantCallsigns
      timeRanges := rulesContext.timeRanges
      bandRanges := rulesContext.bandRanges
      contestStart := rulesContext.contestStart
      contestEnd := rulesContext.contestEnd }
  let r1 := applyInitialValidation rx submissions rulesContext
    initialValidationRules context blacklistedCallsigns {}
  let initialValidContacts := r1.1
  let contactIndex := createContactIndex initialValidContacts
  let r2 :=
    match defaultRuleConfig with
    | some cfg =>
      applyDefaultValidation initialValidContacts contestRules
        participantCallsigns contactIndex blacklistedCallsigns cfg.2 r1.2
    | none => (initialValidContacts, r1.2)
  let r3 :=
    match uniqueContactsByTimeRangeRule with
    | some _ =>
      applyUniqueContactsByTimeRangeValidation r2.1 rulesContext.timeRanges r2.2
    | none => r2
  let ca := countAppearances r3.1
    (minimumContactsThresholdForCounting minimumContactsRule) rulesContext
    r3.2.missingParticipants r3.2.scoringDetails
  let appearanceCounts := ca.counts
  let st4 : ValidatorState :=
    { r3.2 with missingParticipants := ca.missing, scoringDetails := ca.details }
  let final :=
    match minimumContactsRule with
    | some (_, some p) =>
      minimumContactsValidator r3.1 (minimumContactsThreshold p) rulesContext
        st4.scoringDetails st4.missingParticipants appearanceCounts
    | _ =>
      (r3.1.map (fun (e : Callsign × List ValidContact) => (e.1, some e.2)),
        st4.scoringDetails)
  { validContacts := final.1
    scoringDetails := final.2
    missingParticipants := st4.missingParticipants
    blacklistedCallsignsFound := st4.blacklistedCallsignsFound
    appearanceCounts := appearanceCounts
    blacklistedAppearanceCounts := st4.blacklistedAppearanceCounts }

/-! ## Scoring (`src/lib/scorer.ts` current version, `src/lib/rules/scorers.ts`) -/

structure ScoringContext where
  validContacts : List (Callsign × Option (List ValidContact))
  timeRanges : List (String × TimeRange)

/-- `defaultScorer`: the configured number, defaulting to 1.  (A
non-numeric parameter is outside the modelled scope.) -/
def defaultScorer (_ : ValidContact) (_ : ScoringContext)
    (params : Option RuleParam) : ℚ :=
  match params with
  | some (RuleParam.num n) => n
  | _ => 1

/-- `timeRangeScorer`: score of the first time range containing the
contact, else pass the current score through. -/
def timeRangeScorer (validContact : ValidContact) (context : ScoringContext)
    (params : Option RuleParam) : ℚ :=
  let contactDateTime := parseDateTime validContact.date validContact.time
  match context.timeRanges.find? (fun r =>
      dgeq contactDateTime r.2.start && dleq contactDateTime r.2.stop) with
  | some r =>
    match params with
    | some (RuleParam.numMap l) => ((mGet l r.1).getD validContact.score)
    | _ => validContact.score
  | none => validContact.score

/-- `bonusStationsScorer`: configured score for the contacted callsign,
else pass the current score through. -/
def bonusStationsScorer (validContact : ValidContact) (_ : ScoringContext)
    (params : Option RuleParam) : ℚ :=
  match params with
  | some (RuleParam.numMap l) =>
    (mGet l validContact.contactedCallsign).getD validContact.score
  | _ => validContact.score

/-- The `scorers` dispatch record.  `minimumContacts` has no entry in the
source record and is filtered out before dispatch; it is modelled as a
pass-through, which the pipeline never reaches. -/
def scorers (rule : ScoringRule) :
    ValidContact → ScoringContext → Option RuleParam → ℚ :=
  match rule with
  | ScoringRule.default => defaultScorer
  | ScoringRule.timeRange => timeRangeScorer
  | ScoringRule.bonusStations => bonusStationsScorer
  | ScoringRule.minimumContacts => fun c _ _ => c.score

/-- `count < threshold` on an untyped threshold (false when the threshold
is not a number). -/
def ltCount (c : ℕ) (t : Option ℚ) : Bool :=
  match t with
  | some q => (c : ℚ) < q
  | none => false

/-- The fold of the non-`minimumContacts` scoring rules over one contact,
recording the last rule that changed the score into the details. -/
def scoreRulesFold (otherScoringRules : List (ScoringRule × Option RuleParam))
    (context : ScoringContext) (callsign : Callsign)
    (start : ValidContact × List (Callsign × ParticipantScoringDetail)) :
    ValidContact × List (Callsign × ParticipantScoringDetail) :=
  otherScoringRules.foldl (fun acc rule =>
    let scoredContact := acc.1
    let score := scorers rule.1 scoredContact context rule.2
    let details :=
      if scoredContact.score ≠ score then
        updateDetail acc.2 callsign scoredContact.scoringDetailsIndex
          (fun d => { d with scoreRule := some rule.1, givenScore := some score })
      else acc.2
    ({ scoredContact with score := score }, details)) start

/-- The body of the per-contact `contacts.map(...)` in `scoreContacts`:
either the appearance gate zeroes the contact, or the scoring rules fold
over it. -/
def scoreOneContact (hasMinRule : Bool) (minimumContacts : Option ℚ)
    (appearanceCounts : List (String × ℕ))
    (otherScoringRules : List (ScoringRule × Option RuleParam))
    (context : ScoringContext) (callsign : Callsign)
    (details : List (Callsign × ParticipantScoringDetail))
    (contact : ValidContact) :
    ValidContact × List (Callsign × ParticipantScoringDetail) :=
  if hasMinRule &&
      ltCount (countOf appearanceCounts contact.contactedCallsign) minimumContacts then
    ({ contact with score := 0 },
      updateDetail details callsign contact.scoringDetailsIndex
        (fun d => { d with scoreRule := some ScoringRule.minimumContacts,
                           givenScore := some 0 }))
  else
    scoreRulesFold otherScoringRules context callsign
      ({ contact with score := 0 }, details)

/-- One contact of the inner `contacts.foldl` in `scoreContacts`. -/
def scoreContactStep (hasMinRule : Bool) (minimumContacts : Option ℚ)
    (appearanceCounts : List (String × ℕ))
    (otherScoringRules : List (ScoringRule × Option RuleParam))
    (context : ScoringContext) (callsign : Callsign)
    (inner : List ValidContact × List (Callsign × ParticipantScoringDetail))
    (contact : ValidContact) :
    List ValidContact × List (Callsign × ParticipantScoringDetail) :=
  let one := scoreOneContact hasMinRule minimumContacts appearanceCounts
    otherScoringRules context callsign inner.2 contact
  (inner.1 ++ [one.1], one.2)

/-- One participant of the outer fold in `scoreContacts`. -/
def scoreParticipantStep (hasMinRule : Bool) (minimumContacts : Option ℚ)
    (appearanceCounts : List (String × ℕ))
    (otherScoringRules : List (ScoringRule × Option RuleParam))
    (context : ScoringContext)
    (acc : List (Callsign × List ValidContact) ×
      List (Callsign × ParticipantScoringDetail))
    (e : Callsign × Option (List ValidContact)) :
    List (Callsign × List ValidContact) ×
      List (Callsign × ParticipantScoringDetail) :=
  match e.2 with
  | none => acc
  | some contacts =>
    if hasMinRule &&
        ltCount (((mGet acc.2 e.1).map (·.contacts.length)).getD 0)
          minimumContacts then
      (acc.1 ++ [(e.1, [])], acc.2)
    else
      let r := contacts.foldl
        (scoreContactStep hasMinRule minimumContacts appearanceCounts
          otherScoringRules context e.1)
        (([] : List ValidContact), acc.2)
      (acc.1 ++ [(e.1, r.1)], r.2)

/-- The configured scoring-level `minimumContacts` entry. -/
def scoringMinRule (rulesContext : RulesContext) :
    Option (ScoringRule × Option RuleParam) :=
  extractRule rulesContext.contestRules.rules.scoring ScoringRule.minimumContacts

/-- `minimumContactsRule && Array.isArray(minimumContactsRule) ?
minimumContactsRule[1] as number : 0` (a non-numeric cast is `none`). -/
def scoringThresholdOf (entry : Option (ScoringRule × Option RuleParam)) :
    Option ℚ :=
  match entry with
  | some (_, some (RuleParam.num n)) => some n
  | some (_, some _) => none
  | _ => some 0

/-- The scoring rules other than `minimumContacts`. -/
def otherScoringRulesOf (rulesContext : RulesContext) :
    List (ScoringRule × Option RuleParam) :=
  rulesContext.contestRules.rules.scoring.filter
    (fun rule => rule.1 ≠ ScoringRule.minimumContacts)

/-- The `ScoringContext` built by `scoreContacts`. -/
def scoringContextOf (validContacts : List (Callsign × Option (List ValidContact)))
    (rulesContext : RulesContext) : ScoringContext :=
  { validContacts := validContacts, timeRanges := rulesContext.timeRanges }

/-- `scoreContacts` (current version, with the dual minimum-contacts
gates). -/
def scoreContacts (validContacts : List (Callsign × Option (List ValidContact)))
    (rulesContext : RulesContext)
    (scoringDetails : List (Callsign × ParticipantScoringDetail))
    (appearanceCounts : List (String × ℕ)) :
    List (Callsign × List ValidContact) ×
      List (Callsign × ParticipantScoringDetail) :=
  validContacts.foldl
    (scoreParticipantStep (scoringMinRule rulesContext).isSome
      (scoringThresholdOf (scoringMinRule rulesContext))
      appearanceCounts (otherScoringRulesOf rulesContext)
      (scoringContextOf validContacts rulesContext))
    (([] : List (Callsign × List ValidContact)), scoringDetails)

/-! ## Bonus (`src/lib/bonus.ts` current version) -/

/-- `defaultBonus`: multiply by the configured factor (default 1). -/
def defaultBonus (score : ℚ) (params : Option RuleParam) : ℚ :=
  match params with
  | some (RuleParam.num n) => qmul score n
  | _ => qmul score 1

/-- The `bonusers` dispatch record. -/
def bonusers (rule : BonusRule) : ℚ → Option RuleParam → ℚ :=
  match rule with
  | BonusRule.default => defaultBonus

/-- `applyBonusRules`: sum a participant's contact scores, fold the bonus
chain, record the last rule that changed the aggregate. -/
def applyBonusRules (scoredContacts : List (Callsign × List ValidContact))
    (rules : ContestRules)
    (scoringDetails : List (Callsign × ParticipantScoringDetail)) :
    List (Callsign × ℚ) × List (Callsign × ParticipantScoringDetail) :=
  scoredContacts.foldl (fun acc e =>
    let baseScore := e.2.foldl (fun sum contact => qadd sum contact.score) 0
    let ds0 :=
      match mGet acc.2 e.1 with
      | some pd =>
        mSet acc.2 e.1 { pd with bonusRuleApplied := none, givenBonus := some 0 }
      | none => acc.2
    let r := rules.rules.bonus.foldl (fun inner rule =>
      let score := bonusers rule.1 inner.1 rule.2
      let ds :=
        if mHas inner.2 e.1 && score ≠ inner.1 then
          match mGet inner.2 e.1 with
          | some pd =>
            mSet inner.2 e.1
              { pd with bonusRuleApplied := some rule.1,
                        givenBonus := some (qsub score inner.1) }
          | none => inner.2
        else inner.2
      (score, ds)) (baseScore, ds0)
    (acc.1 ++ [(e.1, r.1)], r.2))
    (([] : List (Callsign × ℚ)), scoringDetails)

/-! ## Tiebreakers (`src/lib/rules/tiebreakers.ts`, `src/lib/tiebreaker.ts`) -/

/-- `defaultTiebreaker`: always 0. -/
def defaultTiebreaker (_ _ : Callsign)
    (_ : List (Callsign × List ValidContact)) : Option ℚ :=
  some 0

/-- `validStationsTiebreaker`: more distinct contacted callsigns first. -/
def validStationsTiebreaker (a b : Callsign)
    (scoredContacts : List (Callsign × List ValidContact)) : Option ℚ :=
  let contactsA := (mGet scoredContacts a).getD []
  let contactsB := (mGet scoredContacts b).getD []
  let uniqueStationsA := (contactsA.map (·.contactedCallsign)).dedup.length
  let uniqueStationsB := (contactsB.map (·.contactedCallsign)).dedup.length
  some (qsub (uniqueStationsB : ℚ) (uniqueStationsA : ℚ))

/-- `Math.min` over parsed dates; `none` models `NaN` (any invalid date). -/
def optListMin (l : List (Option ℤ)) : Option ℤ :=
  match l with
  | [] => none
  | x :: rest =>
    rest.foldl (fun acc y =>
      match acc, y with
      | some a, some b => some (min a b)
      | _, _ => none) x

/-- `Math.max` over parsed dates; `none` models `NaN`. -/
def optListMax (l : List (Option ℤ)) : Option ℤ :=
  match l with
  | [] => none
  | x :: rest =>
    rest.foldl (fun acc y =>
      match acc, y with
      | some a, some b => some (max a b)
      | _, _ => none) x

/-- `minimumTimeTiebreaker`: shorter first-to-last time span first; a
participant with at most one contact never beats one with two or more.
`none` models a `NaN` comparator value (some date failed to parse). -/
def minimumTimeTiebreaker (a b : Callsign)
    (scoredContacts : List (Callsign × List ValidContact)) : Option ℚ :=
  let contactsA := (mGet scoredContacts a).getD []
  let contactsB := (mGet scoredContacts b).getD []
  if contactsA.length ≤ 1 && contactsB.length ≤ 1 then some 0
  else if contactsA.length ≤ 1 then some 1
  else if contactsB.length ≤ 1 then some (-1)
  else
    let datesA := contactsA.map (fun c => parseDateTime c.date c.time)
    let datesB := contactsB.map (fun c => parseDateTime c.date c.time)
    match optListMin datesA, optListMax datesA, optListMin datesB, optListMax datesB with
    | some fa, some la, some fb, some lb =>
      some (qsub ((la - fa : ℤ) : ℚ) ((lb - fb : ℤ) : ℚ))
    | _, _, _, _ => none

/-- The `tiebreakers` dispatch record. -/
def tiebreakers (rule : TieBreakerRule) :
    Callsign → Callsign → List (Callsign × List ValidContact) → Option ℚ :=
  match rule with
  | TieBreakerRule.default => defaultTiebreaker
  | TieBreakerRule.validStations => validStationsTiebreaker
  | TieBreakerRule.minimumTime => minimumTimeTiebreaker

/-- The composite comparator of `applyTiebreakers`: first rule whose
result is nonzero wins.  A `NaN` result (`none`) is `!== 0`, so it stops
the chain, but the ECMAScript `SortCompare` then treats it as `+0`. -/
def tiebreakerChainCompare (tiebreaker : List TieBreakerRule)
    (scoredContacts : List (Callsign × List ValidContact))
    (a b : Callsign) : ℚ :=
  match tiebreaker with
  | [] => 0
  | rule :: rest =>
    match tiebreakers rule a b scoredContacts with
    | some q =>
      if q ≠ 0 then q else tiebreakerChainCompare rest scoredContacts a b
    | none => 0

/-- Stable insertion respecting a JavaScript-style numeric comparator
(`x` goes before the first element it does not have to follow). -/
def jsInsert {α : Type} (cmp : α → α → ℚ) (x : α) : List α → List α
  | [] => [x]
  | y :: ys => if cmp x y ≤ 0 then x :: y :: ys else y :: jsInsert cmp x ys

/-- `Array.prototype.sort` with a comparator, modelled as a stable
insertion sort (the ECMAScript sort is required to be stable; for a
consistent comparator the sorted stable result is unique). -/
def jsSortBy {α : Type} (cmp : α → α → ℚ) : List α → List α
  | [] => []
  | x :: xs => jsInsert cmp x (jsSortBy cmp xs)

/-- `Map.get` for rational keys (used for the score-keyed grouping
object; JavaScript numeric keys stringify canonically, so distinct
rationals are distinct keys). -/
def qGet {β : Type} (m : List (ℚ × β)) (k : ℚ) : Option β :=
  match m with
  | [] => none
  | (k', v) :: rest => if k' = k then some v else qGet rest k

/-- `Map.set` for rational keys. -/
def qSet {β : Type} (m : List (ℚ × β)) (k : ℚ) (v : β) : List (ℚ × β) :=
  match m with
  | [] => [(k, v)]
  | (k', v') :: rest =>
    if k' = k then (k, v) :: rest else (k', v') :: qSet rest k v

/-- The `groupedByScore` accumulation of `applyTiebreakers`: bucket the
callsigns by score, keeping input order inside each bucket. -/
def groupByScore (results : List (Callsign × ℚ)) : List (ℚ × List Callsign) :=
  results.foldl (fun acc r => qSet acc r.2 ((qGet acc r.2).getD [] ++ [r.1])) []

/-- `applyTiebreakers` (from the tiebreaker module): group by score,
process groups in descending score order, stable-sort each group of two
or more by the tiebreaker chain.  (The intermediate object's key
ordering is irrelevant: the groups are explicitly sorted by score and
distinct keys cannot tie.) -/
def applyTiebreakers (results : List (Callsign × ℚ))
    (scoredContacts : List (Callsign × List ValidContact))
    (rules : ContestRules) : List (Callsign × ℚ) :=
  let tiebreaker := rules.rules.tiebreaker
  if tiebreaker.isEmpty then results
  else
    let groupedByScore := groupByScore results
    let sortedGroups := jsSortBy (fun g1 g2 => qsub g2.1 g1.1) groupedByScore
    sortedGroups.flatMap (fun g =>
      if g.2.length = 1 then g.2.map (fun c => (c, g.1))
      else
        (jsSortBy (tiebreakerChainCompare tiebreaker scoredContacts) g.2).map
          (fun c => (c, g.1)))

/-! ## Rule-context builder and top level (`src/lib/precalculate.ts`, `src/lib/index.ts`) -/

/-- `getRulesContext`. -/
def getRulesContext (contestRules : ContestRules) : RulesContext :=
  let timeRanges :=
    match extractRule contestRules.rules.validation
        ValidationRule.uniqueContactsByTimeRange with
    | some (_, some (RuleParam.rangeMap l)) =>
      l.map (fun e => (e.1, TimeRange.mk (parseISODateTime e.2.1)
        (parseISODateTime e.2.2)))
    | _ => []
  let bandRanges :=
    match extractRule contestRules.rules.validation ValidationRule.bands with
    | some (_, some (RuleParam.rangeMap l)) =>
      l.map (fun e => BandRange.mk (jsNumber e.2.1) (jsNumber e.2.2) e.1)
    | _ => []
  { contestRules := contestRules
    timeRanges := timeRanges
    bandRanges := bandRanges
    contestStart := parseISODateTime contestRules.start
    contestEnd := parseISODateTime contestRules.stop }

structure ContestResult where
  results : List (Callsign × ℚ)
  nonCompetingResults : List (Callsign × ℚ)
  scoringDetails : List (Callsign × ParticipantScoringDetail)
  missingParticipants : List (Callsign × ℕ)
  blacklistedCallsignsFound : List (Callsign × ℕ)
deriving DecidableEq

/-- `localeCompare`, modelled as code-point string comparison. -/
def strCompare (a b : String) : ℚ :=
  if a = b then 0 else if a < b then -1 else 1

/-- `formatCounts` from `src/lib/index.ts`. -/
def formatCounts (callsigns : List Callsign) (counts : List (String × ℕ)) :
    List (Callsign × ℕ) :=
  jsSortBy (fun a b => strCompare a.1 b.1)
    (callsigns.map (fun c => (c, countOf counts c)))

/-- `scoreContest` (current version, with the competing/non-competing
partition). -/
def scoreContest (rx : String → String → Bool)
    (submissions : List (Callsign × List Contact)) (rules : ContestRules) :
    ContestResult :=
  let rulesContext := getRulesContext rules
  let v := validateContacts rx submissions rulesContext
  let sc := scoreContacts v.validContacts rulesContext v.scoringDetails
    v.appearanceCounts
  let br := applyBonusRules sc.1 rules sc.2
  let nonCompetingCallsigns := rules.nonCompeting
  let partitioned := br.1.foldl (fun acc result =>
    if nonCompetingCallsigns.contains result.1 then
      (acc.1, acc.2 ++ [result])
    else (acc.1 ++ [result], acc.2))
    (([] : List (Callsign × ℚ)), ([] : List (Callsign × ℚ)))
  let sortedResults := jsSortBy (fun a b => qsub b.2 a.2) partitioned.1
  let sortedNonCompetingResults := jsSortBy (fun a b => qsub b.2 a.2) partitioned.2
  let tiebreakerResults := applyTiebreakers sortedResults sc.1 rules
  { results := tiebreakerResults
    nonCompetingResults := sortedNonCompetingResults
    scoringDetails := br.2
    missingParticipants := formatCounts v.missingParticipants v.appearanceCounts
    blacklistedCallsignsFound := formatCounts v.blacklistedCallsignsFound
      v.blacklistedAppearanceCounts }

/-! ## Basic lemmas about the JavaScript collection model -/

theorem mGet_mSet {β : Type} (m : List (String × β)) (k k' : String) (v : β) :
    mGet (mSet m k v) k' = if k = k' then some v else mGet m k' := by
  induction m with
  | nil => simp [mGet, mSet]
  | cons e rest ih =>
    obtain ⟨ek, ev⟩ := e
    by_cases h1 : ek = k
    · subst h1
      by_cases h2 : ek = k' <;> simp [mGet, mSet, h2]
    · have hmset : mSet ((ek, ev) :: rest) k v = (ek, ev) :: mSet rest k v := by
        simp [mSet, h1]
      rw [hmset]
      by_cases h2 : ek = k'
      · subst h2
        have hk : ¬(k = ek) := fun h => h1 h.symm
        simp [mGet, hk]
      · simp [mGet, h2, ih]

theorem mGet_isSome_iff {β : Type} (m : List (String × β)) (k : String) :
    (mGet m k).isSome = true ↔ k ∈ m.map Prod.fst := by
  induction m with
  | nil => simp [mGet]
  | cons e rest ih =>
    by_cases h : e.1 = k
    · subst h
      simp [mGet]
    · simp [mGet, h, ih]
      intro hk
      exact absurd hk.symm h

theorem mHas_iff {β : Type} (m : List (String × β)) (k : String) :
    mHas m k = true ↔ k ∈ m.map Prod.fst := by
  unfold mHas
  exact mGet_isSome_iff m k

theorem mGet_mem {β : Type} (m : List (String × β)) (k : String) (v : β)
    (h : mGet m k = some v) : (k, v) ∈ m := by
  induction m with
  | nil => simp [mGet] at h
  | cons e rest ih =>
    by_cases he : e.1 = k
    · obtain ⟨ek, ev⟩ := e
      simp_all [mGet]
    · obtain ⟨ek, ev⟩ := e
      simp only [mGet] at h
      rw [if_neg he] at h
      exact List.mem_cons_of_mem _ (ih h)

theorem keys_mSet {β : Type} (m : List (String × β)) (k : String) (v : β) :
    (mSet m k v).map Prod.fst =
      if (mGet m k).isSome then m.map Prod.fst else m.map Prod.fst ++ [k] := by
  induction m with
  | nil => simp [mSet, mGet]
  | cons e rest ih =>
    obtain ⟨ek, ev⟩ := e
    by_cases h : ek = k
    · subst h
      simp [mSet, mGet]
    · simp only [mSet, if_neg h, List.map_cons, mGet]
      rw [ih]
      by_cases h2 : (mGet rest k).isSome <;> simp [h2]

theorem mem_sAdd (s : List String) (x y : String) :
    y ∈ sAdd s x ↔ y ∈ s ∨ y = x := by
  unfold sAdd
  by_cases h : x ∈ s
  · simp [h]
    intro hy
    subst hy
    exact h
  · simp [h]

theorem sAdd_subset (s : List String) (x : String) : s ⊆ sAdd s x := by
  intro a ha
  rw [mem_sAdd]
  exact Or.inl ha

/-! ## Lemmas about the numeric model -/

theorem qsub_eq (a b : ℚ) : qsub a b = a - b := by
  unfold qsub
  rw [Rat.mkRat_eq_div]
  have ha : ((a.den : ℚ)) ≠ 0 := by
    exact_mod_cast a.den_nz
  have hb : ((b.den : ℚ)) ≠ 0 := by
    exact_mod_cast b.den_nz
  conv_rhs => rw [← Rat.num_div_den a, ← Rat.num_div_den b]
  rw [div_sub_div _ _ ha hb]
  push_cast
  ring_nf

theorem qadd_eq (a b : ℚ) : qadd a b = a + b := by
  unfold qadd
  rw [Rat.mkRat_eq_div]
  have ha : ((a.den : ℚ)) ≠ 0 := by
    exact_mod_cast a.den_nz
  have hb : ((b.den : ℚ)) ≠ 0 := by
    exact_mod_cast b.den_nz
  conv_rhs => rw [← Rat.num_div_den a, ← Rat.num_div_den b]
  rw [div_add_div _ _ ha hb]
  push_cast
  ring_nf

theorem qmul_eq (a b : ℚ) : qmul a b = a * b := by
  unfold qmul
  rw [Rat.mkRat_eq_div]
  have ha : ((a.den : ℚ)) ≠ 0 := by
    exact_mod_cast a.den_nz
  have hb : ((b.den : ℚ)) ≠ 0 := by
    exact_mod_cast b.den_nz
  conv_rhs => rw [← Rat.num_div_den a, ← Rat.num_div_den b]
  rw [div_mul_div_comm]
  push_cast
  ring_nf

theorem qsub_nonpos (a b : ℚ) : qsub a b ≤ 0 ↔ a ≤ b := by
  rw [qsub_eq]
  exact sub_nonpos

theorem countOf_mSet (m : List (String × ℕ)) (k c : String) (v : ℕ) :
    countOf (mSet m k v) c = if k = c then v else countOf m c := by
  unfold countOf
  rw [mGet_mSet]
  by_cases h : k = c <;> simp [h]

/-- Number of map entries whose contact list mentions `c` as the
contacted callsign. -/
def logsMentioning (m : List (Callsign × List ValidContact)) (c : Callsign) : ℕ :=
  (m.filter (fun e => e.2.any (fun vc => vc.contactedCallsign = c))).length

theorem countStep_fold_counts (M : List (Callsign × List ValidContact))
    (minApp : Option ℚ) (allow : Bool) (contacts : List ValidContact)
    (p : CountAcc × List Callsign) (c : Callsign) :
    countOf ((contacts.foldl (countStep M minApp allow) p).1).counts c =
      countOf p.1.counts c +
        (if c ∉ p.2 ∧ (∃ vc ∈ contacts, vc.contactedCallsign = c) then 1 else 0) := by
  induction contacts generalizing p with
  | nil => simp
  | cons vc rest ih =>
    simp only [List.foldl_cons]
    rw [ih]
    by_cases hmem : vc.contactedCallsign ∈ p.2
    · have h1 : countStep M minApp allow p vc = p := by
        simp [countStep, hmem]
      rw [h1]
      congr 1
      by_cases hc : c ∈ p.2
      · simp [hc]
      · have hne : ¬(vc.contactedCallsign = c) := fun h => hc (h ▸ hmem)
        simp [hc, hne]
    · have h1 : (countStep M minApp allow p vc).1.counts =
          mSet p.1.counts vc.contactedCallsign
            (countOf p.1.counts vc.contactedCallsign + 1) := by
        simp [countStep, hmem]
      have h2 : (countStep M minApp allow p vc).2 = p.2 ++ [vc.contactedCallsign] := by
        simp [countStep, hmem]
      rw [h1, h2, countOf_mSet]
      by_cases hc : vc.contactedCallsign = c
      · subst hc
        have hloc : vc.contactedCallsign ∈ p.2 ++ [vc.contactedCallsign] := by simp
        simp [hmem, hloc]
      · rw [if_neg hc]
        by_cases hc2 : c ∈ p.2
        · simp [hc2]
        · have hcc : ¬(c = vc.contactedCallsign) := fun h => hc h.symm
          have hnotin : c ∉ p.2 ++ [vc.contactedCallsign] := by
            simp [hc2, hcc]
          simp only [hnotin, hc2, not_false_iff, true_and]
          simp [hc]

theorem countFold_counts (M : List (Callsign × List ValidContact))
    (minApp : Option ℚ) (allow : Bool)
    (l : List (Callsign × List ValidContact)) (acc0 : CountAcc) (c : Callsign) :
    countOf ((l.foldl (fun acc e =>
        (e.2.foldl (countStep M minApp allow) (acc, ([] : List Callsign))).1)
      acc0).counts) c =
      countOf acc0.counts c + logsMentioning l c := by
  induction l generalizing acc0 with
  | nil => simp [logsMentioning]
  | cons e rest ih =>
    simp only [List.foldl_cons]
    rw [ih, countStep_fold_counts]
    simp only [List.not_mem_nil, not_false_iff, true_and]
    unfold logsMentioning
    by_cases h : ∃ vc ∈ e.2, vc.contactedCallsign = c
    · have hany : e.2.any (fun vc => vc.contactedCallsign = c) = true := by
        simp [List.any_eq_true]
        obtain ⟨vc, hvc, heq⟩ := h
        exact ⟨vc, hvc, by simp [heq]⟩
      simp only [List.filter_cons, hany, if_pos h]
      simp [List.length_cons]
      omega
    · have hany : e.2.any (fun vc => vc.contactedCallsign = c) = false := by
        simp [List.any_eq_false]
        intro vc hvc
        intro heq
        exact h ⟨vc, hvc, heq⟩
      simp only [List.filter_cons, hany, if_neg h]
      simp

theorem countAppearances_counts (M : List (Callsign × List ValidContact))
    (minApp : Option ℚ) (ctx : RulesContext) (missing0 : List Callsign)
    (details0 : List (Callsign × ParticipantScoringDetail)) (c : Callsign) :
    countOf (countAppearances M minApp ctx missing0 details0).counts c =
      logsMentioning M c := by
  unfold countAppearances
  rw [countFold_counts]
  simp [countOf, mGet]

theorem countStep_fold_missing (M : List (Callsign × List ValidContact))
    (minApp : Option ℚ) (allow : Bool) (contacts : List ValidContact)
    (p : CountAcc × List Callsign) (x : Callsign) :
    x ∈ ((contacts.foldl (countStep M minApp allow) p).1).missing ↔
      x ∈ p.1.missing ∨
        (allow = true ∧ mHas M x = false ∧ x ∉ p.2 ∧
          ∃ vc ∈ contacts, vc.contactedCallsign = x) := by
  induction contacts generalizing p with
  | nil => simp
  | cons vc rest ih =>
    simp only [List.foldl_cons]
    rw [ih]
    by_cases hmem : vc.contactedCallsign ∈ p.2
    · have h1 : countStep M minApp allow p vc = p := by
        simp [countStep, hmem]
      rw [h1]
      by_cases hx : x ∈ p.2
      · simp [hx]
      · have hne : ¬(vc.contactedCallsign = x) := fun h => hx (h ▸ hmem)
        simp [hx, hne]
    · have h1 : (countStep M minApp allow p vc).1.missing =
          (if allow && !(mHas M vc.contactedCallsign) then
            sAdd p.1.missing vc.contactedCallsign else p.1.missing) := by
        simp [countStep, hmem]
      have h2 : (countStep M minApp allow p vc).2 = p.2 ++ [vc.contactedCallsign] := by
        simp [countStep, hmem]
      rw [h1, h2]
      by_cases hx : x = vc.contactedCallsign
      · subst hx
        have hself : ∃ vc' ∈ vc :: rest, vc'.contactedCallsign = vc.contactedCallsign :=
          ⟨vc, by simp, rfl⟩
        have hloc : vc.contactedCallsign ∈ p.2 ++ [vc.contactedCallsign] := by simp
        by_cases hcond : (allow && !(mHas M vc.contactedCallsign)) = true
        · rw [if_pos hcond]
          have ha : allow = true := by
            cases allow <;> simp_all
          have hm : mHas M vc.contactedCallsign = false := by
            cases h : mHas M vc.contactedCallsign <;> simp_all
          apply iff_of_true
          · exact Or.inl ((mem_sAdd _ _ _).mpr (Or.inr rfl))
          · exact Or.inr ⟨ha, hm, hmem, hself⟩
        · rw [if_neg hcond]
          constructor
          · rintro (h | ⟨_, _, habs, _⟩)
            · exact Or.inl h
            · exact absurd hloc habs
          · rintro (h | ⟨ha, hm, _, _⟩)
            · exact Or.inl h
            · exact absurd (by simp [ha, hm] :
                (allow && !(mHas M vc.contactedCallsign)) = true) hcond
      · have hxs : x ∈ (if allow && !(mHas M vc.contactedCallsign) then
            sAdd p.1.missing vc.contactedCallsign else p.1.missing) ↔
              x ∈ p.1.missing := by
          by_cases hcond : allow && !(mHas M vc.contactedCallsign)
          · rw [if_pos hcond, mem_sAdd]
            simp [hx]
          · rw [if_neg hcond]
        rw [hxs]
        have hxl : x ∈ p.2 ++ [vc.contactedCallsign] ↔ x ∈ p.2 := by
          simp [hx]
        rw [hxl]
        have hne : ¬(vc.contactedCallsign = x) := fun h => hx h.symm
        simp [hne]

theorem countFold_missing (M : List (Callsign × List ValidContact))
    (minApp : Option ℚ) (allow : Bool)
    (l : List (Callsign × List ValidContact)) (acc0 : CountAcc) (x : Callsign) :
    x ∈ ((l.foldl (fun acc e =>
        (e.2.foldl (countStep M minApp allow) (acc, ([] : List Callsign))).1)
      acc0).missing) ↔
      x ∈ acc0.missing ∨
        (allow = true ∧ mHas M x = false ∧
          ∃ e ∈ l, ∃ vc ∈ e.2, vc.contactedCallsign = x) := by
  induction l generalizing acc0 with
  | nil => simp
  | cons e rest ih =>
    simp only [List.foldl_cons]
    rw [ih, countStep_fold_missing]
    simp only [List.not_mem_nil, not_false_iff, true_and]
    constructor
    · intro h
      rcases h with (h | ⟨ha, hm, hvc⟩) | ⟨ha, hm, e', he', hvc⟩
      · exact Or.inl h
      · exact Or.inr ⟨ha, hm, e, by simp, hvc⟩
      · exact Or.inr ⟨ha, hm, e', by simp [he'], hvc⟩
    · intro h
      rcases h with h | ⟨ha, hm, e', he', hvc⟩
      · exact Or.inl (Or.inl h)
      · rcases List.mem_cons.mp he' with he' | he'
        · subst he'
          exact Or.inl (Or.inr ⟨ha, hm, hvc⟩)
        · exact Or.inr ⟨ha, hm, e', he', hvc⟩

theorem countAppearances_missing (M : List (Callsign × List ValidContact))
    (minApp : Option ℚ) (ctx : RulesContext) (missing0 : List Callsign)
    (details0 : List (Callsign × ParticipantScoringDetail)) (x : Callsign) :
    x ∈ (countAppearances M minApp ctx missing0 details0).missing ↔
      x ∈ missing0 ∨
        (ctx.contestRules.allowMissingParticipants = true ∧ mHas M x = false ∧
          ∃ e ∈ M, ∃ vc ∈ e.2, vc.contactedCallsign = x) := by
  unfold countAppearances
  rw [countFold_missing]

/-! ## Claim C5 -/

/-- **C5**: appearance counting is idempotent with respect to repeated
contacts inside one log: the `AppearanceCounts` entry of every callsign
`c` equals the number of map entries (submitting participants) whose
surviving contact list names `c` at least once — so a participant's log
contributes exactly 1 for `c` no matter how many of its contacts name
`c`. -/
theorem c5_appearance_counting_idempotent
    (M : List (Callsign × List ValidContact)) (minApp : Option ℚ)
    (ctx : RulesContext) (missing0 : List Callsign)
    (details0 : List (Callsign × ParticipantScoringDetail)) (c : Callsign) :
    countOf (countAppearances M minApp ctx missing0 details0).counts c =
      (M.filter (fun e => e.2.any (fun vc => vc.contactedCallsign = c))).length :=
  countAppearances_counts M minApp ctx missing0 details0 c

/-! ## Claim C6 -/

/-- An empty rule set, used by concrete instances. -/
def emptyRuleSet : RuleSet :=
  { validation := [], scoring := [], bonus := [], tiebreaker := [] }

/-- A rules context with no rules and `allowMissingParticipants = false`. -/
def plainContext : RulesContext :=
  { contestRules := { rules := emptyRuleSet }
    timeRanges := []
    bandRanges := []
    contestStart := none
    contestEnd := none }

/-- A surviving contact of `"A"` naming the non-submitting callsign `"X"`. -/
def contactToX : ValidContact :=
  { callsign := "A", contactedCallsign := "X", date := "", time := "",
    freq := "", band := "", mode := "", exchanges := ⟨"", "", "", ""⟩,
    score := 0, scoringDetailsIndex := 0 }

/-- **C6** (counterexample): with `allowMissingParticipants = false`, the
appearance-counting stage does *not* track the contacted callsign `"X"`,
which has no submitted log, in the missing-participants set — refuting
the claim that it is tracked regardless of the flag. -/
theorem c6_counterexample :
    plainContext.contestRules.allowMissingParticipants = false ∧
    mHas [("A", [contactToX])] "X" = false ∧
    (∃ vc ∈ [contactToX], vc.contactedCallsign = "X") ∧
    "X" ∉ (countAppearances [("A", [contactToX])] (some 0) plainContext
      [] []).missing := by
  refine ⟨by decide, by decide, ⟨contactToX, by decide, by decide⟩, by decide⟩

/-- **C6** (amended): during the appearance-counting stage, a contacted
callsign with no submitted log is added to the missing-participants set
iff `allowMissingParticipants` is true (when it is false the stage adds
nothing; only the earlier default-validation stage, when configured,
tracks missing participants regardless of the flag). -/
theorem c6_missing_tracked_only_when_allowed
    (M : List (Callsign × List ValidContact)) (minApp : Option ℚ)
    (ctx : RulesContext) (missing0 : List Callsign)
    (details0 : List (Callsign × ParticipantScoringDetail)) (x : Callsign) :
    x ∈ (countAppearances M minApp ctx missing0 details0).missing ↔
      x ∈ missing0 ∨
        (ctx.contestRules.allowMissingParticipants = true ∧ mHas M x = false ∧
          ∃ e ∈ M, ∃ vc ∈ e.2, vc.contactedCallsign = x) :=
  countAppearances_missing M minApp ctx missing0 details0 x

/-! ## Write-locality of scoring-detail updates -/

/-- The per-contact scoring detail stored for participant `c` at slot `i`. -/
def detailAt (ds : List (Callsign × ParticipantScoringDetail)) (c : Callsign)
    (i : ℕ) : Option ContactScoringDetail :=
  (mGet ds c).bind (fun pd => pd.contacts[i]?)

/-- The number of detail slots stored for participant `c`. -/
def detailShape (ds : List (Callsign × ParticipantScoringDetail))
    (c : Callsign) : Option ℕ :=
  (mGet ds c).map (·.contacts.length)

theorem updateDetail_none (ds : List (Callsign × ParticipantScoringDetail))
    (c : Callsign) (i : ℕ) (f : ContactScoringDetail → ContactScoringDetail)
    (h : mGet ds c = none) : updateDetail ds c i f = ds := by
  simp only [updateDetail, h]

theorem updateDetail_oob (ds : List (Callsign × ParticipantScoringDetail))
    (c : Callsign) (i : ℕ) (f : ContactScoringDetail → ContactScoringDetail)
    (pd : ParticipantScoringDetail) (h : mGet ds c = some pd)
    (h2 : pd.contacts[i]? = none) : updateDetail ds c i f = ds := by
  simp only [updateDetail, h, h2]

theorem updateDetail_write (ds : List (Callsign × ParticipantScoringDetail))
    (c : Callsign) (i : ℕ) (f : ContactScoringDetail → ContactScoringDetail)
    (pd : ParticipantScoringDetail) (d : ContactScoringDetail)
    (h : mGet ds c = some pd) (h2 : pd.contacts[i]? = some d) :
    updateDetail ds c i f =
      mSet ds c { pd with contacts := pd.contacts.set i (f d) } := by
  simp only [updateDetail, h, h2]

theorem updateDetail_shape (ds : List (Callsign × ParticipantScoringDetail))
    (c' : Callsign) (i : ℕ) (f : ContactScoringDetail → ContactScoringDetail)
    (c : Callsign) :
    detailShape (updateDetail ds c' i f) c = detailShape ds c := by
  cases h1 : mGet ds c' with
  | none => rw [updateDetail_none ds c' i f h1]
  | some pd =>
    cases h2 : pd.contacts[i]? with
    | none => rw [updateDetail_oob ds c' i f pd h1 h2]
    | some d =>
      rw [updateDetail_write ds c' i f pd d h1 h2]
      unfold detailShape
      rw [mGet_mSet]
      by_cases hc : c' = c
      · subst hc
        rw [if_pos rfl, h1]
        simp
      · rw [if_neg hc]

theorem updateDetail_mGet_ne (ds : List (Callsign × ParticipantScoringDetail))
    (c' : Callsign) (i : ℕ) (f : ContactScoringDetail → ContactScoringDetail)
    (c : Callsign) (hc : c' ≠ c) :
    mGet (updateDetail ds c' i f) c = mGet ds c := by
  cases h1 : mGet ds c' with
  | none => rw [updateDetail_none ds c' i f h1]
  | some pd =>
    cases h2 : pd.contacts[i]? with
    | none => rw [updateDetail_oob ds c' i f pd h1 h2]
    | some d =>
      rw [updateDetail_write ds c' i f pd d h1 h2, mGet_mSet, if_neg hc]

theorem updateDetail_detailAt_ne (ds : List (Callsign × ParticipantScoringDetail))
    (c' : Callsign) (i' : ℕ) (f : ContactScoringDetail → ContactScoringDetail)
    (c : Callsign) (i : ℕ) (h : c' ≠ c ∨ i' ≠ i) :
    detailAt (updateDetail ds c' i' f) c i = detailAt ds c i := by
  by_cases hc : c' = c
  · subst hc
    have hi : i' ≠ i := by
      rcases h with h | h
      · exact absurd rfl h
      · exact h
    cases h1 : mGet ds c' with
    | none => rw [updateDetail_none ds c' i' f h1]
    | some pd =>
      cases h2 : pd.contacts[i']? with
      | none => rw [updateDetail_oob ds c' i' f pd h1 h2]
      | some d =>
        rw [updateDetail_write ds c' i' f pd d h1 h2]
        unfold detailAt
        rw [mGet_mSet, if_pos rfl, h1]
        simp only [Option.some_bind]
        rw [List.getElem?_set_ne hi]
  · unfold detailAt
    rw [updateDetail_mGet_ne ds c' i' f c hc]

theorem updateDetail_detailAt_eq (ds : List (Callsign × ParticipantScoringDetail))
    (c : Callsign) (i : ℕ) (f : ContactScoringDetail → ContactScoringDetail)
    (d : ContactScoringDetail) (h : detailAt ds c i = some d) :
    detailAt (updateDetail ds c i f) c i = some (f d) := by
  unfold detailAt at h
  cases h1 : mGet ds c with
  | none => rw [h1] at h; simp at h
  | some pd =>
    rw [h1] at h
    simp only [Option.some_bind] at h
    rw [updateDetail_write ds c i f pd d h1 h]
    unfold detailAt
    rw [mGet_mSet, if_pos rfl]
    simp only [Option.some_bind]
    have hlt : i < pd.contacts.length := by
      by_contra hge
      rw [List.getElem?_eq_none (by omega)] at h
      exact Option.noConfusion h
    rw [List.getElem?_set_self (by simpa using hlt)]

/-! ## Characterizing `scoreContacts` -/

/-- The contact value produced by folding the scoring rules, with the
detail bookkeeping stripped (the rules read only the contact and the
scoring context, so the contact result is independent of the details). -/
def scorePure (rules : List (ScoringRule × Option RuleParam))
    (context : ScoringContext) (vc : ValidContact) : ValidContact :=
  rules.foldl (fun sc rule => { sc with score := scorers rule.1 sc context rule.2 }) vc

/-- The contact value produced by `scoreOneContact`. -/
def scoreContactPure (hasMinRule : Bool) (minimumContacts : Option ℚ)
    (appearanceCounts : List (String × ℕ))
    (rules : List (ScoringRule × Option RuleParam))
    (context : ScoringContext) (contact : ValidContact) : ValidContact :=
  if hasMinRule &&
      ltCount (countOf appearanceCounts contact.contactedCallsign) minimumContacts then
    { contact with score := 0 }
  else scorePure rules context { contact with score := 0 }

theorem scoreRulesFold_fst (rules : List (ScoringRule × Option RuleParam))
    (context : ScoringContext) (callsign : Callsign) (vc : ValidContact)
    (ds : List (Callsign × ParticipantScoringDetail)) :
    (scoreRulesFold rules context callsign (vc, ds)).1 = scorePure rules context vc := by
  induction rules generalizing vc ds with
  | nil => simp [scoreRulesFold, scorePure]
  | cons rule rest ih =>
    simp only [scoreRulesFold, List.foldl_cons] at *
    rw [show (List.foldl _ _ : _ → _) = _ from rfl]
    exact ih _ _

theorem scorePure_index (rules : List (ScoringRule × Option RuleParam))
    (context : ScoringContext) (vc : ValidContact) :
    (scorePure rules context vc).scoringDetailsIndex = vc.scoringDetailsIndex := by
  induction rules generalizing vc with
  | nil => rfl
  | cons rule rest ih =>
    simp only [scorePure, List.foldl_cons] at *
    exact ih _

theorem scoreRulesFold_shape (rules : List (ScoringRule × Option RuleParam))
    (context : ScoringContext) (callsign : Callsign) (vc : ValidContact)
    (ds : List (Callsign × ParticipantScoringDetail)) (c : Callsign) :
    detailShape (scoreRulesFold rules context callsign (vc, ds)).2 c =
      detailShape ds c := by
  induction rules generalizing vc ds with
  | nil => rfl
  | cons rule rest ih =>
    simp only [scoreRulesFold, List.foldl_cons] at *
    rw [show (List.foldl _ _ : _ → _) = _ from rfl]
    by_cases hch : vc.score ≠ scorers rule.1 vc context rule.2
    · simp only [if_pos hch]
      rw [ih]
      exact updateDetail_shape _ _ _ _ _
    · simp only [if_neg hch]
      exact ih _ _

theorem scoreRulesFold_detailAt (rules : List (ScoringRule × Option RuleParam))
    (context : ScoringContext) (callsign : Callsign) (vc : ValidContact)
    (ds : List (Callsign × ParticipantScoringDetail)) (c : Callsign) (i : ℕ)
    (h : c ≠ callsign ∨ i ≠ vc.scoringDetailsIndex) :
    detailAt (scoreRulesFold rules context callsign (vc, ds)).2 c i =
      detailAt ds c i := by
  induction rules generalizing vc ds with
  | nil => rfl
  | cons rule rest ih =>
    simp only [scoreRulesFold, List.foldl_cons] at *
    rw [show (List.foldl _ _ : _ → _) = _ from rfl]
    have hidx : ({ vc with score := scorers rule.1 vc context rule.2 } :
        ValidContact).scoringDetailsIndex = vc.scoringDetailsIndex := rfl
    by_cases hch : vc.score ≠ scorers rule.1 vc context rule.2
    · simp only [if_pos hch]
      rw [ih _ _ (by rw [hidx]; exact h)]
      apply updateDetail_detailAt_ne
      rcases h with h | h
      · exact Or.inl (fun he => h he.symm)
      · exact Or.inr (fun he => h he.symm)
    · simp only [if_neg hch]
      exact ih _ _ (by rw [hidx]; exact h)

theorem scoreOneContact_fst (hasMinRule : Bool) (minC : Option ℚ)
    (ac : List (String × ℕ)) (rules : List (ScoringRule × Option RuleParam))
    (context : ScoringContext) (callsign : Callsign)
    (ds : List (Callsign × ParticipantScoringDetail)) (contact : ValidContact) :
    (scoreOneContact hasMinRule minC ac rules context callsign ds contact).1 =
      scoreContactPure hasMinRule minC ac rules context contact := by
  unfold scoreOneContact scoreContactPure
  by_cases h : (hasMinRule &&
      ltCount (countOf ac contact.contactedCallsign) minC) = true
  · rw [if_pos h, if_pos h]
  · rw [if_neg h, if_neg h]
    exact scoreRulesFold_fst _ _ _ _ _

theorem scoreOneContact_shape (hasMinRule : Bool) (minC : Option ℚ)
    (ac : List (String × ℕ)) (rules : List (ScoringRule × Option RuleParam))
    (context : ScoringContext) (callsign : Callsign)
    (ds : List (Callsign × ParticipantScoringDetail)) (contact : ValidContact)
    (c : Callsign) :
    detailShape (scoreOneContact hasMinRule minC ac rules context callsign ds
      contact).2 c = detailShape ds c := by
  unfold scoreOneContact
  by_cases h : (hasMinRule &&
      ltCount (countOf ac contact.contactedCallsign) minC) = true
  · rw [if_pos h]
    exact updateDetail_shape _ _ _ _ _
  · rw [if_neg h]
    exact scoreRulesFold_shape _ _ _ _ _ _

theorem scoreOneContact_detailAt (hasMinRule : Bool) (minC : Option ℚ)
    (ac : List (String × ℕ)) (rules : List (ScoringRule × Option RuleParam))
    (context : ScoringContext) (callsign : Callsign)
    (ds : List (Callsign × ParticipantScoringDetail)) (contact : ValidContact)
    (c : Callsign) (i : ℕ) (h : c ≠ callsign ∨ i ≠ contact.scoringDetailsIndex) :
    detailAt (scoreOneContact hasMinRule minC ac rules context callsign ds
      contact).2 c i = detailAt ds c i := by
  unfold scoreOneContact
  by_cases hg : (hasMinRule &&
      ltCount (countOf ac contact.contactedCallsign) minC) = true
  · rw [if_pos hg]
    apply updateDetail_detailAt_ne
    rcases h with h | h
    · exact Or.inl (fun he => h he.symm)
    · exact Or.inr (fun he => h he.symm)
  · rw [if_neg hg]
    exact scoreRulesFold_detailAt _ _ _ _ _ _ _ h

theorem scoreContactStep_fold_fst (hasMinRule : Bool) (minC : Option ℚ)
    (ac : List (String × ℕ)) (rules : List (ScoringRule × Option RuleParam))
    (context : ScoringContext) (callsign : Callsign)
    (contacts : List ValidContact)
    (p : List ValidContact × List (Callsign × ParticipantScoringDetail)) :
    (contacts.foldl (scoreContactStep hasMinRule minC ac rules context callsign)
      p).1 =
      p.1 ++ contacts.map (scoreContactPure hasMinRule minC ac rules context) := by
  induction contacts generalizing p with
  | nil => simp
  | cons contact rest ih =>
    simp only [List.foldl_cons, List.map_cons]
    rw [ih]
    simp only [scoreContactStep, scoreOneContact_fst]
    simp

theorem scoreContactStep_fold_shape (hasMinRule : Bool) (minC : Option ℚ)
    (ac : List (String × ℕ)) (rules : List (ScoringRule × Option RuleParam))
    (context : ScoringContext) (callsign : Callsign)
    (contacts : List ValidContact)
    (p : List ValidContact × List (Callsign × ParticipantScoringDetail))
    (c : Callsign) :
    detailShape ((contacts.foldl
      (scoreContactStep hasMinRule minC ac rules context callsign) p).2) c =
      detailShape p.2 c := by
  induction contacts generalizing p with
  | nil => rfl
  | cons contact rest ih =>
    simp only [List.foldl_cons]
    rw [ih]
    simp only [scoreContactStep]
    exact scoreOneContact_shape _ _ _ _ _ _ _ _ _

theorem scoreContactStep_fold_detailAt (hasMinRule : Bool) (minC : Option ℚ)
    (ac : List (String × ℕ)) (rules : List (ScoringRule × Option RuleParam))
    (context : ScoringContext) (callsign : Callsign)
    (contacts : List ValidContact)
    (p : List ValidContact × List (Callsign × ParticipantScoringDetail))
    (c : Callsign) (i : ℕ)
    (h : c ≠ callsign ∨ i ∉ contacts.map (·.scoringDetailsIndex)) :
    detailAt ((contacts.foldl
      (scoreContactStep hasMinRule minC ac rules context callsign) p).2) c i =
      detailAt p.2 c i := by
  induction contacts generalizing p with
  | nil => rfl
  | cons contact rest ih =>
    simp only [List.foldl_cons]
    have hrest : c ≠ callsign ∨ i ∉ rest.map (·.scoringDetailsIndex) := by
      rcases h with h | h
      · exact Or.inl h
      · exact Or.inr (fun hm => h (by simp [hm]))
    rw [ih _ hrest]
    simp only [scoreContactStep]
    apply scoreOneContact_detailAt
    rcases h with h | h
    · exact Or.inl h
    · exact Or.inr (fun he => h (by simp [he]))

theorem mGet_append {β : Type} (m1 m2 : List (String × β)) (k : String) :
    mGet (m1 ++ m2) k =
      match mGet m1 k with
      | some v => some v
      | none => mGet m2 k := by
  induction m1 with
  | nil => simp [mGet]
  | cons e rest ih =>
    by_cases h : e.1 = k
    · obtain ⟨ek, ev⟩ := e
      simp_all [mGet]
    · obtain ⟨ek, ev⟩ := e
      simp only [List.cons_append, mGet] at *
      rw [if_neg h, if_neg h]
      simpa using ih

theorem mGet_none_of_not_mem {β : Type} (m : List (String × β)) (k : String)
    (h : k ∉ m.map Prod.fst) : mGet m k = none := by
  cases hm : mGet m k with
  | none => rfl
  | some v =>
    have : (mGet m k).isSome = true := by rw [hm]; rfl
    exact absurd ((mGet_isSome_iff m k).mp this) h

/-- The output entry `scoreContacts` produces for one input entry, as a
function of the initial details (whose shapes the fold preserves). -/
def scoredEntry (hasMinRule : Bool) (minC : Option ℚ)
    (ac : List (String × ℕ)) (rules : List (ScoringRule × Option RuleParam))
    (context : ScoringContext)
    (ds0 : List (Callsign × ParticipantScoringDetail))
    (e : Callsign × Option (List ValidContact)) :
    Option (Callsign × List ValidContact) :=
  match e.2 with
  | none => none
  | some cs =>
    some (e.1,
      if hasMinRule && ltCount ((detailShape ds0 e.1).getD 0) minC then []
      else cs.map (scoreContactPure hasMinRule minC ac rules context))

theorem scoreParticipantStep_shape (hasMinRule : Bool) (minC : Option ℚ)
    (ac : List (String × ℕ)) (rules : List (ScoringRule × Option RuleParam))
    (context : ScoringContext)
    (acc : List (Callsign × List ValidContact) ×
      List (Callsign × ParticipantScoringDetail))
    (e : Callsign × Option (List ValidContact)) (c : Callsign) :
    detailShape (scoreParticipantStep hasMinRule minC ac rules context acc e).2 c =
      detailShape acc.2 c := by
  cases he : e.2 with
  | none => simp only [scoreParticipantStep, he]
  | some cs =>
    simp only [scoreParticipantStep, he]
    by_cases hgate : (hasMinRule &&
        ltCount (((mGet acc.2 e.1).map (·.contacts.length)).getD 0) minC) = true
    · rw [if_pos hgate]
    · rw [if_neg hgate]
      exact scoreContactStep_fold_shape _ _ _ _ _ _ _ _ _

theorem scoreParticipantStep_fold_fst (hasMinRule : Bool) (minC : Option ℚ)
    (ac : List (String × ℕ)) (rules : List (ScoringRule × Option RuleParam))
    (context : ScoringContext)
    (ds0 : List (Callsign × ParticipantScoringDetail))
    (l : List (Callsign × Option (List ValidContact)))
    (acc : List (Callsign × List ValidContact) ×
      List (Callsign × ParticipantScoringDetail))
    (hsh : ∀ c, detailShape acc.2 c = detailShape ds0 c) :
    (l.foldl (scoreParticipantStep hasMinRule minC ac rules context) acc).1 =
      acc.1 ++ l.filterMap (scoredEntry hasMinRule minC ac rules context ds0) := by
  induction l generalizing acc with
  | nil => simp
  | cons e rest ih =>
    simp only [List.foldl_cons, List.filterMap_cons]
    have hsh' : ∀ c,
        detailShape (scoreParticipantStep hasMinRule minC ac rules context acc e).2 c =
          detailShape ds0 c := by
      intro c
      rw [scoreParticipantStep_shape, hsh]
    rw [ih _ hsh']
    cases he : e.2 with
    | none =>
      simp only [scoredEntry, he]
      simp only [scoreParticipantStep, he]
    | some cs =>
      simp only [scoredEntry, he]
      simp only [scoreParticipantStep, he]
      have hgd : ((mGet acc.2 e.1).map (·.contacts.length)).getD 0 =
          (detailShape ds0 e.1).getD 0 := by
        rw [← hsh e.1]; rfl
      by_cases hgate : (hasMinRule && ltCount ((detailShape ds0 e.1).getD 0) minC) = true
      · rw [if_pos (by rw [hgd]; exact hgate), if_pos hgate]
        simp
      · rw [if_neg (by rw [hgd]; exact hgate), if_neg hgate]
        rw [scoreContactStep_fold_fst]
        simp

theorem scoreParticipantStep_fold_detailAt (hasMinRule : Bool) (minC : Option ℚ)
    (ac : List (String × ℕ)) (rules : List (ScoringRule × Option RuleParam))
    (context : ScoringContext)
    (l : List (Callsign × Option (List ValidContact)))
    (acc : List (Callsign × List ValidContact) ×
      List (Callsign × ParticipantScoringDetail))
    (c : Callsign) (i : ℕ) (h : c ∉ l.map Prod.fst) :
    detailAt (l.foldl (scoreParticipantStep hasMinRule minC ac rules context)
      acc).2 c i = detailAt acc.2 c i := by
  induction l generalizing acc with
  | nil => rfl
  | cons e rest ih =>
    simp only [List.foldl_cons]
    have hrest : c ∉ rest.map Prod.fst := fun hm => h (by simp [hm])
    have hne : c ≠ e.1 := fun he => h (by simp [he])
    rw [ih _ hrest]
    cases he2 : e.2 with
    | none => simp only [scoreParticipantStep, he2]
    | some cs =>
      simp only [scoreParticipantStep, he2]
      by_cases hgate : (hasMinRule &&
          ltCount (((mGet acc.2 e.1).map (·.contacts.length)).getD 0) minC) = true
      · rw [if_pos hgate]
      · rw [if_neg hgate]
        exact scoreContactStep_fold_detailAt _ _ _ _ _ _ _ _ _ _ (Or.inl hne)

theorem scoreParticipantStep_fold_shape (hasMinRule : Bool) (minC : Option ℚ)
    (ac : List (String × ℕ)) (rules : List (ScoringRule × Option RuleParam))
    (context : ScoringContext)
    (l : List (Callsign × Option (List ValidContact)))
    (acc : List (Callsign × List ValidContact) ×
      List (Callsign × ParticipantScoringDetail)) (c : Callsign) :
    detailShape (l.foldl (scoreParticipantStep hasMinRule minC ac rules context)
      acc).2 c = detailShape acc.2 c := by
  induction l generalizing acc with
  | nil => rfl
  | cons e rest ih =>
    simp only [List.foldl_cons]
    rw [ih, scoreParticipantStep_shape]

theorem scoreContacts_fst (validContacts : List (Callsign × Option (List ValidContact)))
    (rulesContext : RulesContext)
    (scoringDetails : List (Callsign × ParticipantScoringDetail))
    (appearanceCounts : List (String × ℕ)) :
    (scoreContacts validContacts rulesContext scoringDetails appearanceCounts).1 =
      validContacts.filterMap
        (scoredEntry (scoringMinRule rulesContext).isSome
          (scoringThresholdOf (scoringMinRule rulesContext)) appearanceCounts
          (otherScoringRulesOf rulesContext)
          (scoringContextOf validContacts rulesContext) scoringDetails) := by
  unfold scoreContacts
  rw [scoreParticipantStep_fold_fst _ _ _ _ _ scoringDetails _ _ (fun c => rfl)]
  rfl

theorem detailAt_isSome_of_shape (ds : List (Callsign × ParticipantScoringDetail))
    (c : Callsign) (i len : ℕ) (hsh : detailShape ds c = some len) (hi : i < len) :
    ∃ d, detailAt ds c i = some d := by
  unfold detailShape at hsh
  cases hm : mGet ds c with
  | none => rw [hm] at hsh; simp at hsh
  | some pd =>
    rw [hm] at hsh
    have hlen : pd.contacts.length = len := by
      simpa using hsh
    unfold detailAt
    rw [hm]
    simp only [Option.some_bind]
    have : i < pd.contacts.length := by omega
    exact ⟨pd.contacts[i], List.getElem?_eq_getElem this⟩

theorem scoredEntry_key (hasMinRule : Bool) (minC : Option ℚ)
    (ac : List (String × ℕ)) (rules : List (ScoringRule × Option RuleParam))
    (context : ScoringContext) (ds : List (Callsign × ParticipantScoringDetail))
    (e : Callsign × Option (List ValidContact))
    (r : Callsign × List ValidContact)
    (h : scoredEntry hasMinRule minC ac rules context ds e = some r) :
    r.1 = e.1 := by
  unfold scoredEntry at h
  cases he : e.2 with
  | none => rw [he] at h; exact Option.noConfusion h
  | some cs =>
    rw [he] at h
    simp only [Option.some_inj] at h
    rw [← h]

theorem keys_filterMap_scoredEntry (hasMinRule : Bool) (minC : Option ℚ)
    (ac : List (String × ℕ)) (rules : List (ScoringRule × Option RuleParam))
    (context : ScoringContext) (ds : List (Callsign × ParticipantScoringDetail))
    (l : List (Callsign × Option (List ValidContact))) :
    ((l.filterMap (scoredEntry hasMinRule minC ac rules context ds)).map
      Prod.fst) ⊆ l.map Prod.fst := by
  intro k hk
  simp only [List.mem_map] at hk
  obtain ⟨r, hr, hk⟩ := hk
  rw [List.mem_filterMap] at hr
  obtain ⟨e, he, hse⟩ := hr
  have := scoredEntry_key _ _ _ _ _ _ _ _ hse
  rw [List.mem_map]
  exact ⟨e, he, by rw [← hk, this]⟩

/-! ## Claim C3 -/

/-- **C3**: with a scoring-level `minimumContacts` rule of threshold `N`
configured, a scored contact whose contacted callsign has an appearance
count below `N` comes out of `scoreContacts` with score 0, and its
scoring detail is tagged `scoreRule = minimumContacts`, `givenScore = 0`;
the zeroed contact value is the gate branch, to which no scoring rule is
applied.  (The participant itself must pass the raw-contact-count gate,
`¬ len < N`, else it is scored to an empty list; the remaining
hypotheses are the well-formedness invariants the pipeline maintains:
the participant occurs once, detail slots exist, and detail indices of
the following contacts differ.) -/
theorem c3_scoring_minimum_contacts_gate
    (validContacts₁ validContacts₂ : List (Callsign × Option (List ValidContact)))
    (rulesContext : RulesContext)
    (scoringDetails : List (Callsign × ParticipantScoringDetail))
    (appearanceCounts : List (String × ℕ))
    (callsign : Callsign) (cs₁ cs₂ : List ValidContact) (contact : ValidContact)
    (N : ℚ) (len : ℕ)
    (hrule : extractRule rulesContext.contestRules.rules.scoring
      ScoringRule.minimumContacts =
      some (ScoringRule.minimumContacts, some (RuleParam.num N)))
    (hcount : ((countOf appearanceCounts contact.contactedCallsign : ℚ)) < N)
    (hshape : detailShape scoringDetails callsign = some len)
    (hidx : contact.scoringDetailsIndex < len)
    (hgate : ¬((len : ℚ) < N))
    (hfirst : callsign ∉ validContacts₁.map Prod.fst)
    (hlater : callsign ∉ validContacts₂.map Prod.fst)
    (hafter : contact.scoringDetailsIndex ∉ cs₂.map (·.scoringDetailsIndex)) :
    (∃ out, mGet (scoreContacts
        (validContacts₁ ++ (callsign, some (cs₁ ++ contact :: cs₂)) :: validContacts₂)
        rulesContext scoringDetails appearanceCounts).1 callsign = some out ∧
      out[cs₁.length]? = some { contact with score := 0 }) ∧
    (∃ d, detailAt (scoreContacts
        (validContacts₁ ++ (callsign, some (cs₁ ++ contact :: cs₂)) :: validContacts₂)
        rulesContext scoringDetails appearanceCounts).2
        callsign contact.scoringDetailsIndex = some d ∧
      d.scoreRule = some ScoringRule.minimumContacts ∧ d.givenScore = some 0) := by
  have hmin : scoringMinRule rulesContext =
      some (ScoringRule.minimumContacts, some (RuleParam.num N)) := hrule
  have hminIsSome : (scoringMinRule rulesContext).isSome = true := by
    rw [hmin]; rfl
  have hthr : scoringThresholdOf (scoringMinRule rulesContext) = some N := by
    rw [hmin]; rfl
  have hcgate : ltCount (countOf appearanceCounts contact.contactedCallsign)
      (scoringThresholdOf (scoringMinRule rulesContext)) = true := by
    rw [hthr]
    unfold ltCount
    exact decide_eq_true hcount
  have hpgate : ltCount len (scoringThresholdOf (scoringMinRule rulesContext)) = false := by
    rw [hthr]
    unfold ltCount
    exact decide_eq_false hgate
  constructor
  · -- the contact value out of the scorer
    rw [scoreContacts_fst]
    rw [List.filterMap_append, mGet_append]
    have h1 : mGet (validContacts₁.filterMap
        (scoredEntry (scoringMinRule rulesContext).isSome
          (scoringThresholdOf (scoringMinRule rulesContext)) appearanceCounts
          (otherScoringRulesOf rulesContext)
          (scoringContextOf (validContacts₁ ++ (callsign, some (cs₁ ++ contact :: cs₂)) :: validContacts₂) rulesContext) scoringDetails)) callsign = none := by
      apply mGet_none_of_not_mem
      intro hmem
      exact hfirst (keys_filterMap_scoredEntry _ _ _ _ _ _ _ hmem)
    rw [h1]
    have hentry : scoredEntry (scoringMinRule rulesContext).isSome
        (scoringThresholdOf (scoringMinRule rulesContext)) appearanceCounts
        (otherScoringRulesOf rulesContext)
        (scoringContextOf (validContacts₁ ++ (callsign, some (cs₁ ++ contact :: cs₂)) :: validContacts₂) rulesContext) scoringDetails
        (callsign, some (cs₁ ++ contact :: cs₂)) =
        some (callsign, (cs₁ ++ contact :: cs₂).map
          (scoreContactPure (scoringMinRule rulesContext).isSome
            (scoringThresholdOf (scoringMinRule rulesContext)) appearanceCounts
            (otherScoringRulesOf rulesContext)
            (scoringContextOf (validContacts₁ ++ (callsign, some (cs₁ ++ contact :: cs₂)) :: validContacts₂) rulesContext))) := by
      unfold scoredEntry
      simp only
      rw [show detailShape scoringDetails callsign = some len from hshape]
      rw [hminIsSome]
      simp only [Option.getD_some, Bool.true_and, hpgate]
      rfl
    rw [List.filterMap_cons, hentry]
    simp only [mGet, if_pos rfl]
    refine ⟨_, rfl, ?_⟩
    rw [List.map_append, List.map_cons]
    rw [List.getElem?_append_right (by simp)]
    simp only [List.length_map, Nat.sub_self]
    have hpure : scoreContactPure (scoringMinRule rulesContext).isSome
        (scoringThresholdOf (scoringMinRule rulesContext)) appearanceCounts
        (otherScoringRulesOf rulesContext)
        (scoringContextOf (validContacts₁ ++ (callsign, some (cs₁ ++ contact :: cs₂)) :: validContacts₂) rulesContext) contact = { contact with score := 0 } := by
      unfold scoreContactPure
      rw [if_pos (by rw [hminIsSome, hcgate]; rfl)]
    simp [hpure]
  · -- the detail tag
    unfold scoreContacts
    rw [List.foldl_append, List.foldl_cons]
    set F := scoreParticipantStep (scoringMinRule rulesContext).isSome
      (scoringThresholdOf (scoringMinRule rulesContext)) appearanceCounts
      (otherScoringRulesOf rulesContext)
      (scoringContextOf (validContacts₁ ++
        (callsign, some (cs₁ ++ contact :: cs₂)) :: validContacts₂) rulesContext)
      with hF
    rw [scoreParticipantStep_fold_detailAt _ _ _ _ _ _ _ _ _ hlater]
    set acc1 := List.foldl F ([], scoringDetails) validContacts₁ with hacc1
    have hsh1 : ∀ c, detailShape acc1.2 c = detailShape scoringDetails c := by
      intro c
      rw [hacc1, hF]
      exact scoreParticipantStep_fold_shape _ _ _ _ _ _ _ _
    have hgd : ((mGet acc1.2 callsign).map (·.contacts.length)).getD 0 = len := by
      have h := hsh1 callsign
      have h2 := hshape
      unfold detailShape at h h2
      rw [h, h2]
      rfl
    have hstep : F acc1 (callsign, some (cs₁ ++ contact :: cs₂)) =
        (acc1.1 ++ [(callsign, ((cs₁ ++ contact :: cs₂).foldl
          (scoreContactStep (scoringMinRule rulesContext).isSome
            (scoringThresholdOf (scoringMinRule rulesContext)) appearanceCounts
            (otherScoringRulesOf rulesContext)
            (scoringContextOf (validContacts₁ ++ (callsign, some (cs₁ ++ contact :: cs₂)) :: validContacts₂) rulesContext) callsign) ([], acc1.2)).1)],
          ((cs₁ ++ contact :: cs₂).foldl
          (scoreContactStep (scoringMinRule rulesContext).isSome
            (scoringThresholdOf (scoringMinRule rulesContext)) appearanceCounts
            (otherScoringRulesOf rulesContext)
            (scoringContextOf (validContacts₁ ++ (callsign, some (cs₁ ++ contact :: cs₂)) :: validContacts₂) rulesContext) callsign) ([], acc1.2)).2) := by
      rw [hF]
      simp only [scoreParticipantStep]
      rw [hgd, hminIsSome, hpgate]
      simp
    rw [hstep]
    simp only
    rw [List.foldl_append, List.foldl_cons]
    rw [scoreContactStep_fold_detailAt _ _ _ _ _ _ _ _ _ _ (Or.inr hafter)]
    set p1 := List.foldl (scoreContactStep (scoringMinRule rulesContext).isSome
      (scoringThresholdOf (scoringMinRule rulesContext)) appearanceCounts
      (otherScoringRulesOf rulesContext)
      (scoringContextOf (validContacts₁ ++ (callsign, some (cs₁ ++ contact :: cs₂)) :: validContacts₂) rulesContext) callsign) ([], acc1.2) cs₁ with hp1
    have hshp1 : detailShape p1.2 callsign = some len := by
      rw [hp1]
      rw [scoreContactStep_fold_shape]
      simp only
      rw [hsh1, hshape]
    obtain ⟨d0, hd0⟩ := detailAt_isSome_of_shape _ _ _ _ hshp1 hidx
    have hone : (scoreContactStep (scoringMinRule rulesContext).isSome
        (scoringThresholdOf (scoringMinRule rulesContext)) appearanceCounts
        (otherScoringRulesOf rulesContext)
        (scoringContextOf (validContacts₁ ++ (callsign, some (cs₁ ++ contact :: cs₂)) :: validContacts₂) rulesContext) callsign p1 contact).2 =
        updateDetail p1.2 callsign contact.scoringDetailsIndex
          (fun d => { d with scoreRule := some ScoringRule.minimumContacts,
                             givenScore := some 0 }) := by
      simp only [scoreContactStep, scoreOneContact]
      rw [if_pos (by rw [hminIsSome, hcgate]; rfl)]
    rw [hone]
    refine ⟨_, updateDetail_detailAt_eq _ _ _ _ _ hd0, rfl, rfl⟩

/-- Contest rules with only a scoring-level `minimumContacts` of 2. -/
def c3Rules : ContestRules :=
  { rules := { validation := [],
               scoring := [(ScoringRule.minimumContacts, some (RuleParam.num 2))],
               bonus := [], tiebreaker := [] } }

def c3Ctx : RulesContext :=
  { contestRules := c3Rules, timeRanges := [], bandRanges := [],
    contestStart := none, contestEnd := none }

def blankDetail : ContactScoringDetail :=
  { contact := {}, invalidValidationRule := none }

def c3Details : List (Callsign × ParticipantScoringDetail) :=
  [("A", { contacts := [blankDetail, blankDetail] })]

def c3Contact : ValidContact :=
  { callsign := "A", contactedCallsign := "B", date := "", time := "",
    freq := "", band := "", mode := "", exchanges := ⟨"", "", "", ""⟩,
    score := 5, scoringDetailsIndex := 0 }

/-- Witness for `c3_scoring_minimum_contacts_gate`: callsign `"B"` was
contacted in one log, below the configured threshold of 2, so `"A"`'s
contact with it scores 0 and is tagged `minimumContacts`. -/
theorem c3_scoring_minimum_contacts_gate_witness :
    ((countOf [("B", 1)] c3Contact.contactedCallsign : ℚ) < 2) ∧
    ((∃ out, mGet (scoreContacts [("A", some [c3Contact])] c3Ctx c3Details
        [("B", 1)]).1 "A" = some out ∧
      out[(0 : ℕ)]? = some { c3Contact with score := 0 }) ∧
     (∃ d, detailAt (scoreContacts [("A", some [c3Contact])] c3Ctx c3Details
        [("B", 1)]).2 "A" c3Contact.scoringDetailsIndex = some d ∧
      d.scoreRule = some ScoringRule.minimumContacts ∧ d.givenScore = some 0)) :=
  ⟨by decide,
    c3_scoring_minimum_contacts_gate [] [] c3Ctx c3Details [("B", 1)] "A" [] []
      c3Contact 2 2 (by decide) (by decide) (by decide) (by decide) (by decide)
      (by decide) (by decide) (by decide)⟩

/-! ## Claim C9 -/

/-- A trivially-true regular-expression engine, used as the abstract
regex parameter in concrete instances. -/
def rxAlways : String → String → Bool := fun _ _ => true

/-- A configuration whose four rule lists are all empty. -/
def plainRules : ContestRules := { rules := emptyRuleSet }

/-- **C9**: `scoreContest` is deterministic — two runs on equal
submissions and equal rule configurations return equal `ContestResult`s
in every field.  (In this embedding the engine is a pure function of its
inputs; the source has no hidden state, randomness or clock reads.) -/
theorem c9_scoreContest_deterministic (rx : String → String → Bool)
    (s1 s2 : List (Callsign × List Contact)) (rules1 rules2 : ContestRules)
    (hs : s1 = s2) (hr : rules1 = rules2) :
    scoreContest rx s1 rules1 = scoreContest rx s2 rules2 := by
  rw [hs, hr]

/-- Witness for `c9_scoreContest_deterministic` at a concrete input. -/
theorem c9_scoreContest_deterministic_witness :
    scoreContest rxAlways [("A", [])] plainRules =
      scoreContest rxAlways [("A", [])] plainRules :=
  c9_scoreContest_deterministic rxAlways [("A", [])] [("A", [])]
    plainRules plainRules rfl rfl

/-! ## Claim C8 -/

/-- One raw contact of `"A"` naming `"B"`, with no other fields. -/
def c8Contact : Contact := { call := "B" }

/-- The final scoring detail the engine produces for that contact when
no validation or scoring rule is configured: both `scoreRule` and
`givenScore` are left unset. -/
def c8FinalDetail : ContactScoringDetail :=
  { contact := c8Contact, invalidValidationRule := none }

/-- **C8** (divergence at the failing input): after a full
`scoreContest` run with empty rule lists, participant `"A"`'s only
contact ends with `scoreRule` unset (JavaScript `undefined`, which is
`== null`) while `givenScore` is also unset — not the number 0 the claim
(and the declared `ContactScoringDetail` type, whose `givenScore` field
is a non-optional `number`) require. -/
theorem c8_unset_given_score :
    detailAt (scoreContest rxAlways [("A", [c8Contact])] plainRules).scoringDetails
      "A" 0 = some c8FinalDetail ∧
    c8FinalDetail.scoreRule = none ∧ c8FinalDetail.givenScore = none := by
  refine ⟨by decide, rfl, rfl⟩

/-! ## Claim C10 -/

/-- The current `uniqueContactsByTimeRangeValidator` reads the contact's
date and time through the raw-record accessor, which yields `''` on a
`ValidContact`; the early missing-date/time return therefore fires for
every contact. -/
theorem uniqueContactsByTimeRangeValidator_false (callsign : Callsign)
    (contact : ValidContact) (m : List (Callsign × List ValidContact))
    (timeRanges : List (String × TimeRange)) :
    uniqueContactsByTimeRangeValidator callsign contact m timeRanges = false := by
  unfold uniqueContactsByTimeRangeValidator getDateTimeFromValidContact
  by_cases h : contact.contactedCallsign = "" <;> simp [h]

/-- The detail update `applyUniqueContactsByTimeRangeValidation` records
for a rejected contact. -/
def uniqueRejectTag (d : ContactScoringDetail) : ContactScoringDetail :=
  { d with invalidValidationRule := some ValidationRule.uniqueContactsByTimeRange
           givenScore := some 0
           scoreRule := none }

theorem uniqueContactStep_eq (timeRanges : List (String × TimeRange))
    (callsign : Callsign)
    (inner : List (Callsign × List ValidContact) × ValidatorState)
    (contact : ValidContact) :
    uniqueContactStep timeRanges callsign inner contact =
      (inner.1,
        { inner.2 with
            scoringDetails := updateDetail inner.2.scoringDetails callsign
              contact.scoringDetailsIndex uniqueRejectTag }) := by
  unfold uniqueContactStep uniqueRejectTag
  rw [uniqueContactsByTimeRangeValidator_false]
  simp

theorem uniqueFold_fst (timeRanges : List (String × TimeRange))
    (callsign : Callsign) (contacts : List ValidContact)
    (p : List (Callsign × List ValidContact) × ValidatorState) :
    (contacts.foldl (uniqueContactStep timeRanges callsign) p).1 = p.1 := by
  induction contacts generalizing p with
  | nil => rfl
  | cons contact rest ih =>
    simp only [List.foldl_cons]
    rw [ih, uniqueContactStep_eq]

theorem uniqueFold_shape (timeRanges : List (String × TimeRange))
    (callsign : Callsign) (contacts : List ValidContact)
    (p : List (Callsign × List ValidContact) × ValidatorState) (c : Callsign) :
    detailShape (contacts.foldl (uniqueContactStep timeRanges callsign)
      p).2.scoringDetails c = detailShape p.2.scoringDetails c := by
  induction contacts generalizing p with
  | nil => rfl
  | cons contact rest ih =>
    simp only [List.foldl_cons]
    rw [ih, uniqueContactStep_eq]
    simp only
    rw [updateDetail_shape]

theorem uniqueFold_detailAt (timeRanges : List (String × TimeRange))
    (callsign : Callsign) (contacts : List ValidContact)
    (p : List (Callsign × List ValidContact) × ValidatorState)
    (c : Callsign) (i : ℕ)
    (h : c ≠ callsign ∨ i ∉ contacts.map (·.scoringDetailsIndex)) :
    detailAt (contacts.foldl (uniqueContactStep timeRanges callsign)
      p).2.scoringDetails c i = detailAt p.2.scoringDetails c i := by
  induction contacts generalizing p with
  | nil => rfl
  | cons contact rest ih =>
    simp only [List.foldl_cons]
    have hrest : c ≠ callsign ∨ i ∉ rest.map (·.scoringDetailsIndex) := by
      rcases h with h | h
      · exact Or.inl h
      · exact Or.inr (fun hm => h (by simp [hm]))
    rw [ih _ hrest, uniqueContactStep_eq]
    simp only
    apply updateDetail_detailAt_ne
    rcases h with h | h
    · exact Or.inl (fun he => h he.symm)
    · exact Or.inr (fun he => h (by simp [he]))

theorem uniqueOuterFold_values_empty (timeRanges : List (String × TimeRange))
    (l : List (Callsign × List ValidContact))
    (acc : List (Callsign × List ValidContact) × ValidatorState)
    (hacc : ∀ k v, mGet acc.1 k = some v → v = []) :
    ∀ k v, mGet (l.foldl (fun acc e =>
        e.2.foldl (uniqueContactStep timeRanges e.1) (mSet acc.1 e.1 [], acc.2))
      acc).1 k = some v → v = [] := by
  induction l generalizing acc with
  | nil => exact hacc
  | cons e rest ih =>
    simp only [List.foldl_cons]
    apply ih
    intro k v hv
    rw [uniqueFold_fst] at hv
    simp only at hv
    rw [mGet_mSet] at hv
    by_cases hk : e.1 = k
    · rw [if_pos hk] at hv
      exact (Option.some_inj.mp hv).symm
    · rw [if_neg hk] at hv
      exact hacc k v hv

theorem uniqueOuterFold_shape (timeRanges : List (String × TimeRange))
    (l : List (Callsign × List ValidContact))
    (acc : List (Callsign × List ValidContact) × ValidatorState) (c : Callsign) :
    detailShape (l.foldl (fun acc e =>
        e.2.foldl (uniqueContactStep timeRanges e.1) (mSet acc.1 e.1 [], acc.2))
      acc).2.scoringDetails c = detailShape acc.2.scoringDetails c := by
  induction l generalizing acc with
  | nil => rfl
  | cons e rest ih =>
    simp only [List.foldl_cons]
    rw [ih, uniqueFold_shape]

theorem uniqueOuterFold_detailAt (timeRanges : List (String × TimeRange))
    (l : List (Callsign × List ValidContact))
    (acc : List (Callsign × List ValidContact) × ValidatorState)
    (c : Callsign) (i : ℕ) (h : c ∉ l.map Prod.fst) :
    detailAt (l.foldl (fun acc e =>
        e.2.foldl (uniqueContactStep timeRanges e.1) (mSet acc.1 e.1 [], acc.2))
      acc).2.scoringDetails c i = detailAt acc.2.scoringDetails c i := by
  induction l generalizing acc with
  | nil => rfl
  | cons e rest ih =>
    simp only [List.foldl_cons]
    have hrest : c ∉ rest.map Prod.fst := fun hm => h (by simp [hm])
    have hne : c ≠ e.1 := fun he => h (by simp [he])
    rw [ih _ hrest, uniqueFold_detailAt _ _ _ _ _ _ (Or.inl hne)]

/-- Membership of a parsed date-time in a configured time range. -/
def insideRange (t : Option ℤ) (r : TimeRange) : Bool :=
  dgeq t r.start && dleq t r.stop

/-- **C10**: when the `uniqueContactsByTimeRange` rule runs, a surviving
contact whose parsed date-time lies outside every configured named time
range — or with an empty contacted callsign or missing date/time — is
rejected (it appears in no output list) and its detail is tagged
`invalidValidationRule = uniqueContactsByTimeRange` with `givenScore = 0`
and `scoreRule = null`.  (In fact the stage's validator reads the
date/time fields through the raw-record accessor, which is empty on a
`ValidContact`, so every contact is rejected; the well-formedness
hypotheses locate the contact's detail slot.) -/
theorem c10_unique_time_range_rejection
    (m₁ m₂ : List (Callsign × List ValidContact)) (owner : Callsign)
    (cs₁ cs₂ : List ValidContact) (contact : ValidContact)
    (timeRanges : List (String × TimeRange)) (st : ValidatorState) (len : ℕ)
    (hcond : (∀ r ∈ timeRanges,
        insideRange (parseDateTime contact.date contact.time) r.2 = false) ∨
      contact.contactedCallsign = "" ∨ contact.date = "" ∨ contact.time = "")
    (hshape : detailShape st.scoringDetails owner = some len)
    (hidx : contact.scoringDetailsIndex < len)
    (hlater : owner ∉ m₂.map Prod.fst)
    (hafter : contact.scoringDetailsIndex ∉ cs₂.map (·.scoringDetailsIndex)) :
    (∀ k l, mGet (applyUniqueContactsByTimeRangeValidation
        (m₁ ++ (owner, cs₁ ++ contact :: cs₂) :: m₂) timeRanges st).1 k =
        some l → contact ∉ l) ∧
    (∃ d, detailAt (applyUniqueContactsByTimeRangeValidation
        (m₁ ++ (owner, cs₁ ++ contact :: cs₂) :: m₂) timeRanges st).2.scoringDetails
        owner contact.scoringDetailsIndex = some d ∧
      d.invalidValidationRule = some ValidationRule.uniqueContactsByTimeRange ∧
      d.givenScore = some 0 ∧ d.scoreRule = none) := by
  constructor
  · intro k l hl
    have := uniqueOuterFold_values_empty timeRanges
      (m₁ ++ (owner, cs₁ ++ contact :: cs₂) :: m₂) ([], st)
      (by intro k v hv; exact absurd hv (by simp [mGet])) k l hl
    rw [this]
    simp
  · unfold applyUniqueContactsByTimeRangeValidation
    rw [List.foldl_append, List.foldl_cons]
    rw [uniqueOuterFold_detailAt _ _ _ _ _ hlater]
    set acc1 := List.foldl (fun acc e =>
      e.2.foldl (uniqueContactStep timeRanges e.1) (mSet acc.1 e.1 [], acc.2))
      (([] : List (Callsign × List ValidContact)), st) m₁ with hacc1
    simp only
    rw [List.foldl_append, List.foldl_cons]
    rw [uniqueFold_detailAt _ _ _ _ _ _ (Or.inr hafter)]
    set p1 := List.foldl (uniqueContactStep timeRanges owner)
      (mSet acc1.1 owner [], acc1.2) cs₁ with hp1
    have hshp1 : detailShape p1.2.scoringDetails owner = some len := by
      rw [hp1, uniqueFold_shape]
      simp only
      rw [hacc1, uniqueOuterFold_shape]
      exact hshape
    obtain ⟨d0, hd0⟩ := detailAt_isSome_of_shape _ _ _ _ hshp1 hidx
    rw [uniqueContactStep_eq]
    simp only
    exact ⟨_, updateDetail_detailAt_eq _ _ _ _ _ hd0, rfl, rfl, rfl⟩

def c10State : ValidatorState :=
  { scoringDetails := [("A", { contacts := [blankDetail] })] }

/-- Witness for `c10_unique_time_range_rejection`: with no configured
time ranges, `"A"`'s contact with `"X"` is outside every range, and the
stage rejects and tags it. -/
theorem c10_unique_time_range_rejection_witness :
    ((∀ r ∈ ([] : List (String × TimeRange)),
        insideRange (parseDateTime contactToX.date contactToX.time) r.2 = false) ∨
      contactToX.contactedCallsign = "" ∨ contactToX.date = "" ∨
      contactToX.time = "") ∧
    ((∀ k l, mGet (applyUniqueContactsByTimeRangeValidation
        ([] ++ ("A", [] ++ contactToX :: []) :: []) [] c10State).1 k =
        some l → contactToX ∉ l) ∧
    (∃ d, detailAt (applyUniqueContactsByTimeRangeValidation
        ([] ++ ("A", [] ++ contactToX :: []) :: []) [] c10State).2.scoringDetails
        "A" contactToX.scoringDetailsIndex = some d ∧
      d.invalidValidationRule = some ValidationRule.uniqueContactsByTimeRange ∧
      d.givenScore = some 0 ∧ d.scoreRule = none)) :=
  ⟨Or.inl (by intro r hr; exact absurd hr (by simp)),
    c10_unique_time_range_rejection [] [] "A" [] [] contactToX [] c10State 1
      (Or.inl (by intro r hr; exact absurd hr (by simp))) (by decide) (by decide)
      (by decide) (by decide)⟩

/-! ## Claim C1: the reciprocal (`default`) validator -/

/-- Triple lookup in the contact index (empty list at any missing level). -/
def lookup3 (index : ContactIndex) (a b : Callsign) (k : String) :
    List ValidContact :=
  (mGet ((mGet ((mGet index a).getD []) b).getD []) k).getD []

theorem indexInsert_lookup3 (index : ContactIndex) (c : ValidContact)
    (a b : Callsign) (k : String) :
    lookup3 (indexInsert index c) a b k =
      if c.callsign = a ∧ c.contactedCallsign = b ∧
          bandModeKey c.band c.mode = k then
        lookup3 index a b k ++ [c]
      else lookup3 index a b k := by
  by_cases h1 : c.callsign = a
  · subst h1
    by_cases h2 : c.contactedCallsign = b
    · subst h2
      by_cases h3 : bandModeKey c.band c.mode = k
      · subst h3
        rw [if_pos ⟨rfl, rfl, rfl⟩]
        unfold indexInsert lookup3
        rw [mGet_mSet, if_pos rfl]
        simp only [Option.getD_some]
        rw [mGet_mSet, if_pos rfl]
        simp only [Option.getD_some]
        rw [mGet_mSet, if_pos rfl]
        simp
      · rw [if_neg (by rintro ⟨_, _, hk⟩; exact h3 hk)]
        unfold indexInsert lookup3
        rw [mGet_mSet, if_pos rfl]
        simp only [Option.getD_some]
        rw [mGet_mSet, if_pos rfl]
        simp only [Option.getD_some]
        rw [mGet_mSet, if_neg h3]
    · rw [if_neg (by rintro ⟨_, hb, _⟩; exact h2 hb)]
      unfold indexInsert lookup3
      rw [mGet_mSet, if_pos rfl]
      simp only [Option.getD_some]
      rw [mGet_mSet, if_neg h2]
  · rw [if_neg (by rintro ⟨ha, _, _⟩; exact h1 ha)]
    unfold indexInsert lookup3
    rw [mGet_mSet, if_neg h1]

/-- The filter predicate identifying index bucket membership. -/
def inBucket (a b : Callsign) (k : String) (vc : ValidContact) : Bool :=
  vc.callsign = a && vc.contactedCallsign = b && bandModeKey vc.band vc.mode = k

theorem indexInsert_fold_lookup3 (contacts : List ValidContact)
    (index : ContactIndex) (a b : Callsign) (k : String) :
    lookup3 (contacts.foldl indexInsert index) a b k =
      lookup3 index a b k ++ contacts.filter (inBucket a b k) := by
  induction contacts generalizing index with
  | nil => simp
  | cons c rest ih =>
    simp only [List.foldl_cons, List.filter_cons]
    rw [ih, indexInsert_lookup3]
    by_cases h : c.callsign = a ∧ c.contactedCallsign = b ∧
        bandModeKey c.band c.mode = k
    · rw [if_pos h]
      have hb : inBucket a b k c = true := by
        unfold inBucket
        simp [h.1, h.2.1, h.2.2]
      rw [hb]
      simp
    · rw [if_neg h]
      have hb : inBucket a b k c = false := by
        unfold inBucket
        by_contra hc
        simp only [Bool.not_eq_false, Bool.and_eq_true, decide_eq_true_eq] at hc
        exact h ⟨hc.1.1, hc.1.2, hc.2⟩
      rw [hb]
      simp

theorem createContactIndex_lookup3 (m : List (Callsign × List ValidContact))
    (a b : Callsign) (k : String) :
    lookup3 (createContactIndex m) a b k =
      (m.flatMap (fun e => e.2)).filter (inBucket a b k) := by
  unfold createContactIndex
  have hgen : ∀ (l : List (Callsign × List ValidContact)) (index : ContactIndex),
      lookup3 (l.foldl (fun index e => e.2.foldl indexInsert index) index) a b k =
        lookup3 index a b k ++ (l.flatMap (fun e => e.2)).filter (inBucket a b k) := by
    intro l
    induction l with
    | nil => simp
    | cons e rest ih =>
      intro index
      simp only [List.foldl_cons, List.flatMap_cons, List.filter_append]
      rw [ih, indexInsert_fold_lookup3, List.append_assoc]
  rw [hgen]
  simp [lookup3, mGet]

theorem defaultValidator_eq_any (callsign : Callsign) (contact : ValidContact)
    (index : ContactIndex) (params : Option RuleParam) :
    defaultValidator callsign contact index params =
      (lookup3 index contact.contactedCallsign callsign
        (bandModeKey contact.band contact.mode)).any
        (defaultMatchConditions (parseDateTime contact.date contact.time)
          (if contact.freq ≠ "" then jsNumber contact.freq else none)
          contact.exchanges
          (orDefault (defaultValidatorParams params).1 2)
          (qdiv (orDefault (defaultValidatorParams params).2 2) 1000)) := by
  unfold defaultValidator lookup3
  cases h1 : mGet index contact.contactedCallsign with
  | none => simp [mGet]
  | some callsignIndex =>
    simp only [Option.getD_some]
    cases h2 : mGet callsignIndex callsign with
    | none => simp [mGet]
    | some callerIndex =>
      simp only [Option.getD_some]
      cases h3 : mGet callerIndex (bandModeKey contact.band contact.mode) with
      | none => simp [mGet]
      | some potentialMatches =>
        simp only [Option.getD_some]
        cases potentialMatches with
        | nil => simp
        | cons x xs => simp

theorem defaultValidator_exists (survivors : List (Callsign × List ValidContact))
    (owner : Callsign) (c : ValidContact) (params : Option RuleParam) :
    defaultValidator owner c (createContactIndex survivors) params = true ↔
      ∃ cand, (∃ e ∈ survivors, cand ∈ e.2) ∧
        cand.callsign = c.contactedCallsign ∧ cand.contactedCallsign = owner ∧
        bandModeKey cand.band cand.mode = bandModeKey c.band c.mode ∧
        defaultMatchConditions (parseDateTime c.date c.time)
          (if c.freq ≠ "" then jsNumber c.freq else none) c.exchanges
          (orDefault (defaultValidatorParams params).1 2)
          (qdiv (orDefault (defaultValidatorParams params).2 2) 1000) cand = true := by
  rw [defaultValidator_eq_any, List.any_eq_true, createContactIndex_lookup3]
  constructor
  · rintro ⟨cand, hmem, hcond⟩
    rw [List.mem_filter] at hmem
    obtain ⟨hflat, hbucket⟩ := hmem
    rw [List.mem_flatMap] at hflat
    unfold inBucket at hbucket
    simp only [Bool.and_eq_true, decide_eq_true_eq] at hbucket
    exact ⟨cand, hflat, hbucket.1.1, hbucket.1.2, hbucket.2, hcond⟩
  · rintro ⟨cand, hflat, ha, hb, hk, hcond⟩
    refine ⟨cand, ?_, hcond⟩
    rw [List.mem_filter]
    constructor
    · rw [List.mem_flatMap]
      exact hflat
    · unfold inBucket
      simp [ha, hb, hk]

theorem defaultProcessContact_fst (contestRules : ContestRules)
    (participantCallsigns : List Callsign) (contactIndex : ContactIndex)
    (blacklistedCallsigns : List Callsign) (params : Option RuleParam)
    (callsign : Callsign) (acc : List ValidContact × ValidatorState)
    (contact : ValidContact) :
    (defaultProcessContact contestRules participantCallsigns contactIndex
      blacklistedCallsigns params callsign acc contact).1 =
      acc.1 ++ (if defaultKeep contestRules participantCallsigns contactIndex
        blacklistedCallsigns params callsign contact then [contact] else []) := by
  unfold defaultProcessContact defaultKeep
  by_cases hbl : contact.contactedCallsign ∈ blacklistedCallsigns
  · simp [hbl]
  · rw [if_neg hbl, if_neg hbl]
    by_cases hmp : participantCallsigns.contains contact.contactedCallsign
    · simp only [hmp, Bool.not_true, if_neg]
      simp only [Bool.false_eq_true, if_false]
      by_cases hv : defaultValidator callsign contact contactIndex params = true
      · simp [hv]
      · simp only [Bool.not_eq_true] at hv
        simp [hv]
    · simp only [Bool.not_eq_true] at hmp
      simp only [hmp, Bool.not_false, if_pos]
      by_cases ham : contestRules.allowMissingParticipants <;> simp [ham]

theorem defaultContactFold_fst (contestRules : ContestRules)
    (participantCallsigns : List Callsign) (contactIndex : ContactIndex)
    (blacklistedCallsigns : List Callsign) (params : Option RuleParam)
    (callsign : Callsign) (contacts : List ValidContact)
    (p : List ValidContact × ValidatorState) :
    (contacts.foldl (defaultProcessContact contestRules participantCallsigns
      contactIndex blacklistedCallsigns params callsign) p).1 =
      p.1 ++ contacts.filter (defaultKeep contestRules participantCallsigns
        contactIndex blacklistedCallsigns params callsign) := by
  induction contacts generalizing p with
  | nil => simp
  | cons contact rest ih =>
    simp only [List.foldl_cons, List.filter_cons]
    rw [ih]
    rw [show (defaultProcessContact contestRules participantCallsigns contactIndex
      blacklistedCallsigns params callsign p contact) =
      ((defaultProcessContact contestRules participantCallsigns contactIndex
        blacklistedCallsigns params callsign p contact).1,
       (defaultProcessContact contestRules participantCallsigns contactIndex
        blacklistedCallsigns params callsign p contact).2) from rfl]
    rw [defaultProcessContact_fst]
    by_cases hk : defaultKeep contestRules participantCallsigns contactIndex
      blacklistedCallsigns params callsign contact = true
    · rw [hk]
      simp
    · simp only [Bool.not_eq_true] at hk
      rw [hk]
      simp

theorem defaultOuterFold_mGet_skip (contestRules : ContestRules)
    (participantCallsigns : List Callsign) (contactIndex : ContactIndex)
    (blacklistedCallsigns : List Callsign) (params : Option RuleParam)
    (l : List (Callsign × List ValidContact))
    (acc : List (Callsign × List ValidContact) × ValidatorState)
    (owner : Callsign) (h : owner ∉ l.map Prod.fst) :
    mGet (l.foldl (defaultParticipantStep contestRules participantCallsigns
      contactIndex blacklistedCallsigns params) acc).1 owner =
      mGet acc.1 owner := by
  induction l generalizing acc with
  | nil => rfl
  | cons e rest ih =>
    simp only [List.foldl_cons]
    have hrest : owner ∉ rest.map Prod.fst := fun hm => h (by simp [hm])
    have hne : e.1 ≠ owner := fun he => h (by simp [← he])
    rw [ih _ hrest]
    unfold defaultParticipantStep
    by_cases hbl : e.1 ∈ blacklistedCallsigns
    · rw [if_pos hbl]
    · rw [if_neg hbl]
      simp only
      rw [mGet_mSet, if_neg hne]

theorem applyDefaultValidation_mGet (m₁ m₂ : List (Callsign × List ValidContact))
    (owner : Callsign) (contacts : List ValidContact)
    (contestRules : ContestRules) (participantCallsigns : List Callsign)
    (contactIndex : ContactIndex) (blacklistedCallsigns : List Callsign)
    (params : Option RuleParam) (st : ValidatorState)
    (hnb : owner ∉ blacklistedCallsigns) (hlater : owner ∉ m₂.map Prod.fst) :
    mGet (applyDefaultValidation (m₁ ++ (owner, contacts) :: m₂) contestRules
      participantCallsigns contactIndex blacklistedCallsigns params st).1 owner =
      some (contacts.filter (defaultKeep contestRules participantCallsigns
        contactIndex blacklistedCallsigns params owner)) := by
  unfold applyDefaultValidation
  rw [List.foldl_append, List.foldl_cons]
  rw [defaultOuterFold_mGet_skip _ _ _ _ _ _ _ _ hlater]
  set acc1 := List.foldl (defaultParticipantStep contestRules participantCallsigns
    contactIndex blacklistedCallsigns params) ([], st) m₁ with hacc1
  unfold defaultParticipantStep
  rw [if_neg hnb]
  simp only
  rw [mGet_mSet, if_pos rfl]
  rw [show (List.foldl (defaultProcessContact contestRules participantCallsigns
      contactIndex blacklistedCallsigns params owner) ([], acc1.2) contacts) =
    ((List.foldl (defaultProcessContact contestRules participantCallsigns
      contactIndex blacklistedCallsigns params owner) ([], acc1.2) contacts).1,
     (List.foldl (defaultProcessContact contestRules participantCallsigns
      contactIndex blacklistedCallsigns params owner) ([], acc1.2) contacts).2)
    from rfl]
  rw [defaultContactFold_fst]
  simp

/-- **C1** (amended): for a stage-1 survivor of a non-blacklisted
participant whose contacted callsign submitted a log (and is not
blacklisted), the `default` validation keeps the contact iff the
contacted party's own log has, under the same band-mode key, a candidate
satisfying the time, frequency, RST and exchange conditions — where the
frequency condition is the code's: the difference scaled by 1000 must
not exceed `maximumFrequencyDiff` (i.e. the parameter is a thousandth of
the frequency field's unit), not the claimed same-unit comparison. -/
theorem c1_default_validation_membership
    (m₁ m₂ : List (Callsign × List ValidContact)) (owner : Callsign)
    (contacts : List ValidContact) (c : ValidContact)
    (contestRules : ContestRules)
    (participantCallsigns blacklistedCallsigns : List Callsign)
    (params : Option RuleParam) (st : ValidatorState)
    (hc : c ∈ contacts)
    (hnb : owner ∉ blacklistedCallsigns)
    (hcnb : c.contactedCallsign ∉ blacklistedCallsigns)
    (hsub : participantCallsigns.contains c.contactedCallsign = true)
    (hlater : owner ∉ m₂.map Prod.fst) :
    ∃ l, mGet (applyDefaultValidation (m₁ ++ (owner, contacts) :: m₂)
        contestRules participantCallsigns
        (createContactIndex (m₁ ++ (owner, contacts) :: m₂))
        blacklistedCallsigns params st).1 owner = some l ∧
      (c ∈ l ↔ ∃ cand, (∃ e ∈ m₁ ++ (owner, contacts) :: m₂, cand ∈ e.2) ∧
        cand.callsign = c.contactedCallsign ∧ cand.contactedCallsign = owner ∧
        bandModeKey cand.band cand.mode = bandModeKey c.band c.mode ∧
        defaultMatchConditions (parseDateTime c.date c.time)
          (if c.freq ≠ "" then jsNumber c.freq else none) c.exchanges
          (orDefault (defaultValidatorParams params).1 2)
          (qdiv (orDefault (defaultValidatorParams params).2 2) 1000) cand = true) := by
  refine ⟨_, applyDefaultValidation_mGet m₁ m₂ owner contacts contestRules
    participantCallsigns _ blacklistedCallsigns params st hnb hlater, ?_⟩
  rw [List.mem_filter]
  have hkeep : defaultKeep contestRules participantCallsigns
      (createContactIndex (m₁ ++ (owner, contacts) :: m₂)) blacklistedCallsigns
      params owner c =
      defaultValidator owner c
        (createContactIndex (m₁ ++ (owner, contacts) :: m₂)) params := by
    unfold defaultKeep
    rw [if_neg hcnb]
    rw [hsub]
    simp
  rw [hkeep]
  constructor
  · rintro ⟨_, hv⟩
    exact (defaultValidator_exists _ _ _ _).mp hv
  · intro h
    exact ⟨hc, (defaultValidator_exists _ _ _ _).mpr h⟩

/-- Following the claim's wording for the frequency clause of C1: the
difference between the two frequencies is compared directly against
`maximumFrequencyDiff` in the unit of the frequency field. -/
def claimedFreqMatch (freqNum : Option ℚ) (freq2 : String)
    (maximumFrequencyDiff : ℚ) : Bool :=
  match freqNum, jsNumber freq2 with
  | some f1, some f2 => |qsub f1 f2| ≤ maximumFrequencyDiff
  | _, _ => false

/-- The four match conditions as the claim states them: identical to
`defaultMatchConditions` except that the frequency tolerance is read in
the same unit as the frequency field. -/
def claimedMatchConditions (contactDateTime : Option ℤ) (freqNum : Option ℚ)
    (exch : Exchanges) (maximumTimeDiff maximumFrequencyDiff : ℚ)
    (validContact : ValidContact) : Bool :=
  let validContactDateTime := parseDateTime validContact.date validContact.time
  let timeDiff := getTimeDiffInMinutes contactDateTime validContactDateTime
  let other := validContact.exchanges
  let timeMatch := jleq timeDiff maximumTimeDiff
  let freqMatch := claimedFreqMatch freqNum validContact.freq maximumFrequencyDiff
  let rstMatch :=
    (exch.rstSent = "" && exch.rstRcvd = "") ||
      (exch.rstSent = other.rstRcvd && exch.rstRcvd = other.rstSent)
  let hasExchangeInfo :=
    exch.stxString ≠ "" || exch.srxString ≠ "" ||
      other.stxString ≠ "" || other.srxString ≠ ""
  let exchangeMatch :=
    !hasExchangeInfo ||
      (exch.stxString = other.srxString && exch.srxString = other.stxString)
  timeMatch && freqMatch && rstMatch && exchangeMatch

def c1ContactA : ValidContact :=
  { callsign := "A", contactedCallsign := "B", date := "20250401",
    time := "120000", freq := "7.000", band := "40m", mode := "SSB",
    exchanges := ⟨"", "", "", ""⟩, score := 0, scoringDetailsIndex := 0 }

def c1ContactB : ValidContact :=
  { callsign := "B", contactedCallsign := "A", date := "20250401",
    time := "120000", freq := "7.500", band := "40m", mode := "SSB",
    exchanges := ⟨"", "", "", ""⟩, score := 0, scoringDetailsIndex := 0 }

def c1Survivors : List (Callsign × List ValidContact) :=
  [("A", [c1ContactA]), ("B", [c1ContactB])]

/-- **C1** (counterexample): `"B"`'s log has a candidate meeting all four
conditions as the claim words them (default tolerances: time diff 0 ≤ 2,
frequency diff 0.5 ≤ 2 in the unit of the frequency field, RST empty,
exchanges empty), yet the `default` validation rejects `"A"`'s contact:
the code compares the frequency difference scaled by 1000 (500 > 2). -/
theorem c1_counterexample :
    (∃ cand ∈ [c1ContactB],
      cand.callsign = c1ContactA.contactedCallsign ∧
      cand.contactedCallsign = "A" ∧
      bandModeKey cand.band cand.mode = bandModeKey c1ContactA.band c1ContactA.mode ∧
      claimedMatchConditions (parseDateTime c1ContactA.date c1ContactA.time)
        (if c1ContactA.freq ≠ "" then jsNumber c1ContactA.freq else none)
        c1ContactA.exchanges 2 2 cand = true) ∧
    defaultValidator "A" c1ContactA (createContactIndex c1Survivors) none = false ∧
    mGet (applyDefaultValidation c1Survivors plainRules ["A", "B"]
      (createContactIndex c1Survivors) [] none {}).1 "A" = some [] := by
  refine ⟨⟨c1ContactB, by decide, by decide, by decide, by decide, by decide⟩,
    by decide, by decide⟩

def c1ContactBGood : ValidContact :=
  { callsign := "B", contactedCallsign := "A", date := "20250401",
    time := "120000", freq := "7.001", band := "40m", mode := "SSB",
    exchanges := ⟨"", "", "", ""⟩, score := 0, scoringDetailsIndex := 0 }

/-- Witness for `c1_default_validation_membership` at a concrete input
(the candidate differs by 1 kHz, within the code's tolerance). -/
theorem c1_default_validation_membership_witness :
    c1ContactA ∈ [c1ContactA] ∧
    (∃ l, mGet (applyDefaultValidation
        ([] ++ ("A", [c1ContactA]) :: [("B", [c1ContactBGood])])
        plainRules ["A", "B"]
        (createContactIndex ([] ++ ("A", [c1ContactA]) :: [("B", [c1ContactBGood])]))
        [] none {}).1 "A" = some l ∧
      (c1ContactA ∈ l ↔ ∃ cand,
        (∃ e ∈ [] ++ ("A", [c1ContactA]) :: [("B", [c1ContactBGood])], cand ∈ e.2) ∧
        cand.callsign = c1ContactA.contactedCallsign ∧
        cand.contactedCallsign = "A" ∧
        bandModeKey cand.band cand.mode = bandModeKey c1ContactA.band c1ContactA.mode ∧
        defaultMatchConditions (parseDateTime c1ContactA.date c1ContactA.time)
          (if c1ContactA.freq ≠ "" then jsNumber c1ContactA.freq else none)
          c1ContactA.exchanges
          (orDefault (defaultValidatorParams none).1 2)
          (qdiv (orDefault (defaultValidatorParams none).2 2) 1000) cand = true)) :=
  ⟨by decide,
    c1_default_validation_membership [] [("B", [c1ContactBGood])] "A" [c1ContactA]
      c1ContactA plainRules ["A", "B"] [] none {} (by decide) (by decide)
      (by decide) (by decide) (by decide)⟩

/-! ## Tiebreaker lemmas (permutation and ordering) -/

theorem jsInsert_perm {α : Type} (cmp : α → α → ℚ) (x : α) (l : List α) :
    (jsInsert cmp x l).Perm (x :: l) := by
  induction l with
  | nil => simp [jsInsert]
  | cons y ys ih =>
    unfold jsInsert
    by_cases h : cmp x y ≤ 0
    · rw [if_pos h]
    · rw [if_neg h]
      exact (ih.cons y).trans (List.Perm.swap x y ys)

theorem jsSortBy_perm {α : Type} (cmp : α → α → ℚ) (l : List α) :
    (jsSortBy cmp l).Perm l := by
  induction l with
  | nil => simp [jsSortBy]
  | cons x xs ih =>
    unfold jsSortBy
    exact (jsInsert_perm cmp x (jsSortBy cmp xs)).trans (ih.cons x)

theorem perm_flatMap {α β : Type} (f : α → List β) {l₁ l₂ : List α}
    (h : l₁.Perm l₂) : (l₁.flatMap f).Perm (l₂.flatMap f) := by
  induction h with
  | nil => rfl
  | cons a h ih => simpa [List.flatMap_cons] using ih.append_left (f a)
  | swap a b l =>
    simp only [List.flatMap_cons]
    rw [← List.append_assoc, ← List.append_assoc]
    exact List.perm_append_comm.append_right _
  | trans h₁ h₂ ih₁ ih₂ => exact ih₁.trans ih₂

theorem flatMap_congr_perm {α β : Type} (f g : α → List β) (l : List α)
    (h : ∀ a, (f a).Perm (g a)) : (l.flatMap f).Perm (l.flatMap g) := by
  induction l with
  | nil => rfl
  | cons x xs ih => simpa [List.flatMap_cons] using (h x).append ih

def flattenG (m : List (ℚ × List Callsign)) : List (Callsign × ℚ) :=
  m.flatMap (fun g => g.2.map (fun c => (c, g.1)))

theorem flattenG_qSet (acc : List (ℚ × List Callsign)) (k : ℚ) (c : Callsign) :
    (flattenG (qSet acc k ((qGet acc k).getD [] ++ [c]))).Perm
      (flattenG acc ++ [(c, k)]) := by
  induction acc with
  | nil => simp [qSet, qGet, flattenG]
  | cons e rest ih =>
    obtain ⟨k', v'⟩ := e
    by_cases h : k' = k
    · subst h
      have hq : qGet ((k', v') :: rest) k' = some v' := by simp [qGet]
      have hs : qSet ((k', v') :: rest) k' (v' ++ [c]) =
          (k', v' ++ [c]) :: rest := by simp [qSet]
      rw [hq, Option.getD_some, hs]
      simp only [flattenG, List.flatMap_cons, List.map_append, List.map_cons,
        List.map_nil, List.append_assoc]
      exact List.perm_append_comm.append_left _
    · have hq : qGet ((k', v') :: rest) k = qGet rest k := by
        simp [qGet, h]
      have hs : qSet ((k', v') :: rest) k ((qGet rest k).getD [] ++ [c]) =
          (k', v') :: qSet rest k ((qGet rest k).getD [] ++ [c]) := by
        simp [qSet, h]
      rw [hq, hs]
      simp only [flattenG, List.flatMap_cons, List.append_assoc]
      exact (ih).append_left _

theorem groupFold_flatten (l : List (Callsign × ℚ))
    (acc : List (ℚ × List Callsign)) :
    (flattenG (l.foldl
      (fun acc r => qSet acc r.2 ((qGet acc r.2).getD [] ++ [r.1])) acc)).Perm
      (flattenG acc ++ l) := by
  induction l generalizing acc with
  | nil => simp
  | cons r rs ih =>
    simp only [List.foldl_cons]
    refine (ih (qSet acc r.2 ((qGet acc r.2).getD [] ++ [r.1]))).trans ?_
    have h1 := (flattenG_qSet acc r.2 r.1).append_right rs
    refine h1.trans ?_
    simp

theorem groupByScore_flatten (results : List (Callsign × ℚ)) :
    (flattenG (groupByScore results)).Perm results := by
  simpa [flattenG] using groupFold_flatten results []

theorem applyTiebreakers_perm (results : List (Callsign × ℚ))
    (scoredContacts : List (Callsign × List ValidContact))
    (rules : ContestRules) :
    (applyTiebreakers results scoredContacts rules).Perm results := by
  unfold applyTiebreakers
  by_cases h : rules.rules.tiebreaker.isEmpty = true
  · rw [if_pos h]
  · rw [if_neg h]
    refine List.Perm.trans ?_ (groupByScore_flatten results)
    refine List.Perm.trans
      (perm_flatMap _ (jsSortBy_perm (fun g1 g2 => qsub g2.1 g1.1)
        (groupByScore results))) ?_
    refine flatMap_congr_perm _ _ _ ?_
    intro g
    by_cases hg : g.2.length = 1
    · rw [if_pos hg]
    · rw [if_neg hg]
      exact (jsSortBy_perm _ g.2).map _

theorem pairwise_of_mem {α : Type} (r : α → α → Prop) (l : List α)
    (h : ∀ a ∈ l, ∀ b ∈ l, r a b) : l.Pairwise r := by
  induction l with
  | nil => exact List.Pairwise.nil
  | cons x xs ih =>
    refine List.pairwise_cons.mpr ⟨fun y hy => h x (by simp) y (by simp [hy]), ?_⟩
    exact ih (fun a ha b hb => h a (by simp [ha]) b (by simp [hb]))

theorem jsInsert_pairwise {α : Type} (cmp : α → α → ℚ) (r : α → α → Prop)
    (hle : ∀ x y, cmp x y ≤ 0 → r x y) (htot : ∀ x y, ¬cmp x y ≤ 0 → r y x)
    (htrans : ∀ x y z, r x y → r y z → r x z)
    (x : α) (l : List α) (hl : l.Pairwise r) :
    (jsInsert cmp x l).Pairwise r := by
  induction l with
  | nil => simp [jsInsert]
  | cons y ys ih =>
    obtain ⟨hy, hys⟩ := List.pairwise_cons.mp hl
    unfold jsInsert
    by_cases h : cmp x y ≤ 0
    · rw [if_pos h]
      refine List.pairwise_cons.mpr ⟨?_, hl⟩
      intro z hz
      rcases List.mem_cons.mp hz with hz | hz
      · rw [hz]
        exact hle x y h
      · exact htrans x y z (hle x y h) (hy z hz)
    · rw [if_neg h]
      refine List.pairwise_cons.mpr ⟨?_, ih hys⟩
      intro z hz
      rcases List.mem_cons.mp ((jsInsert_perm cmp x ys).mem_iff.mp hz) with hz | hz
      · rw [hz]
        exact htot x y h
      · exact hy z hz

theorem jsSortBy_pairwise {α : Type} (cmp : α → α → ℚ) (r : α → α → Prop)
    (hle : ∀ x y, cmp x y ≤ 0 → r x y) (htot : ∀ x y, ¬cmp x y ≤ 0 → r y x)
    (htrans : ∀ x y z, r x y → r y z → r x z) (l : List α) :
    (jsSortBy cmp l).Pairwise r := by
  induction l with
  | nil => simp [jsSortBy]
  | cons x xs ih =>
    unfold jsSortBy
    exact jsInsert_pairwise cmp r hle htot htrans x (jsSortBy cmp xs) ih

theorem flatMap_pairwise {α β : Type} (f : α → List β) (r : α → α → Prop)
    (s : β → β → Prop) (l : List α) (hl : l.Pairwise r)
    (hin : ∀ a, (f a).Pairwise s)
    (hcross : ∀ a b, r a b → ∀ x ∈ f a, ∀ y ∈ f b, s x y) :
    (l.flatMap f).Pairwise s := by
  induction l with
  | nil => simp
  | cons a as ih =>
    obtain ⟨ha, has⟩ := List.pairwise_cons.mp hl
    simp only [List.flatMap_cons]
    rw [List.pairwise_append]
    refine ⟨hin a, ih has, ?_⟩
    intro x hx y hy
    rcases List.mem_flatMap.mp hy with ⟨b, hb, hyb⟩
    exact hcross a b (ha b hb) x hx y hyb

theorem mem_tbGroup_snd (tiebreaker : List TieBreakerRule)
    (scoredContacts : List (Callsign × List ValidContact))
    (g : ℚ × List Callsign) (p : Callsign × ℚ)
    (hp : p ∈ (if g.2.length = 1 then g.2.map (fun c => (c, g.1))
      else (jsSortBy (tiebreakerChainCompare tiebreaker scoredContacts) g.2).map
        (fun c => (c, g.1)))) : p.2 = g.1 := by
  by_cases h : g.2.length = 1
  · rw [if_pos h] at hp
    rcases List.mem_map.mp hp with ⟨c, _, hc⟩
    rw [← hc]
  · rw [if_neg h] at hp
    rcases List.mem_map.mp hp with ⟨c, _, hc⟩
    rw [← hc]

theorem applyTiebreakers_pairwise (results : List (Callsign × ℚ))
    (scoredContacts : List (Callsign × List ValidContact))
    (rules : ContestRules) (htb : rules.rules.tiebreaker.isEmpty = false) :
    (applyTiebreakers results scoredContacts rules).Pairwise
      (fun p q => q.2 ≤ p.2) := by
  unfold applyTiebreakers
  rw [if_neg (by simp [htb])]
  refine flatMap_pairwise _ (fun g1 g2 => g2.1 ≤ g1.1) _ _ ?_ ?_ ?_
  · refine jsSortBy_pairwise _ _ ?_ ?_ ?_ _
    · intro x y h
      exact (qsub_nonpos y.1 x.1).mp h
    · intro x y h
      exact le_of_not_le (fun hxy => h ((qsub_nonpos y.1 x.1).mpr hxy))
    · intro x y z h1 h2
      exact le_trans h2 h1
  · intro g
    refine pairwise_of_mem _ _ ?_
    intro a ha b hb
    have h1 := mem_tbGroup_snd rules.rules.tiebreaker scoredContacts g a ha
    have h2 := mem_tbGroup_snd rules.rules.tiebreaker scoredContacts g b hb
    rw [h1, h2]
  · intro g1 g2 hg x hx y hy
    have h1 := mem_tbGroup_snd rules.rules.tiebreaker scoredContacts g1 x hx
    have h2 := mem_tbGroup_snd rules.rules.tiebreaker scoredContacts g2 y hy
    rw [h1, h2]
    exact hg

def c7Rules : ContestRules :=
  { rules := { validation := [], scoring := [], bonus := [],
               tiebreaker := [TieBreakerRule.default] } }

/-- **C7** (counterexample): with the `default` tiebreaker configured,
`"A"` and `"B"` tie at score 1 and compare equal (chain value 0 in both
orders), yet swapping the two entries in the input swaps them in the
output instead of leaving it unchanged: the sort is stable, so tied
entries follow input order. -/
theorem c7_counterexample :
    tiebreakerChainCompare c7Rules.rules.tiebreaker [] "A" "B" = 0 ∧
    tiebreakerChainCompare c7Rules.rules.tiebreaker [] "B" "A" = 0 ∧
    applyTiebreakers [("A", 1), ("B", 1)] [] c7Rules = [("A", 1), ("B", 1)] ∧
    applyTiebreakers [("B", 1), ("A", 1)] [] c7Rules = [("B", 1), ("A", 1)] ∧
    applyTiebreakers [("B", 1), ("A", 1)] [] c7Rules ≠
      applyTiebreakers [("A", 1), ("B", 1)] [] c7Rules := by
  refine ⟨by decide, by decide, by decide, by decide, by decide⟩

/-- **C7** (amended): with at least one tiebreaker rule configured,
`applyTiebreakers` returns a permutation of its input ordered by score
descending; but the per-group sort is stable with respect to the input
order, so swapping two entries that compare equal under every configured
tiebreaker swaps them in the output rather than leaving it unchanged. -/
theorem c7_tiebreaker_permutation_and_order (results : List (Callsign × ℚ))
    (scoredContacts : List (Callsign × List ValidContact))
    (rules : ContestRules) (htb : rules.rules.tiebreaker.isEmpty = false) :
    (applyTiebreakers results scoredContacts rules).Perm results ∧
    (applyTiebreakers results scoredContacts rules).Pairwise
      (fun p q => q.2 ≤ p.2) :=
  ⟨applyTiebreakers_perm results scoredContacts rules,
   applyTiebreakers_pairwise results scoredContacts rules htb⟩

/-- Witness for `c7_tiebreaker_permutation_and_order` at a concrete
input (two distinct scores, out of order). -/
theorem c7_tiebreaker_permutation_and_order_witness :
    c7Rules.rules.tiebreaker.isEmpty = false ∧
    ((applyTiebreakers [("A", 1), ("B", 2)] [] c7Rules).Perm
        [("A", 1), ("B", 2)] ∧
      (applyTiebreakers [("A", 1), ("B", 2)] [] c7Rules).Pairwise
        (fun p q => q.2 ≤ p.2)) :=
  ⟨by decide,
   c7_tiebreaker_permutation_and_order [("A", 1), ("B", 2)] [] c7Rules (by decide)⟩

/-! ## Key and value lemmas for the validation stages -/

theorem mem_mSet {β : Type} (m : List (String × β)) (k : String) (v : β)
    (p : String × β) (h : p ∈ mSet m k v) : p ∈ m ∨ p = (k, v) := by
  induction m with
  | nil =>
    simp [mSet] at h
    exact Or.inr h
  | cons e rest ih =>
    obtain ⟨ek, ev⟩ := e
    by_cases he : ek = k
    · subst he
      rw [show mSet ((ek, ev) :: rest) ek v = (ek, v) :: rest by simp [mSet]] at h
      rcases List.mem_cons.mp h with h | h
      · exact Or.inr h
      · exact Or.inl (List.mem_cons_of_mem _ h)
    · rw [show mSet ((ek, ev) :: rest) k v = (ek, ev) :: mSet rest k v by
        simp [mSet, he]] at h
      rcases List.mem_cons.mp h with h | h
      · exact Or.inl (List.mem_cons.mpr (Or.inl h))
      · rcases ih h with h | h
        · exact Or.inl (List.mem_cons_of_mem _ h)
        · exact Or.inr h

theorem mem_keys_mSet {β : Type} (m : List (String × β)) (k c : String) (v : β) :
    c ∈ (mSet m k v).map Prod.fst ↔ c ∈ m.map Prod.fst ∨ c = k := by
  rw [keys_mSet]
  by_cases h : (mGet m k).isSome
  · rw [if_pos h]
    constructor
    · exact Or.inl
    · rintro (hc | rfl)
      · exact hc
      · exact (mGet_isSome_iff m c).mp h
  · rw [if_neg h]
    simp

theorem mem_keys_iff {β : Type} (m : List (String × β)) (c : String) :
    c ∈ m.map Prod.fst ↔ ∃ v, (c, v) ∈ m := by
  rw [List.mem_map]
  constructor
  · rintro ⟨⟨a, b⟩, hm, rfl⟩
    exact ⟨b, hm⟩
  · rintro ⟨v, hv⟩
    exact ⟨(c, v), hv, rfl⟩

theorem applyInitialValidationGo_keys (rx : String → String → Bool)
    (rulesContext : RulesContext)
    (validationRules : List (ValidationRule × Option RuleParam))
    (context : ValidationContext) (bl : List Callsign)
    (subs : List (Callsign × List Contact))
    (acc : List (Callsign × List ValidContact)) (st : ValidatorState)
    (c : Callsign) :
    c ∈ (applyInitialValidationGo rx rulesContext validationRules context bl
        subs acc st).1.map Prod.fst ↔
      c ∈ acc.map Prod.fst ∨ (c ∈ subs.map Prod.fst ∧ c ∉ bl) := by
  induction subs generalizing acc st with
  | nil => simp [applyInitialValidationGo]
  | cons e rest ih =>
    obtain ⟨cs, cts⟩ := e
    by_cases h : cs ∈ bl
    · rw [show applyInitialValidationGo rx rulesContext validationRules context bl
          ((cs, cts) :: rest) acc st =
          applyInitialValidationGo rx rulesContext validationRules context bl rest acc
            { st with
                blacklistedCallsignsFound := sAdd st.blacklistedCallsignsFound cs
                blacklistedAppearanceCounts := bumpCount st.blacklistedAppearanceCounts cs }
          by simp [applyInitialValidationGo, h]]
      rw [ih]
      simp only [List.map_cons, List.mem_cons]
      constructor
      · rintro (hc | ⟨hr, hbx⟩)
        · exact Or.inl hc
        · exact Or.inr ⟨Or.inr hr, hbx⟩
      · rintro (hc | ⟨(rfl | hr), hbx⟩)
        · exact Or.inl hc
        · exact absurd h hbx
        · exact Or.inr ⟨hr, hbx⟩
    · rw [show applyInitialValidationGo rx rulesContext validationRules context bl
          ((cs, cts) :: rest) acc st =
          applyInitialValidationGo rx rulesContext validationRules context bl rest
            (mSet acc cs (initProcessParticipant rx rulesContext validationRules
              context bl cs cts st).1)
            (initProcessParticipant rx rulesContext validationRules context bl
              cs cts st).2
          by simp [applyInitialValidationGo, h]]
      rw [ih, mem_keys_mSet]
      simp only [List.map_cons, List.mem_cons]
      constructor
      · rintro ((hc | rfl) | ⟨hr, hbx⟩)
        · exact Or.inl hc
        · exact Or.inr ⟨Or.inl rfl, h⟩
        · exact Or.inr ⟨Or.inr hr, hbx⟩
      · rintro (hc | ⟨(rfl | hr), hbx⟩)
        · exact Or.inl (Or.inl hc)
        · exact Or.inl (Or.inr rfl)
        · exact Or.inr ⟨hr, hbx⟩

theorem applyInitialValidation_keys (rx : String → String → Bool)
    (rulesContext : RulesContext)
    (validationRules : List (ValidationRule × Option RuleParam))
    (context : ValidationContext) (bl : List Callsign)
    (subs : List (Callsign × List Contact)) (st : ValidatorState) (c : Callsign) :
    c ∈ (applyInitialValidation rx subs rulesContext validationRules context bl
        st).1.map Prod.fst ↔ c ∈ subs.map Prod.fst ∧ c ∉ bl := by
  unfold applyInitialValidation
  rw [applyInitialValidationGo_keys]
  simp

theorem defaultFold_keys (contestRules : ContestRules)
    (pcs : List Callsign) (index : ContactIndex) (bl : List Callsign)
    (params : Option RuleParam) (l : List (Callsign × List ValidContact))
    (p : List (Callsign × List ValidContact) × ValidatorState) (c : Callsign) :
    c ∈ (l.foldl (defaultParticipantStep contestRules pcs index bl params)
        p).1.map Prod.fst ↔
      c ∈ p.1.map Prod.fst ∨ (c ∈ l.map Prod.fst ∧ c ∉ bl) := by
  induction l generalizing p with
  | nil => simp
  | cons e rest ih =>
    simp only [List.foldl_cons]
    rw [ih]
    by_cases h : e.1 ∈ bl
    · have hstep : (defaultParticipantStep contestRules pcs index bl params p e).1 =
          p.1 := by
        simp [defaultParticipantStep, h]
      rw [hstep]
      simp only [List.map_cons, List.mem_cons]
      constructor
      · rintro (hc | ⟨hr, hbx⟩)
        · exact Or.inl hc
        · exact Or.inr ⟨Or.inr hr, hbx⟩
      · rintro (hc | ⟨(rfl | hr), hbx⟩)
        · exact Or.inl hc
        · exact absurd h hbx
        · exact Or.inr ⟨hr, hbx⟩
    · have hstep : (defaultParticipantStep contestRules pcs index bl params p e).1 =
          mSet p.1 e.1 (e.2.foldl (defaultProcessContact contestRules pcs index bl
            params e.1) ([], p.2)).1 := by
        simp [defaultParticipantStep, h]
      rw [hstep, mem_keys_mSet]
      simp only [List.map_cons, List.mem_cons]
      constructor
      · rintro ((hc | rfl) | ⟨hr, hbx⟩)
        · exact Or.inl hc
        · exact Or.inr ⟨Or.inl rfl, h⟩
        · exact Or.inr ⟨Or.inr hr, hbx⟩
      · rintro (hc | ⟨(rfl | hr), hbx⟩)
        · exact Or.inl (Or.inl hc)
        · exact Or.inl (Or.inr rfl)
        · exact Or.inr ⟨hr, hbx⟩

theorem applyDefaultValidation_keys (vcs : List (Callsign × List ValidContact))
    (contestRules : ContestRules) (pcs : List Callsign) (index : ContactIndex)
    (bl : List Callsign) (params : Option RuleParam) (st : ValidatorState)
    (c : Callsign) :
    c ∈ (applyDefaultValidation vcs contestRules pcs index bl params
        st).1.map Prod.fst ↔ c ∈ vcs.map Prod.fst ∧ c ∉ bl := by
  unfold applyDefaultValidation
  rw [defaultFold_keys]
  simp

theorem uniqueInner_keys (tr : List (String × TimeRange)) (cs : Callsign)
    (contacts : List ValidContact)
    (inner : List (Callsign × List ValidContact) × ValidatorState)
    (hcs : cs ∈ inner.1.map Prod.fst) :
    (contacts.foldl (uniqueContactStep tr cs) inner).1.map Prod.fst =
      inner.1.map Prod.fst := by
  induction contacts generalizing inner with
  | nil => simp
  | cons contact rest ih =>
    simp only [List.foldl_cons]
    by_cases h : uniqueContactsByTimeRangeValidator cs contact inner.1 tr = true
    · have hstep : uniqueContactStep tr cs inner contact =
          (mSet inner.1 cs ((mGet inner.1 cs).getD [] ++ [contact]), inner.2) := by
        simp [uniqueContactStep, h]
      have hsome : (mGet inner.1 cs).isSome = true := (mGet_isSome_iff _ _).mpr hcs
      have hkeys : (mSet inner.1 cs ((mGet inner.1 cs).getD [] ++ [contact])).map
          Prod.fst = inner.1.map Prod.fst := by
        rw [keys_mSet, if_pos hsome]
      rw [hstep, ih _ (by simpa [hkeys] using hcs)]
      exact hkeys
    · have hstep : (uniqueContactStep tr cs inner contact).1 = inner.1 := by
        simp [uniqueContactStep, h]
      have hstep2 : ((uniqueContactStep tr cs inner contact).1).map Prod.fst =
          inner.1.map Prod.fst := by rw [hstep]
      rw [ih _ (by simpa [hstep2] using hcs), hstep2]

theorem uniqueOuterFold_keys (tr : List (String × TimeRange))
    (l : List (Callsign × List ValidContact))
    (p : List (Callsign × List ValidContact) × ValidatorState) (c : Callsign) :
    c ∈ (l.foldl (fun acc e =>
        e.2.foldl (uniqueContactStep tr e.1) (mSet acc.1 e.1 [], acc.2))
        p).1.map Prod.fst ↔
      c ∈ p.1.map Prod.fst ∨ c ∈ l.map Prod.fst := by
  induction l generalizing p with
  | nil => simp
  | cons e rest ih =>
    simp only [List.foldl_cons]
    rw [ih]
    have hin : e.1 ∈ (mSet p.1 e.1 ([] : List ValidContact)).map Prod.fst := by
      rw [mem_keys_mSet]
      exact Or.inr rfl
    have hkeys := uniqueInner_keys tr e.1 e.2 (mSet p.1 e.1 [], p.2) hin
    rw [show (e.2.foldl (uniqueContactStep tr e.1) (mSet p.1 e.1 [], p.2)).1.map
        Prod.fst = (mSet p.1 e.1 ([] : List ValidContact)).map Prod.fst from hkeys]
    rw [mem_keys_mSet]
    simp only [List.map_cons, List.mem_cons]
    constructor
    · rintro ((hc | rfl) | hr)
      · exact Or.inl hc
      · exact Or.inr (Or.inl rfl)
      · exact Or.inr (Or.inr hr)
    · rintro (hc | (rfl | hr))
      · exact Or.inl (Or.inl hc)
      · exact Or.inl (Or.inr rfl)
      · exact Or.inr hr

theorem applyUniqueContactsByTimeRangeValidation_keys
    (vcs : List (Callsign × List ValidContact))
    (tr : List (String × TimeRange)) (st : ValidatorState) (c : Callsign) :
    c ∈ (applyUniqueContactsByTimeRangeValidation vcs tr st).1.map Prod.fst ↔
      c ∈ vcs.map Prod.fst := by
  unfold applyUniqueContactsByTimeRangeValidation
  rw [uniqueOuterFold_keys]
  simp

theorem minimumContactsValidator_mem
    (vcm : List (Callsign × List ValidContact)) (minAp : Option ℚ)
    (rulesContext : RulesContext)
    (sd : List (Callsign × ParticipantScoringDetail)) (mp : List Callsign)
    (counts : List (String × ℕ)) (p : Callsign × Option (List ValidContact)) :
    p ∈ (minimumContactsValidator vcm minAp rulesContext sd mp counts).1 ↔
      ((∃ l, (p.1, l) ∈ vcm ∧ p.2 = some l ∧
          geqCount (countOf counts p.1) minAp = true) ∨
        (rulesContext.contestRules.allowMissingParticipants = true ∧ p.1 ∈ mp ∧
          p.2 = none ∧ geqCount (countOf counts p.1) minAp = true ∧
          mHas vcm p.1 = false)) := by
  unfold minimumContactsValidator
  rw [List.mem_append]
  constructor
  · rintro (hk | hm)
    · rw [List.mem_filterMap] at hk
      obtain ⟨e, he, hse⟩ := hk
      by_cases hc : geqCount (countOf counts e.1) minAp = true
      · rw [if_pos hc] at hse
        obtain rfl := Option.some_inj.mp hse
        exact Or.inl ⟨e.2, by simpa using he, rfl, hc⟩
      · rw [if_neg hc] at hse
        exact Option.noConfusion hse
    · by_cases ha : rulesContext.contestRules.allowMissingParticipants = true
      · rw [if_pos ha] at hm
        rw [List.mem_filterMap] at hm
        obtain ⟨mc, hmc, hse⟩ := hm
        by_cases hc : (geqCount (countOf counts mc) minAp &&
            !(mHas vcm mc)) = true
        · rw [if_pos hc] at hse
          obtain rfl := Option.some_inj.mp hse
          rcases (Bool.and_eq_true _ _).mp hc with ⟨h1, h2⟩
          exact Or.inr ⟨ha, hmc, rfl, h1, by simpa using h2⟩
        · rw [if_neg hc] at hse
          exact Option.noConfusion hse
      · rw [if_neg ha] at hm
        exact absurd hm (List.not_mem_nil p)
  · rintro (⟨l, hl, hp2, hc⟩ | ⟨ha, hmp, hp2, hc, hh⟩)
    · refine Or.inl ?_
      rw [List.mem_filterMap]
      refine ⟨(p.1, l), hl, ?_⟩
      rw [if_pos hc]
      rw [show p = (p.1, p.2) from rfl, hp2]
    · refine Or.inr ?_
      rw [if_pos ha, List.mem_filterMap]
      refine ⟨p.1, hmp, ?_⟩
      rw [if_pos (by simp [hc, hh])]
      rw [show p = (p.1, p.2) from rfl, hp2]

theorem minContacts_char (vcm : List (Callsign × List ValidContact))
    (minAp : Option ℚ) (rulesContext : RulesContext)
    (sd : List (Callsign × ParticipantScoringDetail)) (mp : List Callsign)
    (counts : List (String × ℕ)) (Q : Callsign → Prop)
    (hkeys : ∀ c, c ∈ vcm.map Prod.fst ↔ Q c) (c : Callsign) :
    ((∃ l, (c, some l) ∈
        (minimumContactsValidator vcm minAp rulesContext sd mp counts).1) ↔
      (Q c ∧ geqCount (countOf counts c) minAp = true)) ∧
    ((c, none) ∈ (minimumContactsValidator vcm minAp rulesContext sd mp counts).1 ↔
      (rulesContext.contestRules.allowMissingParticipants = true ∧ c ∈ mp ∧
        geqCount (countOf counts c) minAp = true ∧ ¬Q c)) := by
  constructor
  · constructor
    · rintro ⟨l, hl⟩
      rcases (minimumContactsValidator_mem vcm minAp rulesContext sd mp counts
          (c, some l)).mp hl with ⟨l', hl', _, hc⟩ | ⟨_, _, hp2, _, _⟩
      · exact ⟨(hkeys c).mp ((mem_keys_iff vcm c).mpr ⟨l', hl'⟩), hc⟩
      · exact absurd hp2 (by simp)
    · rintro ⟨hq, hc⟩
      obtain ⟨v, hv⟩ := (mem_keys_iff vcm c).mp ((hkeys c).mpr hq)
      exact ⟨v, (minimumContactsValidator_mem vcm minAp rulesContext sd mp counts
        (c, some v)).mpr (Or.inl ⟨v, hv, rfl, hc⟩)⟩
  · constructor
    · intro h
      rcases (minimumContactsValidator_mem vcm minAp rulesContext sd mp counts
          (c, none)).mp h with ⟨l', _, hp2, _⟩ | ⟨ha, hmp, _, hc, hh⟩
      · exact absurd hp2 (by simp)
      · refine ⟨ha, hmp, hc, fun hq => ?_⟩
        have hk := (mHas_iff vcm c).mpr ((hkeys c).mpr hq)
        rw [hh] at hk
        exact Bool.noConfusion hk
    · rintro ⟨ha, hmp, hc, hq⟩
      refine (minimumContactsValidator_mem vcm minAp rulesContext sd mp counts
        (c, none)).mpr (Or.inr ⟨ha, hmp, rfl, hc, ?_⟩)
      cases hhh : mHas vcm c with
      | false => rfl
      | true => exact absurd ((hkeys c).mp ((mHas_iff vcm c).mp hhh)) hq

/-- **C2**: with a validation-level `minimumContacts` rule of numeric
threshold `N` configured, the validated-contacts map contains a real
entry (value `some …`) for a callsign iff it is a submitting
non-blacklisted participant whose appearance count passes the threshold,
and a placeholder entry (value `none`) for a callsign iff
`allowMissingParticipants` is set, the callsign was collected as a
missing participant, its appearance count passes the threshold and it is
not a submitting non-blacklisted participant.  In particular a surviving
participant below the threshold is dropped and placeholders exist only
under the flag. -/
theorem c2_validation_minimum_contacts_map (rx : String → String → Bool)
    (submissions : List (Callsign × List Contact)) (rulesContext : RulesContext)
    (r0 : ValidationRule) (N : ℚ)
    (hmc : extractRule rulesContext.contestRules.rules.validation
      ValidationRule.minimumContacts = some (r0, some (RuleParam.num N)))
    (c : Callsign) :
    ((∃ l, (c, some l) ∈
        (validateContacts rx submissions rulesContext).validContacts) ↔
      ((c ∈ submissions.map Prod.fst ∧
          c ∉ rulesContext.contestRules.blacklist) ∧
        geqCount (countOf
          (validateContacts rx submissions rulesContext).appearanceCounts c)
          (some N) = true)) ∧
    ((c, none) ∈ (validateContacts rx submissions rulesContext).validContacts ↔
      (rulesContext.contestRules.allowMissingParticipants = true ∧
        c ∈ (validateContacts rx submissions rulesContext).missingParticipants ∧
        geqCount (countOf
          (validateContacts rx submissions rulesContext).appearanceCounts c)
          (some N) = true ∧
        ¬(c ∈ submissions.map Prod.fst ∧
          c ∉ rulesContext.contestRules.blacklist))) := by
  cases hdef : extractRule rulesContext.contestRules.rules.validation
      ValidationRule.default with
  | none =>
    cases huniq : extractRule rulesContext.contestRules.rules.validation
        ValidationRule.uniqueContactsByTimeRange with
    | none =>
      simp only [validateContacts, hmc, hdef, huniq, minimumContactsThreshold]
      refine minContacts_char _ _ _ _ _ _
        (fun c => c ∈ submissions.map Prod.fst ∧
          c ∉ rulesContext.contestRules.blacklist) ?_ c
      intro k
      rw [applyInitialValidation_keys]
    | some u =>
      simp only [validateContacts, hmc, hdef, huniq, minimumContactsThreshold]
      refine minContacts_char _ _ _ _ _ _
        (fun c => c ∈ submissions.map Prod.fst ∧
          c ∉ rulesContext.contestRules.blacklist) ?_ c
      intro k
      rw [applyUniqueContactsByTimeRangeValidation_keys,
        applyInitialValidation_keys]
  | some cfg =>
    cases huniq : extractRule rulesContext.contestRules.rules.validation
        ValidationRule.uniqueContactsByTimeRange with
    | none =>
      simp only [validateContacts, hmc, hdef, huniq, minimumContactsThreshold]
      refine minContacts_char _ _ _ _ _ _
        (fun c => c ∈ submissions.map Prod.fst ∧
          c ∉ rulesContext.contestRules.blacklist) ?_ c
      intro k
      rw [applyDefaultValidation_keys, applyInitialValidation_keys]
      constructor
      · rintro ⟨⟨h1, h2⟩, _⟩
        exact ⟨h1, h2⟩
      · rintro ⟨h1, h2⟩
        exact ⟨⟨h1, h2⟩, h2⟩
    | some u =>
      simp only [validateContacts, hmc, hdef, huniq, minimumContactsThreshold]
      refine minContacts_char _ _ _ _ _ _
        (fun c => c ∈ submissions.map Prod.fst ∧
          c ∉ rulesContext.contestRules.blacklist) ?_ c
      intro k
      rw [applyUniqueContactsByTimeRangeValidation_keys,
        applyDefaultValidation_keys, applyInitialValidation_keys]
      constructor
      · rintro ⟨⟨h1, h2⟩, _⟩
        exact ⟨h1, h2⟩
      · rintro ⟨h1, h2⟩
        exact ⟨⟨h1, h2⟩, h2⟩

def c2Rules : ContestRules :=
  { rules := { validation := [(ValidationRule.minimumContacts,
      some (RuleParam.num 1))], scoring := [], bonus := [], tiebreaker := [] } }

def c2Ctx : RulesContext :=
  { contestRules := c2Rules, timeRanges := [], bandRanges := [],
    contestStart := none, contestEnd := none }

def c2Subs : List (Callsign × List Contact) :=
  [("A", [{ call := "B" }]), ("B", [{ call := "A" }])]

/-- Witness for `c2_validation_minimum_contacts_map` at a concrete
configuration (threshold 1, reciprocal two-participant scenario). -/
theorem c2_validation_minimum_contacts_map_witness :
    extractRule c2Ctx.contestRules.rules.validation
      ValidationRule.minimumContacts =
      some (ValidationRule.minimumContacts, some (RuleParam.num 1)) ∧
    (((∃ l, ("A", some l) ∈
        (validateContacts rxAlways c2Subs c2Ctx).validContacts) ↔
      (("A" ∈ c2Subs.map Prod.fst ∧
          "A" ∉ c2Ctx.contestRules.blacklist) ∧
        geqCount (countOf
          (validateContacts rxAlways c2Subs c2Ctx).appearanceCounts "A")
          (some 1) = true)) ∧
    (("A", none) ∈ (validateContacts rxAlways c2Subs c2Ctx).validContacts ↔
      (c2Ctx.contestRules.allowMissingParticipants = true ∧
        "A" ∈ (validateContacts rxAlways c2Subs c2Ctx).missingParticipants ∧
        geqCount (countOf
          (validateContacts rxAlways c2Subs c2Ctx).appearanceCounts "A")
          (some 1) = true ∧
        ¬("A" ∈ c2Subs.map Prod.fst ∧
          "A" ∉ c2Ctx.contestRules.blacklist)))) :=
  ⟨by decide, c2_validation_minimum_contacts_map rxAlways c2Subs c2Ctx
    ValidationRule.minimumContacts 1 (by decide) "A"⟩

theorem initFold_vcs_good (rx : String → String → Bool)
    (rulesContext : RulesContext)
    (vr : List (ValidationRule × Option RuleParam)) (context : ValidationContext)
    (bl : List Callsign) (cs : Callsign) (contacts : List Contact)
    (a : InitAcc) (vc : ValidContact)
    (h : vc ∈ (contacts.foldl
      (initProcessContact rx rulesContext vr context bl cs) a).vcs) :
    vc ∈ a.vcs ∨ vc.contactedCallsign ∉ bl := by
  induction contacts generalizing a with
  | nil => exact Or.inl h
  | cons contact rest ih =>
    simp only [List.foldl_cons] at h
    rcases ih _ h with h' | h'
    · simp only [initProcessContact] at h'
      by_cases h1 : contact.call ∈ bl
      · rw [if_pos h1] at h'
        by_cases h2 : contact.call ∈ a.localBl
        · rw [if_pos h2] at h'
          exact Or.inl h'
        · rw [if_neg h2] at h'
          exact Or.inl h'
      · rw [if_neg h1] at h'
        cases hf : vr.find? (fun r =>
            !(validators rx r.1 cs contact context r.2)) with
        | some failing =>
          rw [hf] at h'
          exact Or.inl h'
        | none =>
          rw [hf] at h'
          rcases List.mem_append.mp h' with h'' | h''
          · exact Or.inl h''
          · refine Or.inr ?_
            have hv := List.mem_singleton.mp h''
            rw [hv]
            simpa [mkValidContact] using h1
    · exact Or.inr h'

theorem applyInitialValidationGo_good (rx : String → String → Bool)
    (rulesContext : RulesContext)
    (vr : List (ValidationRule × Option RuleParam)) (context : ValidationContext)
    (bl : List Callsign) (subs : List (Callsign × List Contact))
    (acc : List (Callsign × List ValidContact)) (st : ValidatorState)
    (hacc : ∀ p ∈ acc, ∀ vc ∈ p.2, vc.contactedCallsign ∉ bl) :
    ∀ p ∈ (applyInitialValidationGo rx rulesContext vr context bl
      subs acc st).1, ∀ vc ∈ p.2, vc.contactedCallsign ∉ bl := by
  induction subs generalizing acc st with
  | nil => simpa [applyInitialValidationGo] using hacc
  | cons e rest ih =>
    obtain ⟨cs, cts⟩ := e
    by_cases h : cs ∈ bl
    · rw [show applyInitialValidationGo rx rulesContext vr context bl
          ((cs, cts) :: rest) acc st =
          applyInitialValidationGo rx rulesContext vr context bl rest acc
            { st with
                blacklistedCallsignsFound := sAdd st.blacklistedCallsignsFound cs
                blacklistedAppearanceCounts :=
                  bumpCount st.blacklistedAppearanceCounts cs }
          by simp [applyInitialValidationGo, h]]
      exact ih _ _ hacc
    · rw [show applyInitialValidationGo rx rulesContext vr context bl
          ((cs, cts) :: rest) acc st =
          applyInitialValidationGo rx rulesContext vr context bl rest
            (mSet acc cs (initProcessParticipant rx rulesContext vr context bl
              cs cts st).1)
            (initProcessParticipant rx rulesContext vr context bl cs cts st).2
          by simp [applyInitialValidationGo, h]]
      refine ih _ _ ?_
      intro p hp vc hvc
      rcases mem_mSet _ _ _ _ hp with hp' | rfl
      · exact hacc p hp' vc hvc
      · have hvc' : vc ∈ (cts.foldl
            (initProcessContact rx rulesContext vr context bl cs)
            { vcs := [],
              details := ((mGet st.scoringDetails cs).getD {}).contacts,
              localBl := [], found := st.blacklistedCallsignsFound,
              blCounts := st.blacklistedAppearanceCounts }).vcs := hvc
        rcases initFold_vcs_good rx rulesContext vr context bl cs cts _ vc hvc'
          with h0 | h0
        · exact absurd h0 (List.not_mem_nil vc)
        · exact h0

theorem applyInitialValidation_good (rx : String → String → Bool)
    (rulesContext : RulesContext)
    (vr : List (ValidationRule × Option RuleParam)) (context : ValidationContext)
    (bl : List Callsign) (subs : List (Callsign × List Contact))
    (st : ValidatorState) :
    ∀ p ∈ (applyInitialValidation rx subs rulesContext vr context bl st).1,
      ∀ vc ∈ p.2, vc.contactedCallsign ∉ bl := by
  unfold applyInitialValidation
  exact applyInitialValidationGo_good rx rulesContext vr context bl subs [] st
    (by intro p hp; exact absurd hp (List.not_mem_nil p))

theorem applyInitialValidationGo_missing (rx : String → String → Bool)
    (rulesContext : RulesContext)
    (vr : List (ValidationRule × Option RuleParam)) (context : ValidationContext)
    (bl : List Callsign) (subs : List (Callsign × List Contact))
    (acc : List (Callsign × List ValidContact)) (st : ValidatorState) :
    (applyInitialValidationGo rx rulesContext vr context bl
      subs acc st).2.missingParticipants = st.missingParticipants := by
  induction subs generalizing acc st with
  | nil => simp [applyInitialValidationGo]
  | cons e rest ih =>
    obtain ⟨cs, cts⟩ := e
    by_cases h : cs ∈ bl
    · rw [show applyInitialValidationGo rx rulesContext vr context bl
          ((cs, cts) :: rest) acc st =
          applyInitialValidationGo rx rulesContext vr context bl rest acc
            { st with
                blacklistedCallsignsFound := sAdd st.blacklistedCallsignsFound cs
                blacklistedAppearanceCounts :=
                  bumpCount st.blacklistedAppearanceCounts cs }
          by simp [applyInitialValidationGo, h]]
      rw [ih]
    · rw [show applyInitialValidationGo rx rulesContext vr context bl
          ((cs, cts) :: rest) acc st =
          applyInitialValidationGo rx rulesContext vr context bl rest
            (mSet acc cs (initProcessParticipant rx rulesContext vr context bl
              cs cts st).1)
            (initProcessParticipant rx rulesContext vr context bl cs cts st).2
          by simp [applyInitialValidationGo, h]]
      rw [ih]
      simp [initProcessParticipant]

theorem defaultInnerFold_mem (contestRules : ContestRules)
    (pcs : List Callsign) (index : ContactIndex) (bl : List Callsign)
    (params : Option RuleParam) (cs : Callsign) (contacts : List ValidContact)
    (a : List ValidContact × ValidatorState) (vc : ValidContact)
    (h : vc ∈ (contacts.foldl
      (defaultProcessContact contestRules pcs index bl params cs) a).1) :
    vc ∈ a.1 ∨ vc ∈ contacts := by
  induction contacts generalizing a with
  | nil => exact Or.inl h
  | cons contact rest ih =>
    simp only [List.foldl_cons] at h
    rcases ih _ h with h' | h'
    · simp only [defaultProcessContact] at h'
      by_cases h1 : contact.contactedCallsign ∈ bl
      · rw [if_pos h1] at h'
        exact Or.inl h'
      · rw [if_neg h1] at h'
        by_cases h2 : (!(pcs.contains contact.contactedCallsign)) = true
        · rw [if_pos h2] at h'
          by_cases h3 : contestRules.allowMissingParticipants = true
          · rw [if_pos h3] at h'
            rcases List.mem_append.mp h' with h'' | h''
            · exact Or.inl h''
            · rw [List.mem_singleton.mp h'']
              exact Or.inr (List.mem_cons_self contact rest)
          · rw [if_neg h3] at h'
            exact Or.inl h'
        · rw [if_neg h2] at h'
          by_cases h4 : defaultValidator cs contact index params = true
          · rw [if_pos h4] at h'
            rcases List.mem_append.mp h' with h'' | h''
            · exact Or.inl h''
            · rw [List.mem_singleton.mp h'']
              exact Or.inr (List.mem_cons_self contact rest)
          · rw [if_neg h4] at h'
            exact Or.inl h'
    · exact Or.inr (List.mem_cons_of_mem _ h')

theorem defaultFold_good (contestRules : ContestRules)
    (pcs : List Callsign) (index : ContactIndex) (bl : List Callsign)
    (params : Option RuleParam) (l : List (Callsign × List ValidContact))
    (p : List (Callsign × List ValidContact) × ValidatorState)
    (hp : ∀ q ∈ p.1, ∀ vc ∈ q.2, vc.contactedCallsign ∉ bl)
    (hl : ∀ e ∈ l, ∀ vc ∈ e.2, vc.contactedCallsign ∉ bl) :
    ∀ q ∈ (l.foldl (defaultParticipantStep contestRules pcs index bl params)
      p).1, ∀ vc ∈ q.2, vc.contactedCallsign ∉ bl := by
  induction l generalizing p with
  | nil => simpa using hp
  | cons e rest ih =>
    simp only [List.foldl_cons]
    refine ih _ ?_ (fun e' he' vc hvc => hl e' (List.mem_cons_of_mem _ he') vc hvc)
    intro q hq vc hvc
    by_cases h : e.1 ∈ bl
    · rw [show (defaultParticipantStep contestRules pcs index bl params p e).1 =
          p.1 by simp [defaultParticipantStep, h]] at hq
      exact hp q hq vc hvc
    · rw [show (defaultParticipantStep contestRules pcs index bl params p e).1 =
          mSet p.1 e.1 (e.2.foldl (defaultProcessContact contestRules pcs index
            bl params e.1) ([], p.2)).1
          by simp [defaultParticipantStep, h]] at hq
      rcases mem_mSet _ _ _ _ hq with hq' | rfl
      · exact hp q hq' vc hvc
      · rcases defaultInnerFold_mem contestRules pcs index bl params e.1 e.2 _ vc
          hvc with h0 | h0
        · exact absurd h0 (List.not_mem_nil vc)
        · exact hl e (List.mem_cons_self e rest) vc h0

theorem applyDefaultValidation_good (vcs : List (Callsign × List ValidContact))
    (contestRules : ContestRules) (pcs : List Callsign) (index : ContactIndex)
    (bl : List Callsign) (params : Option RuleParam) (st : ValidatorState)
    (hl : ∀ e ∈ vcs, ∀ vc ∈ e.2, vc.contactedCallsign ∉ bl) :
    ∀ q ∈ (applyDefaultValidation vcs contestRules pcs index bl params st).1,
      ∀ vc ∈ q.2, vc.contactedCallsign ∉ bl := by
  unfold applyDefaultValidation
  exact defaultFold_good contestRules pcs index bl params vcs ([], st)
    (by intro q hq; exact absurd hq (List.not_mem_nil q)) hl

theorem defaultInnerFold_missing (contestRules : ContestRules)
    (pcs : List Callsign) (index : ContactIndex) (bl : List Callsign)
    (params : Option RuleParam) (cs : Callsign) (contacts : List ValidContact)
    (a : List ValidContact × ValidatorState) (x : Callsign)
    (h : x ∈ (contacts.foldl
      (defaultProcessContact contestRules pcs index bl params cs)
      a).2.missingParticipants) :
    x ∈ a.2.missingParticipants ∨ x ∉ bl := by
  induction contacts generalizing a with
  | nil => exact Or.inl h
  | cons contact rest ih =>
    simp only [List.foldl_cons] at h
    rcases ih _ h with h' | h'
    · simp only [defaultProcessContact] at h'
      by_cases h1 : contact.contactedCallsign ∈ bl
      · rw [if_pos h1] at h'
        exact Or.inl h'
      · rw [if_neg h1] at h'
        by_cases h2 : (!(pcs.contains contact.contactedCallsign)) = true
        · rw [if_pos h2] at h'
          by_cases h3 : contestRules.allowMissingParticipants = true
          · rw [if_pos h3] at h'
            rcases (mem_sAdd _ _ _).mp h' with h'' | h''
            · exact Or.inl h''
            · rw [h'']
              exact Or.inr h1
          · rw [if_neg h3] at h'
            rcases (mem_sAdd _ _ _).mp h' with h'' | h''
            · exact Or.inl h''
            · rw [h'']
              exact Or.inr h1
        · rw [if_neg h2] at h'
          by_cases h4 : defaultValidator cs contact index params = true
          · rw [if_pos h4] at h'
            exact Or.inl h'
          · rw [if_neg h4] at h'
            exact Or.inl h'
    · exact Or.inr h'

theorem defaultFold_missing (contestRules : ContestRules)
    (pcs : List Callsign) (index : ContactIndex) (bl : List Callsign)
    (params : Option RuleParam) (l : List (Callsign × List ValidContact))
    (p : List (Callsign × List ValidContact) × ValidatorState) (x : Callsign)
    (h : x ∈ (l.foldl (defaultParticipantStep contestRules pcs index bl params)
      p).2.missingParticipants) :
    x ∈ p.2.missingParticipants ∨ x ∉ bl := by
  induction l generalizing p with
  | nil => exact Or.inl h
  | cons e rest ih =>
    simp only [List.foldl_cons] at h
    rcases ih _ h with h' | h'
    · by_cases hb : e.1 ∈ bl
      · rw [show (defaultParticipantStep contestRules pcs index bl params p
            e).2.missingParticipants = p.2.missingParticipants
            by simp [defaultParticipantStep, hb]] at h'
        exact Or.inl h'
      · rw [show (defaultParticipantStep contestRules pcs index bl params p e).2 =
            (e.2.foldl (defaultProcessContact contestRules pcs index bl params
              e.1) ([], p.2)).2
            by simp [defaultParticipantStep, hb]] at h'
        exact defaultInnerFold_missing contestRules pcs index bl params e.1 e.2
          _ x h'
    · exact Or.inr h'

theorem applyDefaultValidation_missing (vcs : List (Callsign × List ValidContact))
    (contestRules : ContestRules) (pcs : List Callsign) (index : ContactIndex)
    (bl : List Callsign) (params : Option RuleParam) (st : ValidatorState)
    (x : Callsign)
    (h : x ∈ (applyDefaultValidation vcs contestRules pcs index bl params
      st).2.missingParticipants) :
    x ∈ st.missingParticipants ∨ x ∉ bl := by
  unfold applyDefaultValidation at h
  exact defaultFold_missing contestRules pcs index bl params vcs ([], st) x h

theorem uniqueInnerFold_missing (tr : List (String × TimeRange)) (cs : Callsign)
    (contacts : List ValidContact)
    (inner : List (Callsign × List ValidContact) × ValidatorState) :
    (contacts.foldl (uniqueContactStep tr cs)
      inner).2.missingParticipants = inner.2.missingParticipants := by
  induction contacts generalizing inner with
  | nil => rfl
  | cons contact rest ih =>
    simp only [List.foldl_cons]
    rw [ih]
    by_cases h : uniqueContactsByTimeRangeValidator cs contact inner.1 tr = true
    · simp [uniqueContactStep, h]
    · simp [uniqueContactStep, h]

theorem uniqueOuterFold_missing (tr : List (String × TimeRange))
    (l : List (Callsign × List ValidContact))
    (p : List (Callsign × List ValidContact) × ValidatorState) :
    (l.foldl (fun acc e =>
      e.2.foldl (uniqueContactStep tr e.1) (mSet acc.1 e.1 [], acc.2))
      p).2.missingParticipants = p.2.missingParticipants := by
  induction l generalizing p with
  | nil => rfl
  | cons e rest ih =>
    simp only [List.foldl_cons]
    rw [ih, uniqueInnerFold_missing]

theorem applyUniqueContactsByTimeRangeValidation_missing
    (vcs : List (Callsign × List ValidContact))
    (tr : List (String × TimeRange)) (st : ValidatorState) :
    (applyUniqueContactsByTimeRangeValidation vcs tr
      st).2.missingParticipants = st.missingParticipants := by
  unfold applyUniqueContactsByTimeRangeValidation
  rw [uniqueOuterFold_missing]

theorem uniqueInnerFold_good (tr : List (String × TimeRange)) (cs : Callsign)
    (contacts : List ValidContact) (bl : List Callsign)
    (inner : List (Callsign × List ValidContact) × ValidatorState)
    (hin : ∀ q ∈ inner.1, ∀ vc ∈ q.2, vc.contactedCallsign ∉ bl)
    (hcs : ∀ vc ∈ contacts, vc.contactedCallsign ∉ bl) :
    ∀ q ∈ (contacts.foldl (uniqueContactStep tr cs) inner).1,
      ∀ vc ∈ q.2, vc.contactedCallsign ∉ bl := by
  induction contacts generalizing inner with
  | nil => simpa using hin
  | cons contact rest ih =>
    simp only [List.foldl_cons]
    refine ih _ ?_ (fun vc hvc => hcs vc (List.mem_cons_of_mem _ hvc))
    intro q hq vc hvc
    by_cases h : uniqueContactsByTimeRangeValidator cs contact inner.1 tr = true
    · rw [show (uniqueContactStep tr cs inner contact).1 =
          mSet inner.1 cs ((mGet inner.1 cs).getD [] ++ [contact])
          by simp [uniqueContactStep, h]] at hq
      rcases mem_mSet _ _ _ _ hq with hq' | rfl
      · exact hin q hq' vc hvc
      · rcases List.mem_append.mp hvc with h0 | h0
        · cases hg : mGet inner.1 cs with
          | none =>
            rw [hg] at h0
            exact absurd h0 (List.not_mem_nil vc)
          | some old =>
            rw [hg] at h0
            exact hin (cs, old) (mGet_mem _ _ _ hg) vc h0
        · rw [List.mem_singleton.mp h0]
          exact hcs contact (List.mem_cons_self contact rest)
    · rw [show (uniqueContactStep tr cs inner contact).1 = inner.1
          by simp [uniqueContactStep, h]] at hq
      exact hin q hq vc hvc

theorem uniqueOuterFold_good (tr : List (String × TimeRange))
    (l : List (Callsign × List ValidContact)) (bl : List Callsign)
    (p : List (Callsign × List ValidContact) × ValidatorState)
    (hp : ∀ q ∈ p.1, ∀ vc ∈ q.2, vc.contactedCallsign ∉ bl)
    (hl : ∀ e ∈ l, ∀ vc ∈ e.2, vc.contactedCallsign ∉ bl) :
    ∀ q ∈ (l.foldl (fun acc e =>
      e.2.foldl (uniqueContactStep tr e.1) (mSet acc.1 e.1 [], acc.2)) p).1,
      ∀ vc ∈ q.2, vc.contactedCallsign ∉ bl := by
  induction l generalizing p with
  | nil => simpa using hp
  | cons e rest ih =>
    simp only [List.foldl_cons]
    refine ih _ ?_ (fun e' he' vc hvc => hl e' (List.mem_cons_of_mem _ he') vc hvc)
    refine uniqueInnerFold_good tr e.1 e.2 bl (mSet p.1 e.1 [], p.2) ?_
      (fun vc hvc => hl e (List.mem_cons_self e rest) vc hvc)
    intro q hq vc hvc
    rcases mem_mSet _ _ _ _ hq with hq' | rfl
    · exact hp q hq' vc hvc
    · exact absurd hvc (List.not_mem_nil vc)

theorem applyUniqueContactsByTimeRangeValidation_good
    (vcs : List (Callsign × List ValidContact))
    (tr : List (String × TimeRange)) (st : ValidatorState) (bl : List Callsign)
    (hl : ∀ e ∈ vcs, ∀ vc ∈ e.2, vc.contactedCallsign ∉ bl) :
    ∀ q ∈ (applyUniqueContactsByTimeRangeValidation vcs tr st).1,
      ∀ vc ∈ q.2, vc.contactedCallsign ∉ bl := by
  unfold applyUniqueContactsByTimeRangeValidation
  exact uniqueOuterFold_good tr vcs bl ([], st)
    (by intro q hq; exact absurd hq (List.not_mem_nil q)) hl

theorem applyInitialValidation_missing (rx : String → String → Bool)
    (subs : List (Callsign × List Contact)) (rulesContext : RulesContext)
    (vr : List (ValidationRule × Option RuleParam)) (context : ValidationContext)
    (bl : List Callsign) (st : ValidatorState) :
    (applyInitialValidation rx subs rulesContext vr context bl
      st).2.missingParticipants = st.missingParticipants := by
  unfold applyInitialValidation
  exact applyInitialValidationGo_missing rx rulesContext vr context bl subs [] st

theorem applyBonusRules_fst (scoredContacts : List (Callsign × List ValidContact))
    (rules : ContestRules)
    (scoringDetails : List (Callsign × ParticipantScoringDetail)) :
    (applyBonusRules scoredContacts rules scoringDetails).1.map Prod.fst =
      scoredContacts.map Prod.fst := by
  unfold applyBonusRules
  have hgen : ∀ (l : List (Callsign × List ValidContact))
      (p : List (Callsign × ℚ) × List (Callsign × ParticipantScoringDetail)),
      ((l.foldl (fun acc e =>
        let baseScore := e.2.foldl (fun sum contact => qadd sum contact.score) 0
        let ds0 :=
          match mGet acc.2 e.1 with
          | some pd =>
            mSet acc.2 e.1 { pd with bonusRuleApplied := none, givenBonus := some 0 }
          | none => acc.2
        let r := rules.rules.bonus.foldl (fun inner rule =>
          let score := bonusers rule.1 inner.1 rule.2
          let ds :=
            if mHas inner.2 e.1 && score ≠ inner.1 then
              match mGet inner.2 e.1 with
              | some pd =>
                mSet inner.2 e.1
                  { pd with bonusRuleApplied := some rule.1,
                            givenBonus := some (qsub score inner.1) }
              | none => inner.2
            else inner.2
          (score, ds)) (baseScore, ds0)
        (acc.1 ++ [(e.1, r.1)], r.2)) p).1).map Prod.fst =
        p.1.map Prod.fst ++ l.map Prod.fst := by
    intro l
    induction l with
    | nil => intro p; simp
    | cons e rest ih =>
      intro p
      simp only [List.foldl_cons]
      rw [ih]
      simp
  rw [hgen]
  simp

theorem partitionFold_mem (cs : List Callsign) (l : List (Callsign × ℚ))
    (p : List (Callsign × ℚ) × List (Callsign × ℚ)) (x : Callsign × ℚ) :
    (x ∈ (l.foldl (fun acc result =>
      if cs.contains result.1 then (acc.1, acc.2 ++ [result])
      else (acc.1 ++ [result], acc.2)) p).1 → x ∈ p.1 ∨ x ∈ l) ∧
    (x ∈ (l.foldl (fun acc result =>
      if cs.contains result.1 then (acc.1, acc.2 ++ [result])
      else (acc.1 ++ [result], acc.2)) p).2 → x ∈ p.2 ∨ x ∈ l) := by
  induction l generalizing p with
  | nil => exact ⟨Or.inl, Or.inl⟩
  | cons r rest ih =>
    simp only [List.foldl_cons]
    constructor
    · intro h
      rcases (ih _).1 h with h' | h'
      · by_cases hc : cs.contains r.1 = true
        · rw [if_pos hc] at h'
          exact Or.inl h'
        · rw [if_neg hc] at h'
          rcases List.mem_append.mp h' with h'' | h''
          · exact Or.inl h''
          · rw [List.mem_singleton.mp h'']
            exact Or.inr (List.mem_cons_self r rest)
      · exact Or.inr (List.mem_cons_of_mem _ h')
    · intro h
      rcases (ih _).2 h with h' | h'
      · by_cases hc : cs.contains r.1 = true
        · rw [if_pos hc] at h'
          rcases List.mem_append.mp h' with h'' | h''
          · exact Or.inl h''
          · rw [List.mem_singleton.mp h'']
            exact Or.inr (List.mem_cons_self r rest)
        · rw [if_neg hc] at h'
          exact Or.inl h'
      · exact Or.inr (List.mem_cons_of_mem _ h')

theorem mem_keys_of_mem_map_some {M : List (Callsign × List ValidContact)}
    {b : Callsign}
    (h : b ∈ (M.map (fun e => (e.1, some e.2))).map Prod.fst) :
    b ∈ M.map Prod.fst := by
  rcases List.mem_map.mp h with ⟨q, hq, hqb⟩
  rcases List.mem_map.mp hq with ⟨e, he, rfl⟩
  exact List.mem_map.mpr ⟨e, he, hqb⟩

theorem validateContacts_keys_not_bl (rx : String → String → Bool)
    (subs : List (Callsign × List Contact)) (rulesContext : RulesContext)
    (b : Callsign) (hb : b ∈ rulesContext.contestRules.blacklist) :
    b ∉ (validateContacts rx subs rulesContext).validContacts.map Prod.fst := by
  intro hmem
  cases hdef : extractRule rulesContext.contestRules.rules.validation
      ValidationRule.default with
  | none =>
    cases huniq : extractRule rulesContext.contestRules.rules.validation
        ValidationRule.uniqueContactsByTimeRange with
    | none =>
      cases hmc : extractRule rulesContext.contestRules.rules.validation
          ValidationRule.minimumContacts with
      | none =>
        simp only [validateContacts, hdef, huniq, hmc] at hmem
        rcases List.mem_map.mp hmem with ⟨q, hq, hqb⟩
        rcases List.mem_map.mp hq with ⟨e, he, rfl⟩
        have hk := (applyInitialValidation_keys rx rulesContext _ _ _ subs _
          b).mp (List.mem_map.mpr ⟨e, he, hqb⟩)
        exact hk.2 hb
      | some pr =>
        obtain ⟨mr, mparam⟩ := pr
        cases mparam with
        | none =>
          simp only [validateContacts, hdef, huniq, hmc] at hmem
          rcases List.mem_map.mp hmem with ⟨q, hq, hqb⟩
          rcases List.mem_map.mp hq with ⟨e, he, rfl⟩
          have hk := (applyInitialValidation_keys rx rulesContext _ _ _ subs _
            b).mp (List.mem_map.mpr ⟨e, he, hqb⟩)
          exact hk.2 hb
        | some p =>
          simp only [validateContacts, hdef, huniq, hmc] at hmem
          rcases (mem_keys_iff _ _).mp hmem with ⟨v, hv⟩
          rcases (minimumContactsValidator_mem _ _ _ _ _ _ _).mp hv with
            ⟨l, hl, _, _⟩ | ⟨_, hmp, _, _, _⟩
          · have hk := (applyInitialValidation_keys rx rulesContext _ _ _ subs _
              b).mp ((mem_keys_iff _ _).mpr ⟨l, hl⟩)
            exact hk.2 hb
          · rcases (countAppearances_missing _ _ _ _ _ _).mp hmp with
              hm1 | ⟨_, _, e, he, vc, hvc, hcc⟩
            · rw [applyInitialValidation_missing] at hm1
              exact (List.not_mem_nil b) hm1
            · have hg := applyInitialValidation_good rx rulesContext _ _ _ subs
                _ e he vc hvc
              rw [hcc] at hg
              exact hg hb
    | some u =>
      cases hmc : extractRule rulesContext.contestRules.rules.validation
          ValidationRule.minimumContacts with
      | none =>
        simp only [validateContacts, hdef, huniq, hmc] at hmem
        have hk0 := mem_keys_of_mem_map_some hmem
        rw [applyUniqueContactsByTimeRangeValidation_keys,
          applyInitialValidation_keys] at hk0
        exact hk0.2 hb
      | some pr =>
        obtain ⟨mr, mparam⟩ := pr
        cases mparam with
        | none =>
          simp only [validateContacts, hdef, huniq, hmc] at hmem
          have hk0 := mem_keys_of_mem_map_some hmem
          rw [applyUniqueContactsByTimeRangeValidation_keys,
            applyInitialValidation_keys] at hk0
          exact hk0.2 hb
        | some p =>
          simp only [validateContacts, hdef, huniq, hmc] at hmem
          rcases (mem_keys_iff _ _).mp hmem with ⟨v, hv⟩
          rcases (minimumContactsValidator_mem _ _ _ _ _ _ _).mp hv with
            ⟨l, hl, _, _⟩ | ⟨_, hmp, _, _, _⟩
          · have hk0 := (mem_keys_iff _ _).mpr ⟨l, hl⟩
            rw [applyUniqueContactsByTimeRangeValidation_keys,
              applyInitialValidation_keys] at hk0
            exact hk0.2 hb
          · rcases (countAppearances_missing _ _ _ _ _ _).mp hmp with
              hm1 | ⟨_, _, e, he, vc, hvc, hcc⟩
            · rw [applyUniqueContactsByTimeRangeValidation_missing,
                applyInitialValidation_missing] at hm1
              exact (List.not_mem_nil b) hm1
            · have hg := applyUniqueContactsByTimeRangeValidation_good _ _ _ _
                (fun e' he' vc' hvc' => applyInitialValidation_good rx
                  rulesContext _ _ _ subs _ e' he' vc' hvc') e he vc hvc
              rw [hcc] at hg
              exact hg hb
  | some cfg =>
    cases huniq : extractRule rulesContext.contestRules.rules.validation
        ValidationRule.uniqueContactsByTimeRange with
    | none =>
      cases hmc : extractRule rulesContext.contestRules.rules.validation
          ValidationRule.minimumContacts with
      | none =>
        simp only [validateContacts, hdef, huniq, hmc] at hmem
        have hk0 := mem_keys_of_mem_map_some hmem
        rw [applyDefaultValidation_keys, applyInitialValidation_keys] at hk0
        exact hk0.2 hb
      | some pr =>
        obtain ⟨mr, mparam⟩ := pr
        cases mparam with
        | none =>
          simp only [validateContacts, hdef, huniq, hmc] at hmem
          have hk0 := mem_keys_of_mem_map_some hmem
          rw [applyDefaultValidation_keys, applyInitialValidation_keys] at hk0
          exact hk0.2 hb
        | some p =>
          simp only [validateContacts, hdef, huniq, hmc] at hmem
          rcases (mem_keys_iff _ _).mp hmem with ⟨v, hv⟩
          rcases (minimumContactsValidator_mem _ _ _ _ _ _ _).mp hv with
            ⟨l, hl, _, _⟩ | ⟨_, hmp, _, _, _⟩
          · have hk0 := (mem_keys_iff _ _).mpr ⟨l, hl⟩
            rw [applyDefaultValidation_keys, applyInitialValidation_keys] at hk0
            exact hk0.2 hb
          · rcases (countAppearances_missing _ _ _ _ _ _).mp hmp with
              hm1 | ⟨_, _, e, he, vc, hvc, hcc⟩
            · rcases applyDefaultValidation_missing _ _ _ _ _ _ _ _ hm1 with
                hm2 | hm2
              · rw [applyInitialValidation_missing] at hm2
                exact (List.not_mem_nil b) hm2
              · exact hm2 hb
            · have hg := applyDefaultValidation_good _ _ _ _ _ _ _
                (fun e' he' vc' hvc' => applyInitialValidation_good rx
                  rulesContext _ _ _ subs _ e' he' vc' hvc') e he vc hvc
              rw [hcc] at hg
              exact hg hb
    | some u =>
      cases hmc : extractRule rulesContext.contestRules.rules.validation
          ValidationRule.minimumContacts with
      | none =>
        simp only [validateContacts, hdef, huniq, hmc] at hmem
        have hk0 := mem_keys_of_mem_map_some hmem
        rw [applyUniqueContactsByTimeRangeValidation_keys,
          applyDefaultValidation_keys, applyInitialValidation_keys] at hk0
        exact hk0.2 hb
      | some pr =>
        obtain ⟨mr, mparam⟩ := pr
        cases mparam with
        | none =>
          simp only [validateContacts, hdef, huniq, hmc] at hmem
          have hk0 := mem_keys_of_mem_map_some hmem
          rw [applyUniqueContactsByTimeRangeValidation_keys,
            applyDefaultValidation_keys, applyInitialValidation_keys] at hk0
          exact hk0.2 hb
        | some p =>
          simp only [validateContacts, hdef, huniq, hmc] at hmem
          rcases (mem_keys_iff _ _).mp hmem with ⟨v, hv⟩
          rcases (minimumContactsValidator_mem _ _ _ _ _ _ _).mp hv with
            ⟨l, hl, _, _⟩ | ⟨_, hmp, _, _, _⟩
          · have hk0 := (mem_keys_iff _ _).mpr ⟨l, hl⟩
            rw [applyUniqueContactsByTimeRangeValidation_keys,
              applyDefaultValidation_keys, applyInitialValidation_keys] at hk0
            exact hk0.2 hb
          · rcases (countAppearances_missing _ _ _ _ _ _).mp hmp with
              hm1 | ⟨_, _, e, he, vc, hvc, hcc⟩
            · rw [applyUniqueContactsByTimeRangeValidation_missing] at hm1
              rcases applyDefaultValidation_missing _ _ _ _ _ _ _ _ hm1 with
                hm2 | hm2
              · rw [applyInitialValidation_missing] at hm2
                exact (List.not_mem_nil b) hm2
              · exact hm2 hb
            · have hg := applyUniqueContactsByTimeRangeValidation_good _ _ _ _
                (fun e' he' vc' hvc' => applyDefaultValidation_good _ _ _ _ _ _ _
                  (fun e2 he2 vc2 hvc2 => applyInitialValidation_good rx
                    rulesContext _ _ _ subs _ e2 he2 vc2 hvc2) e' he' vc' hvc')
                e he vc hvc
              rw [hcc] at hg
              exact hg hb

/-- **C4**: a blacklisted callsign is never a key of the validated-contacts
map returned by validation, never appears in `results`, and never appears
in `nonCompetingResults`, for every configuration and every set of
submissions. -/
theorem c4_blacklisted_never_in_results (rx : String → String → Bool)
    (submissions : List (Callsign × List Contact)) (rules : ContestRules)
    (b : Callsign) (hb : b ∈ rules.blacklist) :
    b ∉ ((validateContacts rx submissions
        (getRulesContext rules)).validContacts.map Prod.fst) ∧
    b ∉ ((scoreContest rx submissions rules).results.map Prod.fst) ∧
    b ∉ ((scoreContest rx submissions rules).nonCompetingResults.map
      Prod.fst) := by
  have h1 := validateContacts_keys_not_bl rx submissions (getRulesContext rules)
    b hb
  refine ⟨h1, ?_, ?_⟩
  · intro hmem
    simp only [scoreContest] at hmem
    have h2 := ((applyTiebreakers_perm _ _ _).map Prod.fst).mem_iff.mp hmem
    have h3 := ((jsSortBy_perm _ _).map Prod.fst).mem_iff.mp h2
    rcases List.mem_map.mp h3 with ⟨x, hx, hxb⟩
    rcases (partitionFold_mem rules.nonCompeting _ _ x).1 hx with h4 | h4
    · exact absurd h4 (List.not_mem_nil x)
    · have h5 : b ∈ (applyBonusRules _ rules _).1.map Prod.fst :=
        List.mem_map.mpr ⟨x, h4, hxb⟩
      rw [applyBonusRules_fst, scoreContacts_fst] at h5
      exact h1 (keys_filterMap_scoredEntry _ _ _ _ _ _ _ h5)
  · intro hmem
    simp only [scoreContest] at hmem
    have h3 := ((jsSortBy_perm _ _).map Prod.fst).mem_iff.mp hmem
    rcases List.mem_map.mp h3 with ⟨x, hx, hxb⟩
    rcases (partitionFold_mem rules.nonCompeting _ _ x).2 hx with h4 | h4
    · exact absurd h4 (List.not_mem_nil x)
    · have h5 : b ∈ (applyBonusRules _ rules _).1.map Prod.fst :=
        List.mem_map.mpr ⟨x, h4, hxb⟩
      rw [applyBonusRules_fst, scoreContacts_fst] at h5
      exact h1 (keys_filterMap_scoredEntry _ _ _ _ _ _ _ h5)

def c4Rules : ContestRules := { blacklist := ["X"], rules := emptyRuleSet }

/-- Witness for `c4_blacklisted_never_in_results` on a concrete blacklist
and submission set. -/
theorem c4_blacklisted_never_in_results_witness :
    "X" ∈ c4Rules.blacklist ∧
    ("X" ∉ ((validateContacts rxAlways [("X", []), ("A", [])]
        (getRulesContext c4Rules)).validContacts.map Prod.fst) ∧
      "X" ∉ ((scoreContest rxAlways [("X", []), ("A", [])]
        c4Rules).results.map Prod.fst) ∧
      "X" ∉ ((scoreContest rxAlways [("X", []), ("A", [])]
        c4Rules).nonCompetingResults.map Prod.fst)) :=
  ⟨by decide, c4_blacklisted_never_in_results rxAlways [("X", []), ("A", [])]
    c4Rules "X" (by decide)⟩
